import Mathlib

/-!
# coro: tasks, self-deleting tasks and the FIFO thread pool

A shallow embedding of `include/coro/task.hpp`, `include/coro/thread_pool.hpp`,
`src/thread_pool.cpp` and `src/detail/task_self_deleting.cpp`.

* A coroutine handle is `none` (nullptr) or `some i`, the index of a frame in the heap
  `World.frames`.
* A coroutine body is a list of statements `Instr`; the C++ coroutine machinery
  (initial suspend, `co_await`, symmetric transfer, `unhandled_exception`, final suspend)
  is the small-step function `World.step`, iterated by `World.exec` under a fuel bound.
* `std::atomic<std::size_t>` is a `Nat` updated modulo `2 ^ 64`.
* Threads are sequentialised: a pool operation runs to its end before the next starts, and the
  handles a worker has popped but not yet accounted for are `World.executing`.
-/

namespace coro

/-! ## Handles, exceptions, atomics -/

/-- The type `std::coroutine_handle<>`: `none` is `nullptr`, `some i` is the frame at index `i`. -/
abbrev Handle := Option Nat

/-- Exceptions that travel through the library: those of user code, and the two
`std::runtime_error`s the library throws itself. -/
inductive Exn (ε : Type) where
  /-- An exception thrown by a coroutine body. -/
  | user (e : ε)
  /-- The error "The return value was never set, did you execute the coroutine?". -/
  | never_set
  /-- The error "coro::thread_pool is shutting down, unable to schedule new tasks". -/
  | shutting_down
  deriving DecidableEq, Repr

/-- Ways an execution can fail to produce a state. -/
inductive Fault where
  /-- Undefined behaviour of C++: a null, finished or destroyed handle is resumed or queried. -/
  | undefined
  /-- The thread waits on the condition variable and nothing can wake it. -/
  | blocked
  /-- The fuel bound of the interpreter was reached. -/
  | outOfFuel
  deriving DecidableEq, Repr

deriving instance DecidableEq for Except

/-- Number of values of `std::size_t`. -/
def SIZE_MOD : Nat := 2 ^ 64

/-- Atomic `fetch_add` on a `std::size_t`: the new value. -/
def fetch_add (s n : Nat) : Nat := (s + n) % 2 ^ 64

/-- Atomic `fetch_sub` on a `std::size_t`: the new value, `s - n` modulo `2 ^ 64` (it wraps
below zero). -/
def fetch_sub (s n : Nat) : Nat := ((2 ^ 64 - n % 2 ^ 64) + s) % 2 ^ 64

/-! ## Promises (task.hpp, task_self_deleting.cpp) -/

/-- The member `variant_type = std::variant<std::monostate, stored_type, std::exception_ptr>`.
For a reference return type `stored_type` is a pointer, so `α` is then the type of addresses. -/
inductive Storage (α ε : Type) where
  | monostate
  | stored (v : α)
  | exception (e : Exn ε)
  deriving DecidableEq, Repr

/-- The struct `detail::PromiseBase`. -/
structure PromiseBase where
  continuation_ : Handle := none
  deriving DecidableEq, Repr

/-- The setter `PromiseBase::continuation`. -/
def PromiseBase.continuation (p : PromiseBase) (continuation : Handle) : PromiseBase :=
  { p with continuation_ := continuation }

/-- The function `PromiseBase::FinalAwaitable::await_suspend`: the frame to transfer to, `none`
standing for `std::noop_coroutine()`. -/
def FinalAwaitable.await_suspend (promise : PromiseBase) : Option Nat :=
  match promise.continuation_ with
  | some c => some c
  | none => none

/-- The struct `detail::Promise<return_type>` for a non-void `return_type`. -/
structure Promise (α ε : Type) extends PromiseBase where
  storage_ : Storage α ε := Storage.monostate
  deriving DecidableEq, Repr

/-- The function `Promise::return_value`. -/
def Promise.return_value {α ε : Type} (p : Promise α ε) (value : α) : Promise α ε :=
  { p with storage_ := Storage.stored value }

/-- The function `Promise::unhandled_exception`, `e` being `std::current_exception()`. -/
def Promise.unhandled_exception {α ε : Type} (p : Promise α ε) (e : Exn ε) : Promise α ε :=
  { p with storage_ := Storage.exception e }

/-- The function `Promise::result() &` (and `const &`): the value, or the exception thrown. -/
def Promise.result {α ε : Type} (p : Promise α ε) : Except (Exn ε) α :=
  match p.storage_ with
  | Storage.stored v => Except.ok v
  | Storage.exception e => Except.error e
  | Storage.monostate => Except.error Exn.never_set

/-- The struct `detail::Promise<void>`. -/
structure PromiseVoid (ε : Type) extends PromiseBase where
  exception_ : Option (Exn ε) := none
  deriving DecidableEq, Repr

/-- The function `Promise<void>::return_void`. -/
def PromiseVoid.return_void {ε : Type} (p : PromiseVoid ε) : PromiseVoid ε := p

/-- The function `Promise<void>::unhandled_exception`. -/
def PromiseVoid.unhandled_exception {ε : Type} (p : PromiseVoid ε) (e : Exn ε) : PromiseVoid ε :=
  { p with exception_ := some e }

/-- The function `Promise<void>::result`. -/
def PromiseVoid.result {ε : Type} (p : PromiseVoid ε) : Except (Exn ε) Unit :=
  match p.exception_ with
  | some e => Except.error e
  | none => Except.ok ()

/-- The class `detail::PromiseSelfDeleting`; `executorSize_` is `true` when the pointer is not
null, and it then points to the pool's `size_`. -/
structure PromiseSelfDeleting where
  executorSize_ : Bool := false
  deriving DecidableEq, Repr

/-- The function `PromiseSelfDeleting::executor_size`. -/
def PromiseSelfDeleting.executor_size (_p : PromiseSelfDeleting) : PromiseSelfDeleting :=
  { executorSize_ := true }

/-- The function `PromiseSelfDeleting::final_suspend`, as its effect on the counter `size`. -/
def PromiseSelfDeleting.final_suspend (p : PromiseSelfDeleting) (size : Nat) : Nat :=
  if p.executorSize_ then fetch_sub size 1 else size

/-- The function `PromiseSelfDeleting::unhandled_exception`: the exception is dropped. -/
def PromiseSelfDeleting.unhandled_exception {ε : Type} (p : PromiseSelfDeleting) (_e : Exn ε) :
    PromiseSelfDeleting := p

/-! ## Coroutine frames -/

/-- Statements of a coroutine body. -/
inductive Instr (α ε : Type) where
  /-- The statement `co_await std::suspend_always {}`. -/
  | suspend_always
  /-- The statement `co_await std::suspend_never {}`. -/
  | suspend_never
  /-- Append a tag to the shared log (a side effect visible from outside). -/
  | record (tag : Nat)
  /-- The statement `co_await task` for the `Task` whose `coroutine_` is `h`. -/
  | await (h : Handle)
  /-- The statement `co_await tp.schedule()` (also `co_await tp.yield()`). -/
  | schedule
  /-- The call `tp.resume(h)`. -/
  | resume (h : Handle)
  /-- The call `tp.resume(handles)`. -/
  | resumeBatch (handles : List Handle)
  /-- The call `tp.spawn(std::move(task))` for the `Task<void>` whose `coroutine_` is `h`. -/
  | spawn (h : Handle)
  /-- The statement `co_return value`. -/
  | co_return (value : α)
  /-- The statement `co_return` of a void coroutine. -/
  | co_return_void
  /-- The statement `throw e`, with no handler in the body. -/
  | throw (e : ε)
  deriving DecidableEq, Repr

/-- The promise object of a frame, by promise type. -/
inductive PromiseState (α ε : Type) where
  | value (p : Promise α ε)
  | void (p : PromiseVoid ε)
  | selfDeleting (p : PromiseSelfDeleting)
  deriving DecidableEq, Repr

/-- A coroutine frame. -/
structure Frame (α ε : Type) where
  /-- The promise object. -/
  promise : PromiseState α ε
  /-- The statements not yet executed. -/
  body : List (Instr α ε)
  /-- The task this frame is suspended on: its `await_resume` runs on resumption. -/
  awaiting : Handle := none
  /-- The frame is suspended at its final suspend point (`handle.done()`). -/
  done : Bool := false
  /-- The frame was destroyed. -/
  destroyed : Bool := false
  /-- The `Task` parameter the frame owns (`user_task` of `make_task_self_deleting`). -/
  owns : Handle := none
  /-- The values `co_await` expressions of this frame evaluated to, oldest first. -/
  received : List α := []
  deriving DecidableEq, Repr

/-- The class `ThreadPool`: its data members (mutex and condition variable carry no state). -/
structure ThreadPool where
  /-- The option `opts_.threadCount_`. -/
  threadCount_ : Nat := 0
  /-- The member `threads_`: the executor index of each started thread. -/
  threads_ : List Nat := []
  queue_ : List Handle := []
  size_ : Nat := 0
  shutdownRequested_ : Bool := false
  deriving DecidableEq, Repr

/-- The program state: the coroutine heap, one thread pool, the handles the workers hold between
`queue_.pop_front()` and their `size_.fetch_sub(1)`, and the log written by `Instr.record`. -/
structure World (α ε : Type) where
  frames : List (Frame α ε) := []
  pool : ThreadPool := {}
  executing : List Handle := []
  log : List Nat := []
  deriving DecidableEq, Repr

/-! ## The heap -/

/-- The live frame a handle refers to: `none` for `nullptr`, for an address that holds no frame
and for a destroyed frame. -/
def World.frame? {α ε : Type} (w : World α ε) (h : Handle) : Option (Frame α ε) :=
  match h with
  | none => none
  | some i =>
    match w.frames[i]? with
    | some fr => if fr.destroyed then none else some fr
    | none => none

/-- Overwrite the frame at index `i`. -/
def World.setFrame {α ε : Type} (w : World α ε) (i : Nat) (fr : Frame α ε) : World α ε :=
  { w with frames := w.frames.set i fr }

/-- The query `handle.done()`; it is defined for handles of live frames only. -/
def World.done {α ε : Type} (w : World α ε) (h : Handle) : Option Bool :=
  match w.frame? h with
  | some fr => some fr.done
  | none => none

/-- The call `handle.destroy()`. -/
def World.destroy {α ε : Type} (w : World α ε) (h : Handle) : World α ε :=
  match h with
  | none => w
  | some i =>
    match w.frames[i]? with
    | some fr => w.setFrame i { fr with destroyed := true }
    | none => w

/-- Store a continuation in the promise of a frame (`promise().continuation(h)`); a
self-deleting promise has no such member. -/
def Frame.setContinuation {α ε : Type} (fr : Frame α ε) (h : Handle) : Frame α ε :=
  match fr.promise with
  | PromiseState.value p =>
    { fr with promise := PromiseState.value { p with toPromiseBase := p.toPromiseBase.continuation h } }
  | PromiseState.void p =>
    { fr with promise := PromiseState.void { p with toPromiseBase := p.toPromiseBase.continuation h } }
  | PromiseState.selfDeleting _ => fr

/-- The member `continuation_` of a frame. -/
def Frame.continuation_ {α ε : Type} (fr : Frame α ε) : Handle :=
  match fr.promise with
  | PromiseState.value p => p.continuation_
  | PromiseState.void p => p.continuation_
  | PromiseState.selfDeleting _ => none

/-! ## ThreadPool: enqueueing (thread_pool.cpp, thread_pool.hpp) -/

/-- The function `ThreadPool::schedule_impl`. -/
def ThreadPool.schedule_impl {α ε : Type} (w : World α ε) (handle : Handle) :
    Except Fault (World α ε) :=
  match handle with
  | none => Except.ok w
  | some i =>
    match w.done (some i) with
    | none => Except.error Fault.undefined
    | some true => Except.ok w
    | some false => Except.ok { w with pool := { w.pool with queue_ := w.pool.queue_ ++ [some i] } }

/-- The function `ThreadPool::schedule()`: the `ScheduleOperation` (here `()`), or the
`std::runtime_error` thrown, and the pool afterwards. -/
def ThreadPool.schedule {ε : Type} (p : ThreadPool) : Except (Exn ε) Unit × ThreadPool :=
  let p1 := { p with size_ := fetch_add p.size_ 1 }
  if !p1.shutdownRequested_ then
    (Except.ok (), p1)
  else
    (Except.error Exn.shutting_down, { p1 with size_ := fetch_sub p1.size_ 1 })

/-- The function `ThreadPool::ScheduleOperation::await_suspend`. -/
def ScheduleOperation.await_suspend {α ε : Type} (w : World α ε) (awaitingCoroutine : Handle) :
    Except Fault (World α ε) :=
  ThreadPool.schedule_impl w awaitingCoroutine

/-- The function `ThreadPool::resume(std::coroutine_handle<>)`. -/
def ThreadPool.resume {α ε : Type} (w : World α ε) (handle : Handle) :
    Except Fault (World α ε × Bool) :=
  match handle with
  | none => Except.ok (w, false)
  | some i =>
    match w.done (some i) with
    | none => Except.error Fault.undefined
    | some true => Except.ok (w, false)
    | some false =>
      let w1 := { w with pool := { w.pool with size_ := fetch_add w.pool.size_ 1 } }
      if w1.pool.shutdownRequested_ then
        Except.ok ({ w1 with pool := { w1.pool with size_ := fetch_sub w1.pool.size_ 1 } }, false)
      else
        match ThreadPool.schedule_impl w1 (some i) with
        | Except.error e => Except.error e
        | Except.ok w2 => Except.ok (w2, true)

/-- The loop of `ThreadPool::resume(const range_type&)` under the lock: the queue and the
count of null handles after the handles have been visited in order. -/
def ThreadPool.resume_loop : List Handle → List Handle → Nat → List Handle × Nat
  | [], queue, null_handles => (queue, null_handles)
  | handle :: handles, queue, null_handles =>
    if handle != none then ThreadPool.resume_loop handles (queue ++ [handle]) null_handles
    else ThreadPool.resume_loop handles queue (null_handles + 1)

/-- The function `ThreadPool::resume(const range_type&)`: the pool afterwards and `total`. -/
def ThreadPool.resume_handles (p : ThreadPool) (handles : List Handle) : ThreadPool × Nat :=
  let p1 := { p with size_ := fetch_add p.size_ handles.length }
  let r := ThreadPool.resume_loop handles p1.queue_ 0
  let p2 := { p1 with queue_ := r.1 }
  let null_handles := r.2
  let p3 := if null_handles > 0 then { p2 with size_ := fetch_sub p2.size_ null_handles } else p2
  let total := (handles.length - null_handles) % 2 ^ 64
  (p3, total)

/-- The coroutine `make_task_self_deleting` (declared as `makeTaskSelfDeleting`): a new frame,
suspended at its initial suspend point, whose body is `co_await user_task; co_return;`.
Returns the heap and the index of the frame. -/
def makeTaskSelfDeleting {α ε : Type} (w : World α ε) (user_task : Handle) : World α ε × Nat :=
  ({ w with frames := w.frames ++
      [{ promise := PromiseState.selfDeleting {},
         body := [Instr.await user_task, Instr.co_return_void],
         owns := user_task }] },
   w.frames.length)

/-- The call `wrapperTask.promise().executor_size(size_)`. -/
def World.executor_size {α ε : Type} (w : World α ε) (wrapperTask : Nat) : World α ε :=
  match w.frames[wrapperTask]? with
  | some fr =>
    match fr.promise with
    | PromiseState.selfDeleting p =>
      w.setFrame wrapperTask { fr with promise := PromiseState.selfDeleting p.executor_size }
    | _ => w
  | none => w

/-- The function `ThreadPool::spawn`, `task` being the `coroutine_` of the task moved in. -/
def ThreadPool.spawn {α ε : Type} (w : World α ε) (task : Handle) :
    Except Fault (World α ε × Bool) :=
  let w1 := { w with pool := { w.pool with size_ := fetch_add w.pool.size_ 1 } }
  let r := makeTaskSelfDeleting w1 task
  let w2 := r.1.executor_size r.2
  ThreadPool.resume w2 (some r.2)

/-- The accessor `ThreadPool::size`. -/
abbrev ThreadPool.size (p : ThreadPool) : Nat := p.size_

/-- The accessor `ThreadPool::empty`. -/
abbrev ThreadPool.empty (p : ThreadPool) : Bool := p.size == 0

/-- The accessor `ThreadPool::queue_size`. -/
abbrev ThreadPool.queue_size (p : ThreadPool) : Nat := p.queue_.length

/-- The accessor `ThreadPool::queue_empty`. -/
abbrev ThreadPool.queue_empty (p : ThreadPool) : Bool := p.queue_size == 0

/-- The accessor `ThreadPool::threadCount`. -/
abbrev ThreadPool.threadCount (p : ThreadPool) : Nat := p.threads_.length

/-! ## Running a coroutine -/

/-- Where control goes after one step of the running coroutine. -/
inductive Next where
  /-- Frame `f` runs next (the same frame continues, or a symmetric transfer to `f`). -/
  | run (f : Nat)
  /-- Control returns to whoever called `handle.resume()`. -/
  | ret
  deriving DecidableEq, Repr

/-- The final suspend point of frame `f`, whose state before it is `fr`.
A task suspends there (`done`) and `FinalAwaitable::await_suspend` names the next coroutine; a
self-deleting task runs `PromiseSelfDeleting::final_suspend`, does not suspend, and its frame is
destroyed together with the task parameter it owns. -/
def World.final {α ε : Type} (w : World α ε) (f : Nat) (fr : Frame α ε) : World α ε × Next :=
  match fr.promise with
  | PromiseState.value p =>
    (w.setFrame f { fr with done := true },
      match FinalAwaitable.await_suspend p.toPromiseBase with
      | some c => Next.run c
      | none => Next.ret)
  | PromiseState.void p =>
    (w.setFrame f { fr with done := true },
      match FinalAwaitable.await_suspend p.toPromiseBase with
      | some c => Next.run c
      | none => Next.ret)
  | PromiseState.selfDeleting p =>
    let w1 := { w with pool := { w.pool with size_ := p.final_suspend w.pool.size_ } }
    let w2 := w1.setFrame f { fr with destroyed := true }
    (w2.destroy fr.owns, Next.ret)

/-- An exception leaves the body of frame `f`: `unhandled_exception`, then the final suspend. -/
def World.raise {α ε : Type} (w : World α ε) (f : Nat) (fr : Frame α ε) (e : Exn ε) :
    World α ε × Next :=
  match fr.promise with
  | PromiseState.value p =>
    w.final f { fr with promise := PromiseState.value (p.unhandled_exception e) }
  | PromiseState.void p =>
    w.final f { fr with promise := PromiseState.void (p.unhandled_exception e) }
  | PromiseState.selfDeleting p =>
    w.final f { fr with promise := PromiseState.selfDeleting (p.unhandled_exception e) }

/-- The statement `co_await task` reached by frame `f` (state `fr`, the statement already
consumed) for the task with handle `h`: `AwaitableBase::await_ready` and `await_suspend`. -/
def World.await {α ε : Type} (w : World α ε) (f : Nat) (fr : Frame α ε) (h : Handle) :
    Except Fault (World α ε × Next) :=
  match h with
  | none => Except.error Fault.undefined
  | some c =>
    match w.frame? (some c) with
    | none => Except.error Fault.undefined
    | some fc =>
      match fc.promise with
      | PromiseState.selfDeleting _ => Except.error Fault.undefined
      | _ =>
        let w1 := w.setFrame f { fr with awaiting := some c }
        if fc.done then
          Except.ok (w1, Next.run f)
        else
          match w1.frames[c]? with
          | some fc1 => Except.ok (w1.setFrame c (fc1.setContinuation (some f)), Next.run c)
          | none => Except.error Fault.undefined

/-- The call `await_resume` of frame `f` (state `fr`) on the task `c` it was suspended on:
`coroutine_.promise().result()`. -/
def World.await_resume {α ε : Type} (w : World α ε) (f : Nat) (fr : Frame α ε) (c : Nat) :
    Except Fault (World α ε × Next) :=
  match w.frame? (some c) with
  | none => Except.error Fault.undefined
  | some fc =>
    match fc.promise with
    | PromiseState.value p =>
      match p.result with
      | Except.ok v =>
        Except.ok (w.setFrame f { fr with awaiting := none, received := fr.received ++ [v] },
          Next.run f)
      | Except.error e => Except.ok (w.raise f { fr with awaiting := none } e)
    | PromiseState.void p =>
      match p.result with
      | Except.ok _ => Except.ok (w.setFrame f { fr with awaiting := none }, Next.run f)
      | Except.error e => Except.ok (w.raise f { fr with awaiting := none } e)
    | PromiseState.selfDeleting _ => Except.error Fault.undefined

/-- One statement `i` of frame `f`, whose state with the statement consumed is `fr`. -/
def World.instr {α ε : Type} (w : World α ε) (f : Nat) (fr : Frame α ε) (i : Instr α ε) :
    Except Fault (World α ε × Next) :=
  match i with
  | Instr.suspend_always => Except.ok (w.setFrame f fr, Next.ret)
  | Instr.suspend_never => Except.ok (w.setFrame f fr, Next.run f)
  | Instr.record tag =>
    Except.ok ({ w.setFrame f fr with log := w.log ++ [tag] }, Next.run f)
  | Instr.await h => w.await f fr h
  | Instr.schedule =>
    let w1 := w.setFrame f fr
    let r : Except (Exn ε) Unit × ThreadPool := ThreadPool.schedule w1.pool
    match r.1 with
    | Except.error e => Except.ok (World.raise { w1 with pool := r.2 } f fr e)
    | Except.ok _ =>
      match ScheduleOperation.await_suspend { w1 with pool := r.2 } (some f) with
      | Except.error e => Except.error e
      | Except.ok w2 => Except.ok (w2, Next.ret)
  | Instr.resume h =>
    match ThreadPool.resume (w.setFrame f fr) h with
    | Except.error e => Except.error e
    | Except.ok r => Except.ok (r.1, Next.run f)
  | Instr.resumeBatch handles =>
    let w1 := w.setFrame f fr
    Except.ok ({ w1 with pool := (w1.pool.resume_handles handles).1 }, Next.run f)
  | Instr.spawn h =>
    match ThreadPool.spawn (w.setFrame f fr) h with
    | Except.error e => Except.error e
    | Except.ok r => Except.ok (r.1, Next.run f)
  | Instr.co_return value =>
    match fr.promise with
    | PromiseState.value p =>
      Except.ok (w.final f { fr with promise := PromiseState.value (p.return_value value) })
    | _ => Except.error Fault.undefined
  | Instr.co_return_void =>
    match fr.promise with
    | PromiseState.value _ => Except.error Fault.undefined
    | PromiseState.void p =>
      Except.ok (w.final f { fr with promise := PromiseState.void p.return_void })
    | PromiseState.selfDeleting _ => Except.ok (w.final f fr)
  | Instr.throw e => Except.ok (w.raise f fr (Exn.user e))

/-- One step of the coroutine `f` that has control: the pending `await_resume` if the frame is
suspended on a task, else its next statement; a body that ends is a `co_return;`. Resuming a
destroyed or finished coroutine is undefined. -/
def World.step {α ε : Type} (w : World α ε) (f : Nat) : Except Fault (World α ε × Next) :=
  match w.frame? (some f) with
  | none => Except.error Fault.undefined
  | some fr =>
    if fr.done then Except.error Fault.undefined
    else
      match fr.awaiting with
      | some c => w.await_resume f fr c
      | none =>
        match fr.body with
        | [] =>
          match fr.promise with
          | PromiseState.value _ => Except.error Fault.undefined
          | _ => Except.ok (w.final f fr)
        | i :: rest => w.instr f { fr with body := rest } i

/-- Run coroutine `f` until control returns to the caller of `resume()`. -/
def World.exec {α ε : Type} : Nat → World α ε → Nat → Except Fault (World α ε)
  | 0, _, _ => Except.error Fault.outOfFuel
  | n + 1, w, f =>
    match w.step f with
    | Except.error e => Except.error e
    | Except.ok (w1, Next.ret) => Except.ok w1
    | Except.ok (w1, Next.run g) => World.exec n w1 g

/-- The call `handle.resume()`. -/
def World.resume {α ε : Type} (fuel : Nat) (w : World α ε) (handle : Handle) :
    Except Fault (World α ε) :=
  match handle with
  | none => Except.error Fault.undefined
  | some f => World.exec fuel w f

/-! ## Task (task.hpp) -/

/-- The class `Task<return_type>`: its only member. -/
structure Task where
  coroutine_ : Handle := none
  deriving DecidableEq, Repr

/-- The function `Task::is_ready`. -/
def Task.is_ready {α ε : Type} (w : World α ε) (t : Task) : Option Bool :=
  match t.coroutine_ with
  | none => some true
  | some i => w.done (some i)

/-- The function `Task::resume`. -/
def Task.resume {α ε : Type} (fuel : Nat) (w : World α ε) (t : Task) :
    Except Fault (World α ε × Bool) :=
  match w.done t.coroutine_ with
  | none => Except.error Fault.undefined
  | some d =>
    match (if !d then World.resume fuel w t.coroutine_ else Except.ok w) with
    | Except.error e => Except.error e
    | Except.ok w1 =>
      match w1.done t.coroutine_ with
      | none => Except.error Fault.undefined
      | some d1 => Except.ok (w1, !d1)

/-- The outcome of reading a result: a value, nothing (void), or an exception. -/
abbrev Read (α ε : Type) := Except (Exn ε) (Option α)

/-- The expression `task.promise().result()`, for a task of either promise type. -/
def Task.result {α ε : Type} (w : World α ε) (t : Task) : Option (Read α ε) :=
  match w.frame? t.coroutine_ with
  | none => none
  | some fr =>
    match fr.promise with
    | PromiseState.value p =>
      match p.result with
      | Except.ok v => some (Except.ok (some v))
      | Except.error e => some (Except.error e)
    | PromiseState.void p =>
      match p.result with
      | Except.ok _ => some (Except.ok none)
      | Except.error e => some (Except.error e)
    | PromiseState.selfDeleting _ => none

/-- The coroutine call that creates a `Task<return_type>` (`get_return_object`, then
`initial_suspend`): a new frame suspended before its first statement, and the task owning it. -/
def Task.create {α ε : Type} (w : World α ε) (isVoid : Bool) (body : List (Instr α ε)) :
    World α ε × Task :=
  ({ w with frames := w.frames ++
      [{ promise := if isVoid then PromiseState.void {} else PromiseState.value {},
         body := body }] },
   { coroutine_ := some w.frames.length })

/-! ## ThreadPool: workers, shutdown, construction (thread_pool.cpp) -/

/-- The statements `auto handle = queue_.front(); queue_.pop_front();` of `executor`, for a
queue known to be `handle :: rest`: the worker now holds `handle`. -/
def ThreadPool.executor_pop {α ε : Type} (w : World α ε) (handle : Handle) (rest : List Handle) :
    World α ε :=
  { w with pool := { w.pool with queue_ := rest }, executing := handle :: w.executing }

/-- The statement `size_.fetch_sub(1)` that follows `handle.resume()` in `executor`: the worker
no longer holds `handle`. -/
def ThreadPool.executor_account {α ε : Type} (w : World α ε) (handle : Handle) : World α ε :=
  { w with pool := { w.pool with size_ := fetch_sub w.pool.size_ 1 },
           executing := w.executing.erase handle }

/-- The common tail of both loops of `executor`: pop the front handle, resume it, decrement. -/
def ThreadPool.executor_turn {α ε : Type} (fuel : Nat) (w : World α ε) (handle : Handle)
    (rest : List Handle) : Except Fault (World α ε) :=
  match World.resume fuel (ThreadPool.executor_pop w handle rest) handle with
  | Except.error e => Except.error e
  | Except.ok w1 => Except.ok (ThreadPool.executor_account w1 handle)

/-- The first loop of `executor`, `while (!shutdownRequested_)`. No other thread runs meanwhile,
so a wait on an empty queue is never woken. -/
def ThreadPool.executor_serve {α ε : Type} : Nat → World α ε → Except Fault (World α ε)
  | 0, _ => Except.error Fault.outOfFuel
  | n + 1, w =>
    if w.pool.shutdownRequested_ then Except.ok w
    else
      match w.pool.queue_ with
      | [] => Except.error Fault.blocked
      | handle :: rest =>
        match ThreadPool.executor_turn n w handle rest with
        | Except.error e => Except.error e
        | Except.ok w1 => ThreadPool.executor_serve n w1

/-- The second loop of `executor`, `while (size_.load())`, leaving at an empty queue. -/
def ThreadPool.executor_drain {α ε : Type} : Nat → World α ε → Except Fault (World α ε)
  | 0, _ => Except.error Fault.outOfFuel
  | n + 1, w =>
    if w.pool.size_ = 0 then Except.ok w
    else
      match w.pool.queue_ with
      | [] => Except.ok w
      | handle :: rest =>
        match ThreadPool.executor_turn n w handle rest with
        | Except.error e => Except.error e
        | Except.ok w1 => ThreadPool.executor_drain n w1

/-- The function `ThreadPool::executor` (the hooks `onThreadStart_` and `onThreadStop_` are user
callbacks without access to the pool's members and are left out). -/
def ThreadPool.executor {α ε : Type} (fuel : Nat) (w : World α ε) (_idx : Nat) :
    Except Fault (World α ε) :=
  match ThreadPool.executor_serve fuel w with
  | Except.error e => Except.error e
  | Except.ok w1 => ThreadPool.executor_drain fuel w1

/-- The loop `for (auto &thread : threads_) thread.join()` of `shutdown`: a joined thread
runs its `executor` to the end. -/
def ThreadPool.join {α ε : Type} (fuel : Nat) : List Nat → World α ε → Except Fault (World α ε)
  | [], w => Except.ok w
  | idx :: threads, w =>
    match ThreadPool.executor fuel w idx with
    | Except.error e => Except.error e
    | Except.ok w1 => ThreadPool.join fuel threads w1

/-- The function `ThreadPool::shutdown`. -/
def ThreadPool.shutdown {α ε : Type} (fuel : Nat) (w : World α ε) : Except Fault (World α ε) :=
  if w.pool.shutdownRequested_ == false then
    let w1 := { w with pool := { w.pool with shutdownRequested_ := true } }
    ThreadPool.join fuel w1.pool.threads_ w1
  else Except.ok w

/-- The loop of `ThreadPool::makeShared`: `tp->executor(i)` is called on the calling thread. -/
def ThreadPool.makeShared_loop {α ε : Type} (fuel : Nat) :
    List Nat → World α ε → Except Fault (World α ε)
  | [], tp => Except.ok tp
  | i :: rest, tp =>
    match ThreadPool.executor fuel tp i with
    | Except.error e => Except.error e
    | Except.ok tp1 => ThreadPool.makeShared_loop fuel rest tp1

/-- The function `ThreadPool::makeShared` with the constructor `ThreadPool::ThreadPool`
(`threads_.reserve` adds no element): the world in which the new pool is the pool. -/
def ThreadPool.makeShared {α ε : Type} (fuel : Nat) (w : World α ε) (threadCount : Nat) :
    Except Fault (World α ε) :=
  ThreadPool.makeShared_loop fuel (List.range threadCount)
    { w with pool := { threadCount_ := threadCount }, executing := [] }

/-! ## Vocabulary of the statements -/

/-- Statements that neither suspend the coroutine, nor end it, nor touch a promise or the pool. -/
def Instr.inert {α ε : Type} : Instr α ε → Bool
  | Instr.suspend_never => true
  | Instr.record _ => true
  | _ => false

/-- The frame a body leaves behind when the exception `e` escaped it with the statements `rest`
still unexecuted: `unhandled_exception` ran and the frame is at its final suspend point. -/
def Frame.thrown {α ε : Type} (fr : Frame α ε) (rest : List (Instr α ε)) (e : Exn ε) : Frame α ε :=
  match fr.promise with
  | PromiseState.value p =>
    { fr with promise := PromiseState.value (p.unhandled_exception e), body := rest, done := true }
  | PromiseState.void p =>
    { fr with promise := PromiseState.void (p.unhandled_exception e), body := rest, done := true }
  | PromiseState.selfDeleting _ => fr

/-- An example heap: one `Task<void>` with body `co_return;`, created and not yet resumed, at
index 0, and a freshly constructed pool without threads. -/
def exampleWorld : World Nat Nat := (Task.create {} true [Instr.co_return_void]).1

/-- The example heap after `shutdown()` was requested on its pool. -/
def exampleWorldShutdown : World Nat Nat :=
  { exampleWorld with pool := { exampleWorld.pool with shutdownRequested_ := true } }

/-! ## Task: ownership (task.hpp) -/

/-- The default constructor `Task() noexcept = default`: no frame. -/
def Task.default : Task := { coroutine_ := none }

/-- The move constructor `Task(Task &&other)`: the new task and the moved-from `other`
(`std::exchange(other.coroutine_, nullptr)`). -/
def Task.move (other : Task) : Task × Task :=
  ({ coroutine_ := other.coroutine_ }, { coroutine_ := none })

/-- The function `Task::destroy`: the heap, the task object afterwards, and the value returned. -/
def Task.destroy {α ε : Type} (w : World α ε) (t : Task) : World α ε × Task × Bool :=
  match t.coroutine_ with
  | some i => (w.destroy (some i), { coroutine_ := none }, true)
  | none => (w, t, false)

/-! ## Reference results and rvalue reads (task.hpp) -/

/-- An lvalue reference to an object outside the coroutine: the address of its referent. -/
structure Ref where
  addr : Nat
  deriving DecidableEq, Repr

/-- The function `std::addressof`. -/
def addressof (r : Ref) : Nat := r.addr

/-- The expression `*ptr`: the lvalue at address `ptr`. -/
def deref (ptr : Nat) : Ref := { addr := ptr }

/-- The function `Promise::return_value` when `return_type` is `T&` or `const T&`:
`return_type ref = static_cast<value_type &&>(value)` binds the reference, and
`std::addressof(ref)` is what the variant stores (`stored_type` is `T*`). -/
def Promise.return_value_ref {ε : Type} (p : Promise Nat ε) (value : Ref) : Promise Nat ε :=
  let ref : Ref := value
  { p with storage_ := Storage.stored (addressof ref) }

/-- The function `Promise::result() &` when `return_type` is a reference:
`static_cast<return_type>(*std::get<stored_type>(storage_))`. -/
def Promise.result_ref {ε : Type} (p : Promise Nat ε) : Except (Exn ε) Ref :=
  match p.storage_ with
  | Storage.stored ptr => Except.ok (deref ptr)
  | Storage.exception e => Except.error e
  | Storage.monostate => Except.error Exn.never_set

/-- The function `Promise::result() const &` when `return_type` is a reference:
`static_cast<std::add_const_t<return_type>>(*std::get<stored_type>(storage_))`; adding `const`
to a reference type gives the same reference type. -/
def Promise.result_ref_const {ε : Type} (p : Promise Nat ε) : Except (Exn ε) Ref :=
  match p.storage_ with
  | Storage.stored ptr => Except.ok (deref ptr)
  | Storage.exception e => Except.error e
  | Storage.monostate => Except.error Exn.never_set

/-- The value read through a reference from the memory `mem`. -/
def Ref.read {β : Type} (mem : Nat → β) (r : Ref) : β := mem r.addr

/-- The function `Promise::result() &&` for a move-constructible non-reference `return_type`,
together with the initialisation of an object from the rvalue reference it returns, as in
`auto value = std::move(task).promise().result();`: the value obtained, and the promise after
the move constructor has run on the stored object (`movedFrom v` is what it leaves behind). -/
def Promise.result_rvalue {α ε : Type} (movedFrom : α → α) (p : Promise α ε) :
    Except (Exn ε) α × Promise α ε :=
  match p.storage_ with
  | Storage.stored v => (Except.ok v, { p with storage_ := Storage.stored (movedFrom v) })
  | Storage.exception e => (Except.error e, p)
  | Storage.monostate => (Except.error Exn.never_set, p)

/-- The tags the statements of `body` append to the log, in order. -/
def tagsOf {α ε : Type} : List (Instr α ε) → List Nat
  | [] => []
  | Instr.record tag :: rest => tag :: tagsOf rest
  | _ :: rest => tagsOf rest

/-- The frame `make_task_self_deleting` creates for `user_task`, bound to the pool's counter or
not. -/
def wrapperFrame {α ε : Type} (user_task : Handle) (bound : Bool) : Frame α ε :=
  { promise := PromiseState.selfDeleting { executorSize_ := bound },
    body := [Instr.await user_task, Instr.co_return_void],
    owns := user_task }

/-- An example heap: the task at index 0 suspends once and then returns 5; the tasks at indices
1 and 2 each await the task at 0 and then return. -/
def exampleAwaiters : World Nat Nat :=
  { frames :=
      [{ promise := PromiseState.value {}, body := [Instr.suspend_always, Instr.co_return 5] },
       { promise := PromiseState.value {}, body := [Instr.await (some 0), Instr.co_return 1] },
       { promise := PromiseState.value {}, body := [Instr.await (some 0), Instr.co_return 2] }] }

/-- What the statements about continuations observe of a heap: for each frame, its
`continuation_`, whether it is finished, and the values its awaits received. -/
def World.links {α ε : Type} (w : World α ε) : List (Handle × Bool × List α) :=
  w.frames.map (fun fr => (fr.continuation_, fr.done, fr.received))

/-- The frame a body leaves behind when it executed `co_return value` with the statements `rest`
still unexecuted: `return_value` ran and the frame is at its final suspend point. -/
def Frame.returned {α ε : Type} (fr : Frame α ε) (rest : List (Instr α ε)) (value : α) :
    Frame α ε :=
  match fr.promise with
  | PromiseState.value p =>
    { fr with promise := PromiseState.value (p.return_value value), body := rest, done := true }
  | _ => fr

/-- The statement is `co_await std::suspend_always {}`. -/
def Instr.isSuspendAlways {α ε : Type} : Instr α ε → Bool
  | Instr.suspend_always => true
  | _ => false

/-- Call `task.resume()` `k` times in a row: the final heap and, for each call in order, the
value it returned and `task.is_ready()` right after it. -/
def Task.resumes {α ε : Type} (fuel : Nat) :
    Nat → World α ε → Task → Except Fault (World α ε × List (Bool × Option Bool))
  | 0, w, _ => Except.ok (w, [])
  | k + 1, w, t =>
    match Task.resume fuel w t with
    | Except.error e => Except.error e
    | Except.ok (w1, b) =>
      match Task.resumes fuel k w1 t with
      | Except.error e => Except.error e
      | Except.ok (w2, l) => Except.ok (w2, (b, Task.is_ready w1 t) :: l)

/-- A body that runs to its end in one go, without suspending and without calling the pool:
inert statements followed by the end of the body, by `co_return;` or by a `throw`. -/
def completesInline {α ε : Type} : List (Instr α ε) → Bool
  | [] => true
  | Instr.co_return_void :: _ => true
  | Instr.throw _ :: _ => true
  | Instr.suspend_never :: rest => completesInline rest
  | Instr.record _ :: rest => completesInline rest
  | _ => false

/-- The tags a body that completes inline appends to the log: those of the statements before
its end, `co_return;` or `throw`. -/
def inlineTags {α ε : Type} : List (Instr α ε) → List Nat
  | Instr.suspend_never :: rest => inlineTags rest
  | Instr.record tag :: rest => tag :: inlineTags rest
  | _ => []

/-- An example heap: one `Task<void>` that records the tag 7 and then throws 3, created and not
yet resumed, at index 0, and a freshly constructed pool without threads. -/
def exampleThrowing : World Nat Nat := (Task.create {} true [Instr.record 7, Instr.throw 3]).1

/-- The example heap `exampleThrowing` after `spawn` of its task: the wrapper is at index 1. -/
def exampleSpawned : World Nat Nat :=
  match ThreadPool.spawn exampleThrowing (some 0) with
  | Except.ok r => r.1
  | Except.error _ => exampleThrowing

/-! ## Vocabulary of the pool's runs -/

/-- Whether the frame at index `i` is a `Task<void>` that was created and never resumed or
awaited, and whose body completes inline. -/
def World.inlineVoid {α ε : Type} (w : World α ε) (i : Nat) : Bool :=
  match w.frames[i]? with
  | some fr =>
    !fr.destroyed && !fr.done && fr.awaiting.isNone &&
      (match fr.promise with
       | PromiseState.void _ => true
       | _ => false) &&
      completesInline fr.body
  | none => false

/-- The tags the task at index `i` appends to the log when it is run. -/
def World.tagsAt {α ε : Type} (w : World α ε) (i : Nat) : List Nat :=
  match w.frames[i]? with
  | some fr => inlineTags fr.body
  | none => []

/-- The tags the tasks of a list append to the log when they are run in the order of the list. -/
def World.tagsOfTasks {α ε : Type} (w : World α ε) : List Nat → List Nat
  | [] => []
  | t :: ts => w.tagsAt t ++ w.tagsOfTasks ts

/-- The number of statements of the body of the frame at index `i`. -/
def World.bodyLength {α ε : Type} (w : World α ε) (i : Nat) : Nat :=
  match w.frames[i]? with
  | some fr => fr.body.length
  | none => 0

/-- The ready queue holds exactly the wrappers `ps`, given as pairs of the index of the wrapper
frame and the index of the task it owns, in this order: every wrapper was bound and is not yet
started, every task is one that `inlineVoid` accepts, and no frame occurs twice. -/
def World.queued {α ε : Type} (w : World α ε) (ps : List (Nat × Nat)) : Prop :=
  w.pool.queue_ = ps.map (fun p => some p.1) ∧
  (ps.map Prod.fst ++ ps.map Prod.snd).Nodup ∧
  ∀ p ∈ ps, w.frames[p.1]? = some (wrapperFrame (some p.2) true) ∧ w.inlineVoid p.2 = true

/-- A caller that spawns the tasks of a list in order, `tp->spawn(std::move(task))` for each:
the final heap and the values the calls returned. -/
def ThreadPool.spawn_all {α ε : Type} (w : World α ε) :
    List Handle → Except Fault (World α ε × List Bool)
  | [] => Except.ok (w, [])
  | task :: tasks =>
    match ThreadPool.spawn w task with
    | Except.error e => Except.error e
    | Except.ok r =>
      match ThreadPool.spawn_all r.1 tasks with
      | Except.error e => Except.error e
      | Except.ok r1 => Except.ok (r1.1, r.2 :: r1.2)

/-- An example heap: an idle pool with one worker thread (executor index 0) and three
`Task<void>`, created and not yet started: the task at index 0 records 1, the task at index 1
records 2 and returns, the task at index 2 records 3 and throws. -/
def exampleOneWorker : World Nat Nat :=
  (Task.create (Task.create (Task.create
    { pool := { threadCount_ := 1, threads_ := [0] } }
    true [Instr.record 1]).1 true [Instr.record 2, Instr.co_return_void]).1
    true [Instr.record 3, Instr.throw 9]).1

/-- An example heap of three tasks, created and not yet started: the outer task at index 0
records 1, awaits the task at index 1, records 5 and returns 30; the middle task at index 1
records 2, awaits the task at index 2, records 4 and returns 20; the inner task at index 2
records 3 and returns 10. -/
def exampleNested : World Nat Nat :=
  (Task.create (Task.create (Task.create {} false
    [Instr.record 1, Instr.await (some 1), Instr.record 5, Instr.co_return 30]).1 false
    [Instr.record 2, Instr.await (some 2), Instr.record 4, Instr.co_return 20]).1 false
    [Instr.record 3, Instr.co_return 10]).1

/-! ## The outstanding counter over the reachable states -/

/-- Whether the frame is the frame of a `make_task_self_deleting` coroutine. -/
def Frame.isWrapper {α ε : Type} (fr : Frame α ε) : Bool :=
  match fr.promise with
  | PromiseState.selfDeleting _ => true
  | _ => false

/-- Whether the frame is the frame of a `Task<void>`. -/
def Frame.isVoid {α ε : Type} (fr : Frame α ε) : Bool :=
  match fr.promise with
  | PromiseState.void _ => true
  | _ => false

/-- Whether the frame is a wrapper that is not destroyed and whose `executorSize_` points to the
counter of the pool: its `final_suspend` is still to decrement the counter. -/
def Frame.liveBound {α ε : Type} (fr : Frame α ε) : Bool :=
  match fr.promise with
  | PromiseState.selfDeleting p => !fr.destroyed && p.executorSize_
  | _ => false

/-- The number of live wrappers bound to the counter of the pool. -/
def World.liveBound {α ε : Type} (w : World α ε) : Nat := w.frames.countP Frame.liveBound

/-- Whether `h` can be the `coroutine_` of a `coro::Task<void>`: null, or the frame of a
`Task<void>`. -/
def World.isVoidTask {α ε : Type} (w : World α ε) (h : Handle) : Bool :=
  match h with
  | none => true
  | some i =>
    match w.frames[i]? with
    | some fr => fr.isVoid
    | none => false

/-- The heap respects the types of the source: the `user_task` a wrapper owns and the argument
of every `spawn` in a body are `coro::Task<void>`. -/
def World.wellTyped {α ε : Type} (w : World α ε) : Prop :=
  ∀ (i : Nat) (fr : Frame α ε), w.frames[i]? = some fr →
    (fr.isWrapper = true → w.isVoidTask fr.owns = true) ∧
    (∀ h, Instr.spawn h ∈ fr.body → w.isVoidTask h = true)

/-- The counter of the pool counts, modulo `2 ^ 64`, the handles in the ready queue, the handles
held by workers, the live wrappers bound to it and `d` further units; and the heap is well
typed. -/
def World.counted {α ε : Type} (d : Nat) (w : World α ε) : Prop :=
  w.pool.size_ =
    (w.pool.queue_.length + w.executing.length + w.liveBound + d) % 2 ^ 64 ∧ w.wellTyped

/-- The states a program can reach from a newly constructed pool and an empty heap when every
`ScheduleOperation` is awaited at most once, together with the number of `ScheduleOperation`
objects that were created by `schedule()` and never awaited; an operation that is awaited is
awaited in the statement `co_await tp.schedule()` that creates it. The steps are the calls of
the public functions of the pool, the steps of the workers, the creation of tasks and the steps
of coroutines, each taken as a whole. A step of a worker or of a coroutine may be taken at any
time, whichever thread would take it, so the states that the interleavings of the threads reach
between two such steps are all among these. The argument of `spawn` is a `coro::Task<void>`, as
its type in the source says. -/
inductive Reachable {α ε : Type} : Nat → World α ε → Prop where
  /-- A new pool and no coroutine yet. The constructor starts no thread; any list `threads` is
  admitted here, which only adds states. -/
  | init (threadCount : Nat) (threads : List Nat) :
    Reachable 0 { pool := { threadCount_ := threadCount, threads_ := threads } }
  /-- A coroutine that returns a `Task` is called. -/
  | create {d : Nat} {w : World α ε} (isVoid : Bool) (body : List (Instr α ε)) :
    Reachable d w → (∀ h, Instr.spawn h ∈ body → w.isVoidTask h = true) →
    Reachable d (Task.create w isVoid body).1
  /-- A thread calls `spawn`. -/
  | spawn {d : Nat} {w : World α ε} (task : Handle) (r : World α ε × Bool) :
    Reachable d w → w.isVoidTask task = true → ThreadPool.spawn w task = Except.ok r →
    Reachable d r.1
  /-- A thread calls `resume(handle)`. -/
  | resume {d : Nat} {w : World α ε} (handle : Handle) (r : World α ε × Bool) :
    Reachable d w → ThreadPool.resume w handle = Except.ok r → Reachable d r.1
  /-- A thread calls `resume(handles)`. -/
  | resume_handles {d : Nat} {w : World α ε} (handles : List Handle) :
    Reachable d w → Reachable d { w with pool := (w.pool.resume_handles handles).1 }
  /-- A thread calls `schedule()` and never awaits what it returns. -/
  | schedule {d : Nat} {w : World α ε} :
    Reachable d w →
    Reachable (if w.pool.shutdownRequested_ then d else d + 1)
      { w with pool := (@ThreadPool.schedule ε w.pool).2 }
  /-- The exchange `shutdownRequested_.exchange(true)` of `shutdown`. -/
  | request_shutdown {d : Nat} {w : World α ε} :
    Reachable d w → Reachable d { w with pool := { w.pool with shutdownRequested_ := true } }
  /-- A worker takes the handle at the front of the queue. -/
  | worker_pop {d : Nat} {w : World α ε} (handle : Handle) (rest : List Handle) :
    Reachable d w → w.pool.queue_ = handle :: rest →
    Reachable d (ThreadPool.executor_pop w handle rest)
  /-- A worker decrements the counter for a handle it holds. -/
  | worker_account {d : Nat} {w : World α ε} (handle : Handle) :
    Reachable d w → handle ∈ w.executing → Reachable d (ThreadPool.executor_account w handle)
  /-- A coroutine takes a step. -/
  | step {d : Nat} {w : World α ε} (f : Nat) (r : World α ε × Next) :
    Reachable d w → w.step f = Except.ok r → Reachable d r.1

/-- The frame `new` is a later state of the coroutine whose frame was `old`: the same promise
type and binding, the same owned task, not destroyed in between, and statements among those of
`old`. -/
def Frame.derived {α ε : Type} (new old : Frame α ε) : Prop :=
  new.isVoid = old.isVoid ∧ new.isWrapper = old.isWrapper ∧ new.liveBound = old.liveBound ∧
    new.owns = old.owns ∧ new.destroyed = old.destroyed ∧ ∀ i, i ∈ new.body → i ∈ old.body

/-- Whether the next step of the coroutine `f` is a `spawn` that the pool rejects: shutdown was
requested and the statement the frame is at is a `spawn`. -/
def World.rejectsSpawn {α ε : Type} (w : World α ε) (f : Nat) : Bool :=
  w.pool.shutdownRequested_ &&
    match w.frame? (some f) with
    | some fr =>
      match fr.awaiting, fr.body with
      | none, Instr.spawn _ :: _ => true
      | _, _ => false
    | none => false

/-- Whether `h` can be the `coroutine_` of a `coro::Task`: null, or a frame that is not the
frame of a `make_task_self_deleting` coroutine. -/
def World.isTask {α ε : Type} (w : World α ε) (h : Handle) : Bool :=
  match h with
  | none => true
  | some i =>
    match w.frames[i]? with
    | some fr => !fr.isWrapper
    | none => false

/-- The states a program reaches from a newly constructed pool and an empty heap as long as no
`spawn` is rejected, together with two numbers: `created`, the number of `ScheduleOperation`
objects that calls of `schedule()` outside a statement `co_await tp.schedule()` returned, and
`awaited`, the number of times such an object was awaited. The steps are the calls of the public
functions of the pool and of `Task::destroy`, the awaiting of a `ScheduleOperation` by a
coroutine that is not finished (any number of times for one object), the steps of the workers,
the creation of tasks and the steps of coroutines, each taken as a whole. A step of a worker or
of a coroutine may be taken at any time, whichever thread would take it, so the states that the
interleavings of the threads reach between two such steps are all among these. The argument of
`spawn` is a `coro::Task<void>`, as its type in the source says. -/
inductive Reached {α ε : Type} : Nat → Nat → World α ε → Prop where
  /-- A pool as the constructor leaves it (`threads_.reserve` adds no thread), and no coroutine
  yet. -/
  | init (threadCount : Nat) : Reached 0 0 { pool := { threadCount_ := threadCount } }
  /-- A coroutine that returns a `Task` is called. -/
  | create {c a : Nat} {w : World α ε} (isVoid : Bool) (body : List (Instr α ε)) :
    Reached c a w → (∀ h, Instr.spawn h ∈ body → w.isVoidTask h = true) →
    Reached c a (Task.create w isVoid body).1
  /-- A thread calls `~Task` or `Task::destroy`. -/
  | destroy {c a : Nat} {w : World α ε} (t : Task) :
    Reached c a w → w.isTask t.coroutine_ = true → Reached c a (Task.destroy w t).1
  /-- A thread calls `spawn`, and the pool accepts the task. -/
  | spawn {c a : Nat} {w : World α ε} (task : Handle) (w1 : World α ε) :
    Reached c a w → w.isVoidTask task = true →
    ThreadPool.spawn w task = Except.ok (w1, true) → Reached c a w1
  /-- A thread calls `resume(handle)`. -/
  | resume {c a : Nat} {w : World α ε} (handle : Handle) (r : World α ε × Bool) :
    Reached c a w → ThreadPool.resume w handle = Except.ok r → Reached c a r.1
  /-- A thread calls `resume(handles)`. -/
  | resume_handles {c a : Nat} {w : World α ε} (handles : List Handle) :
    Reached c a w → Reached c a { w with pool := (w.pool.resume_handles handles).1 }
  /-- A thread calls `schedule()`; when it returns a `ScheduleOperation`, one more was
  created. -/
  | schedule {c a : Nat} {w : World α ε} :
    Reached c a w →
    Reached (if w.pool.shutdownRequested_ then c else c + 1) a
      { w with pool := (@ThreadPool.schedule ε w.pool).2 }
  /-- A coroutine that is not finished awaits a `ScheduleOperation` created before. -/
  | await_suspend {c a : Nat} {w : World α ε} (awaitingCoroutine : Handle) (w1 : World α ε) :
    Reached c a w → 0 < c → w.done awaitingCoroutine = some false →
    ScheduleOperation.await_suspend w awaitingCoroutine = Except.ok w1 → Reached c (a + 1) w1
  /-- The exchange `shutdownRequested_.exchange(true)` of `shutdown`. -/
  | request_shutdown {c a : Nat} {w : World α ε} :
    Reached c a w → Reached c a { w with pool := { w.pool with shutdownRequested_ := true } }
  /-- A worker takes the handle at the front of the queue. -/
  | worker_pop {c a : Nat} {w : World α ε} (handle : Handle) (rest : List Handle) :
    Reached c a w → w.pool.queue_ = handle :: rest →
    Reached c a (ThreadPool.executor_pop w handle rest)
  /-- A worker decrements the counter for a handle it holds. -/
  | worker_account {c a : Nat} {w : World α ε} (handle : Handle) :
    Reached c a w → handle ∈ w.executing → Reached c a (ThreadPool.executor_account w handle)
  /-- A coroutine takes a step that is not a rejected `spawn`. -/
  | step {c a : Nat} {w : World α ε} (f : Nat) (r : World α ε × Next) :
    Reached c a w → w.rejectsSpawn f = false → w.step f = Except.ok r → Reached c a r.1

/-- An example state: from `exampleThrowing`, one call of `schedule()` and then the task at
index 0 awaiting the returned `ScheduleOperation` twice. -/
def exampleReawaited : World Nat Nat :=
  match ScheduleOperation.await_suspend
      { exampleThrowing with pool := (@ThreadPool.schedule Nat exampleThrowing.pool).2 }
      (some 0) with
  | Except.ok w1 =>
    match ScheduleOperation.await_suspend w1 (some 0) with
    | Except.ok w2 => w2
    | Except.error _ => w1
  | Except.error _ => exampleThrowing

/-! # Theorems -/

/-! ## Arithmetic of the counter and heap lookups -/

theorem fetch_sub_fetch_add (s : Nat) (hs : s < 2 ^ 64) : fetch_sub (fetch_add s 1) 1 = s := by
  unfold fetch_sub fetch_add
  omega

theorem fetch_add_one (s : Nat) (hs : s + 1 < 2 ^ 64) : fetch_add s 1 = s + 1 := by
  unfold fetch_add
  omega

theorem lt_of_getElem?_eq_some {β : Type} {l : List β} {i : Nat} {x : β} (h : l[i]? = some x) :
    i < l.length := by
  by_contra hc
  rw [List.getElem?_eq_none (by omega)] at h
  cases h

theorem frame?_congr {α ε : Type} {w1 w2 : World α ε} (h : w1.frames = w2.frames) (x : Handle) :
    w1.frame? x = w2.frame? x := by
  simp [World.frame?, h]

theorem done_congr {α ε : Type} {w1 w2 : World α ε} (h : w1.frames = w2.frames) (x : Handle) :
    w1.done x = w2.done x := by
  simp [World.done, frame?_congr h]

/-! ## Reading a result (C1, C2) -/

/-- C1 (as amended): a computation that was created and never resumed signals the
result-not-ready error when its result is read if its result type is not void (a value or a
reference); a never-resumed `Task<void>` has no result slot and its read returns normally. -/
theorem C1_read_before_resume {α ε : Type} (w : World α ε) (body : List (Instr α ε)) :
    Task.result (Task.create w false body).1 (Task.create w false body).2
      = some (Except.error Exn.never_set) ∧
    Task.result (Task.create w true body).1 (Task.create w true body).2
      = some (Except.ok none) := by
  constructor <;> simp [Task.result, Task.create, World.frame?, Promise.result, PromiseVoid.result]

/-- C1 (counterexample): the never-resumed `Task<void>` with body `co_return;`, created in the
empty heap: `promise().result()` returns normally instead of signalling result-not-ready. -/
theorem C1_void_read_returns_normally :
    Task.result (Task.create ({} : World Nat Nat) true [Instr.co_return_void]).1
        (Task.create ({} : World Nat Nat) true [Instr.co_return_void]).2
      = some (Except.ok none) ∧
    Task.result (Task.create ({} : World Nat Nat) true [Instr.co_return_void]).1
        (Task.create ({} : World Nat Nat) true [Instr.co_return_void]).2
      ≠ some (Except.error Exn.never_set) := by
  decide

/-- A coroutine whose body is inert statements followed by `throw e` reaches its final suspend
point, with the exception in its promise, within `pre.length + 1` steps. -/
theorem exec_inert_throw {α ε : Type} (e : ε) (rest : List (Instr α ε)) (f : Nat) :
    ∀ (pre : List (Instr α ε)) (w : World α ε) (fr : Frame α ε) (n : Nat),
      w.frames[f]? = some fr → fr.destroyed = false → fr.done = false → fr.awaiting = none →
      fr.body = pre ++ Instr.throw e :: rest → (∀ i ∈ pre, i.inert = true) →
      fr.continuation_ = none → (∀ p, fr.promise ≠ PromiseState.selfDeleting p) →
      pre.length + 1 ≤ n →
      ∃ w1, World.exec n w f = Except.ok w1 ∧
        w1.frames[f]? = some (fr.thrown rest (Exn.user e)) ∧ w1.pool = w.pool := by
  intro pre
  induction pre with
  | nil =>
    intro w fr n hf hd hdone haw hbody _ hk hkind hn
    obtain ⟨m, rfl⟩ : ∃ m, n = m + 1 := ⟨n - 1, by simp at hn; omega⟩
    have hlt := lt_of_getElem?_eq_some hf
    simp only [List.nil_append] at hbody
    have hstep : w.step f = Except.ok (w.raise f { fr with body := rest } (Exn.user e)) := by
      simp [World.step, World.frame?, hf, hd, hdone, haw, hbody, World.instr]
    cases hp : fr.promise with
    | selfDeleting p => exact absurd hp (hkind p)
    | value p =>
      have hc : p.continuation_ = none := by simpa [Frame.continuation_, hp] using hk
      refine ⟨w.setFrame f (fr.thrown rest (Exn.user e)), ?_, ?_, rfl⟩
      · simp [World.exec, hstep, World.raise, hp, World.final, FinalAwaitable.await_suspend,
          Promise.unhandled_exception, hc, Frame.thrown]
      · simp [World.setFrame, List.getElem?_set, hlt]
    | void p =>
      have hc : p.continuation_ = none := by simpa [Frame.continuation_, hp] using hk
      refine ⟨w.setFrame f (fr.thrown rest (Exn.user e)), ?_, ?_, rfl⟩
      · simp [World.exec, hstep, World.raise, hp, World.final, FinalAwaitable.await_suspend,
          PromiseVoid.unhandled_exception, hc, Frame.thrown]
      · simp [World.setFrame, List.getElem?_set, hlt]
  | cons i pre ih =>
    intro w fr n hf hd hdone haw hbody hin hk hkind hn
    obtain ⟨m, rfl⟩ : ∃ m, n = m + 1 := ⟨n - 1, by simp at hn; omega⟩
    have hlt := lt_of_getElem?_eq_some hf
    have hi : i.inert = true := hin i (List.mem_cons_self _ _)
    have hin1 : ∀ j ∈ pre, j.inert = true := fun j hj => hin j (List.mem_cons_of_mem _ hj)
    simp only [List.cons_append] at hbody
    obtain ⟨w1, hstep, hf1, hpool⟩ : ∃ w1, w.step f = Except.ok (w1, Next.run f) ∧
        w1.frames[f]? = some { fr with body := pre ++ Instr.throw e :: rest } ∧
        w1.pool = w.pool := by
      cases i <;> simp [Instr.inert] at hi
      · refine ⟨w.setFrame f { fr with body := pre ++ Instr.throw e :: rest }, ?_, ?_, rfl⟩
        · simp [World.step, World.frame?, hf, hd, hdone, haw, hbody, World.instr]
        · simp [World.setFrame, List.getElem?_set, hlt]
      · rename_i tag
        refine ⟨{ w.setFrame f { fr with body := pre ++ Instr.throw e :: rest } with
          log := w.log ++ [tag] }, ?_, ?_, rfl⟩
        · simp [World.step, World.frame?, hf, hd, hdone, haw, hbody, World.instr]
        · simp [World.setFrame, List.getElem?_set, hlt]
    obtain ⟨w2, hex, hf2, hp2⟩ := ih w1 { fr with body := pre ++ Instr.throw e :: rest } m hf1 hd
      hdone haw rfl hin1 (by simpa [Frame.continuation_] using hk)
      (by intro p; simpa using hkind p) (by simp at hn; omega)
    refine ⟨w2, ?_, ?_, hp2.trans hpool⟩
    · rw [World.exec, hstep]
      exact hex
    · rw [hf2]
      cases hq : fr.promise with
      | selfDeleting p => exact absurd hq (hkind p)
      | value p => simp [Frame.thrown, hq]
      | void p => simp [Frame.thrown, hq]

/-- C2: a computation (void when `isVoid`, else non-void) whose body reaches `throw e` before
any suspension and before storing a result: one `resume()` returns normally with the value
`false` (finished) given at least `pre.length + 1` units of fuel, `is_ready()` is then true, and
reading the result yields the exception `e`. Reading does not change the state, so every later
read evaluates the same expression. -/
theorem C2_throwing_body {α ε : Type} (w : World α ε) (isVoid : Bool)
    (pre rest : List (Instr α ε)) (e : ε) (fuel : Nat)
    (hpre : ∀ i ∈ pre, i.inert = true) (hfuel : pre.length + 1 ≤ fuel) :
    ∃ w1,
      Task.resume fuel (Task.create w isVoid (pre ++ Instr.throw e :: rest)).1
        (Task.create w isVoid (pre ++ Instr.throw e :: rest)).2 = Except.ok (w1, false) ∧
      Task.is_ready w1 (Task.create w isVoid (pre ++ Instr.throw e :: rest)).2 = some true ∧
      Task.result w1 (Task.create w isVoid (pre ++ Instr.throw e :: rest)).2
        = some (Except.error (Exn.user e)) := by
  have hget : (Task.create w isVoid (pre ++ Instr.throw e :: rest)).1.frames[w.frames.length]?
      = some { promise := if isVoid then PromiseState.void {} else PromiseState.value {},
               body := pre ++ Instr.throw e :: rest } := by
    simp [Task.create]
  obtain ⟨w1, hex, hf1, _⟩ := exec_inert_throw e rest w.frames.length pre _ _ fuel hget rfl rfl rfl
    rfl hpre (by cases isVoid <;> rfl) (by cases isVoid <;> simp) hfuel
  have hdone0 : (Task.create w isVoid (pre ++ Instr.throw e :: rest)).1.done
      (some w.frames.length) = some false := by
    simp [World.done, World.frame?, hget]
  have hfr1 : w1.frame? (some w.frames.length) = some (Frame.thrown
      { promise := if isVoid then PromiseState.void {} else PromiseState.value {},
        body := pre ++ Instr.throw e :: rest } rest (Exn.user e)) := by
    simp only [World.frame?, hf1]
    cases isVoid <;> simp [Frame.thrown]
  have hdone1 : w1.done (some w.frames.length) = some true := by
    simp only [World.done, hfr1]
    cases isVoid <;> simp [Frame.thrown]
  refine ⟨w1, ?_, ?_, ?_⟩
  · simp [Task.resume, Task.create, World.resume] at hdone0 hex ⊢
    simp [hdone0, hex, hdone1]
  · simpa [Task.is_ready, Task.create] using hdone1
  · simp only [Task.result, Task.create, hfr1]
    cases isVoid <;>
      simp [Frame.thrown, Promise.result, PromiseVoid.result, Promise.unhandled_exception,
        PromiseVoid.unhandled_exception]

/-- C2 (witness): the non-void body `co_await std::suspend_never{}; throw 7; co_return 1;`. -/
theorem C2_throwing_body_witness :
    (∀ i ∈ [(Instr.suspend_never : Instr Nat Nat)], i.inert = true) ∧ 1 + 1 ≤ 2 ∧
    ∃ w1,
      Task.resume 2 (Task.create ({} : World Nat Nat) false
          ([Instr.suspend_never] ++ Instr.throw 7 :: [Instr.co_return 1])).1
        (Task.create ({} : World Nat Nat) false
          ([Instr.suspend_never] ++ Instr.throw 7 :: [Instr.co_return 1])).2
        = Except.ok (w1, false) ∧
      Task.is_ready w1 (Task.create ({} : World Nat Nat) false
          ([Instr.suspend_never] ++ Instr.throw 7 :: [Instr.co_return 1])).2 = some true ∧
      Task.result w1 (Task.create ({} : World Nat Nat) false
          ([Instr.suspend_never] ++ Instr.throw 7 :: [Instr.co_return 1])).2
        = some (Except.error (Exn.user 7)) :=
  ⟨by decide, by decide,
    C2_throwing_body ({} : World Nat Nat) false [Instr.suspend_never] [Instr.co_return 1] 7 2
      (by decide) (by decide)⟩

/-! ## Enqueueing (C3, C4, C5) -/

/-- C3: on a pool on which shutdown has been requested, `schedule()` throws the
"shutting down" error, and `size()` and the ready queue are as before the call (the counter
holding a `std::size_t`). -/
theorem C3_schedule_after_shutdown {ε : Type} (p : ThreadPool)
    (hreq : p.shutdownRequested_ = true) (hsize : p.size_ < 2 ^ 64) :
    (ThreadPool.schedule p : Except (Exn ε) Unit × ThreadPool).1
      = Except.error Exn.shutting_down ∧
    (ThreadPool.schedule p : Except (Exn ε) Unit × ThreadPool).2.size = p.size ∧
    (ThreadPool.schedule p : Except (Exn ε) Unit × ThreadPool).2.queue_ = p.queue_ := by
  simp [ThreadPool.schedule, hreq, ThreadPool.size, fetch_sub_fetch_add _ hsize]

/-- C3 (witness): the pool of `exampleWorldShutdown`. -/
theorem C3_schedule_after_shutdown_witness :
    exampleWorldShutdown.pool.shutdownRequested_ = true ∧
    exampleWorldShutdown.pool.size_ < 2 ^ 64 ∧
    (ThreadPool.schedule exampleWorldShutdown.pool : Except (Exn Nat) Unit × ThreadPool).1
      = Except.error Exn.shutting_down ∧
    (ThreadPool.schedule exampleWorldShutdown.pool : Except (Exn Nat) Unit × ThreadPool).2.size
      = exampleWorldShutdown.pool.size ∧
    (ThreadPool.schedule exampleWorldShutdown.pool : Except (Exn Nat) Unit × ThreadPool).2.queue_
      = exampleWorldShutdown.pool.queue_ :=
  ⟨by decide, by decide, C3_schedule_after_shutdown exampleWorldShutdown.pool (by decide) (by decide)⟩

theorem resume_null {α ε : Type} (w : World α ε) :
    ThreadPool.resume w none = Except.ok (w, false) :=
  rfl

theorem resume_done {α ε : Type} (w : World α ε) (i : Nat) (h : w.done (some i) = some true) :
    ThreadPool.resume w (some i) = Except.ok (w, false) := by
  simp [ThreadPool.resume, h]

theorem resume_rejected {α ε : Type} (w : World α ε) (i : Nat) (h : w.done (some i) = some false)
    (hreq : w.pool.shutdownRequested_ = true) :
    ThreadPool.resume w (some i) = Except.ok
      ({ w with pool := { w.pool with size_ := fetch_sub (fetch_add w.pool.size_ 1) 1 } }, false) := by
  simp [ThreadPool.resume, h, hreq]

theorem resume_accepted {α ε : Type} (w : World α ε) (i : Nat) (h : w.done (some i) = some false)
    (hreq : w.pool.shutdownRequested_ = false) :
    ThreadPool.resume w (some i) = Except.ok
      ({ w with pool := { w.pool with size_ := fetch_add w.pool.size_ 1,
                                      queue_ := w.pool.queue_ ++ [some i] } }, true) := by
  have key : ∀ p, World.done { w with pool := p } (some i) = some false :=
    fun p => (done_congr rfl _).trans h
  simp [ThreadPool.resume, h, hreq, ThreadPool.schedule_impl, key]

/-- C4: for a handle that is null or refers to a live frame, and a counter below its maximum,
`resume(h)` returns `true` exactly when `h` is not null, not finished, and shutdown has not been
requested; then `size()` grew by one and `h` is the new tail of the ready queue; when it returns
`false`, `size()` and the ready queue are unchanged. -/
theorem C4_resume_handle {α ε : Type} (w : World α ε) (h : Handle)
    (hvalid : h = none ∨ ∃ fr, w.frame? h = some fr) (hsize : w.pool.size_ + 1 < 2 ^ 64) :
    ∃ w1 b, ThreadPool.resume w h = Except.ok (w1, b) ∧
      (b = true ↔ (h ≠ none ∧ w.done h = some false ∧ w.pool.shutdownRequested_ = false)) ∧
      (b = true → w1.pool.size = w.pool.size + 1 ∧ w1.pool.queue_ = w.pool.queue_ ++ [h]) ∧
      (b = false → w1.pool.size = w.pool.size ∧ w1.pool.queue_ = w.pool.queue_) := by
  have hs0 : w.pool.size_ < 2 ^ 64 := by omega
  rcases hvalid with rfl | ⟨fr, hfr⟩
  · exact ⟨w, false, rfl, ⟨fun hb => Bool.noConfusion hb, fun hh => absurd rfl hh.1⟩,
      fun hb => Bool.noConfusion hb, fun _ => ⟨rfl, rfl⟩⟩
  · obtain ⟨i, rfl⟩ : ∃ i, h = some i := by
      cases h with
      | none => simp [World.frame?] at hfr
      | some i => exact ⟨i, rfl⟩
    have hdone : w.done (some i) = some fr.done := by simp only [World.done, hfr]
    cases hd : fr.done with
    | true =>
      rw [hd] at hdone
      refine ⟨w, false, resume_done w i hdone, ⟨fun hb => Bool.noConfusion hb, fun hh => ?_⟩,
        fun hb => Bool.noConfusion hb, fun _ => ⟨rfl, rfl⟩⟩
      rw [hdone] at hh
      exact absurd hh.2.1 (by decide)
    | false =>
      rw [hd] at hdone
      cases hreq : w.pool.shutdownRequested_ with
      | true =>
        refine ⟨_, false, resume_rejected w i hdone hreq,
          ⟨fun hb => Bool.noConfusion hb, fun hh => Bool.noConfusion hh.2.2⟩,
          fun hb => Bool.noConfusion hb, fun _ => ⟨?_, rfl⟩⟩
        simp only [ThreadPool.size]
        exact fetch_sub_fetch_add _ hs0
      | false =>
        refine ⟨_, true, resume_accepted w i hdone hreq,
          ⟨fun _ => ⟨by simp, hdone, rfl⟩, fun _ => rfl⟩, fun _ => ⟨?_, rfl⟩,
          fun hb => Bool.noConfusion hb⟩
        simp only [ThreadPool.size]
        exact fetch_add_one _ hsize

/-- C4 (witness): the unstarted task of `exampleWorld`. -/
theorem C4_resume_handle_witness :
    ((some 0 : Handle) = none ∨ ∃ fr, exampleWorld.frame? (some 0) = some fr) ∧
    exampleWorld.pool.size_ + 1 < 2 ^ 64 ∧
    ∃ w1 b, ThreadPool.resume exampleWorld (some 0) = Except.ok (w1, b) ∧
      (b = true ↔ ((some 0 : Handle) ≠ none ∧ exampleWorld.done (some 0) = some false ∧
        exampleWorld.pool.shutdownRequested_ = false)) ∧
      (b = true → w1.pool.size = exampleWorld.pool.size + 1 ∧
        w1.pool.queue_ = exampleWorld.pool.queue_ ++ [some 0]) ∧
      (b = false → w1.pool.size = exampleWorld.pool.size ∧
        w1.pool.queue_ = exampleWorld.pool.queue_) :=
  ⟨Or.inr ⟨_, rfl⟩, by show 0 + 1 < 2 ^ 64; norm_num,
    C4_resume_handle exampleWorld (some 0) (Or.inr ⟨_, rfl⟩) (by show 0 + 1 < 2 ^ 64; norm_num)⟩

theorem resume_loop_eq (handles : List Handle) :
    ∀ (queue : List Handle) (n : Nat),
      ThreadPool.resume_loop handles queue n =
        (queue ++ handles.filter (fun h => h != none),
         n + handles.countP (fun h => h == none)) := by
  induction handles with
  | nil => intro queue n; simp [ThreadPool.resume_loop]
  | cons h t ih =>
    intro queue n
    cases h with
    | none => simp [ThreadPool.resume_loop, ih]; omega
    | some i => simp [ThreadPool.resume_loop, ih]

theorem countP_null_add_nonnull (handles : List Handle) :
    handles.countP (fun h => h == none) + handles.countP (fun h => h != none)
      = handles.length := by
  induction handles with
  | nil => rfl
  | cons h t ih =>
    cases h with
    | none => simp at ih ⊢; omega
    | some i => simp at ih ⊢; omega

/-- C5: `resume(batch)` returns the number of non-null entries of the batch, and `size()`
afterwards is `size()` before plus that number, whatever the mix of null and non-null entries
(for a batch and a resulting count that fit a `std::size_t`). -/
theorem C5_resume_batch_count (p : ThreadPool) (handles : List Handle)
    (hlen : handles.length < 2 ^ 64)
    (hsize : p.size_ + handles.countP (fun h => h != none) < 2 ^ 64) :
    (p.resume_handles handles).2 = handles.countP (fun h => h != none) ∧
    (p.resume_handles handles).1.size = p.size + handles.countP (fun h => h != none) := by
  have hsum := countP_null_add_nonnull handles
  simp only [ThreadPool.resume_handles, resume_loop_eq, ThreadPool.size, Nat.zero_add]
  constructor
  · omega
  · split
    · simp only [fetch_sub, fetch_add]
      omega
    · simp only [fetch_add]
      omega

/-- C5 (witness): the batch `{nullptr, h0, nullptr, h1}` on a pool of size 3. -/
theorem C5_resume_batch_count_witness :
    [none, some 0, none, some 1].length < 2 ^ 64 ∧
    ({ size_ := 3 } : ThreadPool).size_
      + [none, some 0, none, some 1].countP (fun h => h != none) < 2 ^ 64 ∧
    (({ size_ := 3 } : ThreadPool).resume_handles [none, some 0, none, some 1]).2
      = [none, some 0, none, some 1].countP (fun h => h != none) ∧
    (({ size_ := 3 } : ThreadPool).resume_handles [none, some 0, none, some 1]).1.size
      = ({ size_ := 3 } : ThreadPool).size
        + [none, some 0, none, some 1].countP (fun h => h != none) :=
  ⟨by decide, by decide,
    C5_resume_batch_count { size_ := 3 } [none, some 0, none, some 1] (by decide) (by decide)⟩

/-! ## Steps of the interpreter -/

theorem setFrame_self {α ε : Type} (w : World α ε) (f : Nat) (fr : Frame α ε)
    (h : w.frames[f]? = some fr) : w.setFrame f fr = w := by
  have hlt := lt_of_getElem?_eq_some h
  have hget : w.frames[f] = fr := by
    rw [List.getElem?_eq_getElem hlt] at h
    exact Option.some.inj h
  cases w with
  | mk frames pool executing log =>
    simp only [World.setFrame, World.mk.injEq, and_true]
    apply List.ext_getElem? 
    intro j
    simp only [List.getElem?_set]
    by_cases hj : f = j
    · subst hj
      simp [hlt, h] at *
    · simp [hj]

theorem getElem?_setFrame {α ε : Type} (w : World α ε) (f j : Nat) (fr : Frame α ε) :
    (w.setFrame f fr).frames[j]? =
      if f = j then (if f < w.frames.length then some fr else none) else w.frames[j]? := by
  simp [World.setFrame, List.getElem?_set]

theorem setFrame_setFrame {α ε : Type} (w : World α ε) (f : Nat) (a b : Frame α ε) :
    (w.setFrame f a).setFrame f b = w.setFrame f b := by
  simp [World.setFrame, List.set_set]

/-- One inert statement is one step that keeps control in the frame. -/
theorem step_inert {α ε : Type} (w : World α ε) (f : Nat) (fr : Frame α ε) (i : Instr α ε)
    (rest : List (Instr α ε)) (hf : w.frames[f]? = some fr) (hd : fr.destroyed = false)
    (hdone : fr.done = false) (haw : fr.awaiting = none) (hbody : fr.body = i :: rest)
    (hi : i.inert = true) :
    w.step f = Except.ok
      ({ w.setFrame f { fr with body := rest } with log := w.log ++ tagsOf [i] }, Next.run f) := by
  cases i <;> simp [Instr.inert] at hi
  · simp [World.step, World.frame?, hf, hd, hdone, haw, hbody, World.instr, tagsOf, World.setFrame]
  · simp [World.step, World.frame?, hf, hd, hdone, haw, hbody, World.instr, tagsOf, World.setFrame]

theorem tagsOf_cons_inert {α ε : Type} (i : Instr α ε) (pre : List (Instr α ε)) :
    tagsOf (i :: pre) = tagsOf [i] ++ tagsOf pre := by
  cases i <;> simp [tagsOf]

/-- Inert statements at the head of a body run without leaving the frame: `pre.length` steps
consume them and append their tags to the log. -/
theorem exec_inert {α ε : Type} (f : Nat) (rest : List (Instr α ε)) :
    ∀ (pre : List (Instr α ε)) (w : World α ε) (fr : Frame α ε) (n : Nat),
      w.frames[f]? = some fr → fr.destroyed = false → fr.done = false → fr.awaiting = none →
      fr.body = pre ++ rest → (∀ i ∈ pre, i.inert = true) →
      World.exec (pre.length + n) w f =
        World.exec n { w.setFrame f { fr with body := rest } with log := w.log ++ tagsOf pre } f := by
  intro pre
  induction pre with
  | nil =>
    intro w fr n hf hd hdone haw hbody _
    simp only [List.nil_append] at hbody
    have : ({ fr with body := rest } : Frame α ε) = fr := by
      cases fr; simp_all
    simp only [List.length_nil, Nat.zero_add, tagsOf, List.append_nil, this]
    rw [setFrame_self w f fr hf]
  | cons i pre ih =>
    intro w fr n hf hd hdone haw hbody hin
    have hlt := lt_of_getElem?_eq_some hf
    simp only [List.cons_append] at hbody
    have hstep := step_inert w f fr i (pre ++ rest) hf hd hdone haw hbody
      (hin i (List.mem_cons_self _ _))
    have hlen : (i :: pre).length + n = (pre.length + n) + 1 := by simp; omega
    rw [hlen, World.exec, hstep]
    simp only
    rw [ih _ { fr with body := pre ++ rest } n (by simp [World.setFrame, List.getElem?_set, hlt])
      hd hdone haw rfl (fun j hj => hin j (List.mem_cons_of_mem _ hj))]
    simp [World.setFrame, List.set_set, tagsOf_cons_inert i pre, List.append_assoc]

/-! ## Spawn and the shutdown gate (C9, C10) -/

theorem spawn_eq_resume {α ε : Type} (w : World α ε) (task : Handle) :
    ThreadPool.spawn w task =
      ThreadPool.resume
        { w with frames := w.frames ++ [wrapperFrame task true],
                 pool := { w.pool with size_ := fetch_add w.pool.size_ 1 } }
        (some w.frames.length) := by
  simp [ThreadPool.spawn, makeTaskSelfDeleting, World.executor_size, World.setFrame,
    wrapperFrame, PromiseSelfDeleting.executor_size]

theorem spawn_done_new {α ε : Type} (w : World α ε) (task : Handle) (p : ThreadPool) :
    World.done { w with frames := w.frames ++ [wrapperFrame task true], pool := p }
      (some w.frames.length) = some false := by
  simp [World.done, World.frame?, wrapperFrame]

theorem spawn_rejected {α ε : Type} (w : World α ε) (task : Handle)
    (hreq : w.pool.shutdownRequested_ = true) :
    ThreadPool.spawn w task = Except.ok
      ({ w with frames := w.frames ++ [wrapperFrame task true],
                pool := { w.pool with
                  size_ := fetch_sub (fetch_add (fetch_add w.pool.size_ 1) 1) 1 } }, false) := by
  rw [spawn_eq_resume]
  exact resume_rejected _ _ (spawn_done_new w task _) hreq

theorem spawn_accepted {α ε : Type} (w : World α ε) (task : Handle)
    (hreq : w.pool.shutdownRequested_ = false) :
    ThreadPool.spawn w task = Except.ok
      ({ w with frames := w.frames ++ [wrapperFrame task true],
                pool := { w.pool with
                  size_ := fetch_add (fetch_add w.pool.size_ 1) 1,
                  queue_ := w.pool.queue_ ++ [some w.frames.length] } }, true) := by
  rw [spawn_eq_resume]
  exact resume_accepted _ _ (spawn_done_new w task _) hreq

/-- C9 (the code at the failing input): on `exampleWorldShutdown`, whose pool has size 0, an
empty queue and shutdown requested, `spawn` of the task at handle 0 returns `false` and leaves
the queue empty but `size()` is 1 afterwards, while the rejected `resume` of the same handle
leaves `size()` at 0. -/
theorem C9_rejected_spawn_keeps_increment :
    exampleWorldShutdown.pool.size = 0 ∧ exampleWorldShutdown.pool.queue_ = [] ∧
    (ThreadPool.spawn exampleWorldShutdown (some 0)).map
        (fun r => (r.2, r.1.pool.size, r.1.pool.queue_))
      = Except.ok (false, 1, []) ∧
    (ThreadPool.resume exampleWorldShutdown (some 0)).map
        (fun r => (r.2, r.1.pool.size, r.1.pool.queue_))
      = Except.ok (false, 0, []) := by
  decide

/-- C10 (the code at the failing input): on the pool of `exampleWorldShutdown` (shutdown
requested, queue empty) `resume(batch)` with the one-handle batch `{h0}` appends `h0` to the
ready queue, returns 1 and raises `size()` to 1. -/
theorem C10_batch_resume_ignores_shutdown :
    exampleWorldShutdown.pool.shutdownRequested_ = true ∧
    exampleWorldShutdown.pool.queue_ = [] ∧
    (exampleWorldShutdown.pool.resume_handles [some 0]).1.queue_ = [some 0] ∧
    (exampleWorldShutdown.pool.resume_handles [some 0]).2 = 1 ∧
    (exampleWorldShutdown.pool.resume_handles [some 0]).1.size = 1 := by
  decide

/-! ## Construction of the pool (C17) -/

theorem executor_serve_blocked {α ε : Type} (w : World α ε) (n : Nat)
    (hreq : w.pool.shutdownRequested_ = false) (hq : w.pool.queue_ = []) :
    ThreadPool.executor_serve (n + 1) w = Except.error Fault.blocked := by
  simp [ThreadPool.executor_serve, hreq, hq]

theorem executor_fresh_not_ok {α ε : Type} (w : World α ε) (fuel idx : Nat)
    (hreq : w.pool.shutdownRequested_ = false) (hq : w.pool.queue_ = []) (w1 : World α ε) :
    ThreadPool.executor fuel w idx ≠ Except.ok w1 := by
  cases fuel with
  | zero => simp [ThreadPool.executor, ThreadPool.executor_serve]
  | succ n => simp [ThreadPool.executor, executor_serve_blocked w n hreq hq]

/-- C17 (the code as it is): `makeShared` with `threadCount_ = 0` returns a pool whose
`threadCount()` is 0; with `threadCount_ = n + 1` it never returns a pool, whatever the fuel,
because `executor(0)` runs on the calling thread and waits on the empty queue (with at least one
unit of fuel the outcome is `blocked`); no call of `makeShared` adds an element to `threads_`. -/
theorem C17_makeShared_starts_no_thread {α ε : Type} (w : World α ε) (fuel n : Nat) :
    (∃ w0, ThreadPool.makeShared fuel w 0 = Except.ok w0 ∧ w0.pool.threadCount = 0) ∧
    (∀ w1, ThreadPool.makeShared fuel w (n + 1) ≠ Except.ok w1) ∧
    ThreadPool.makeShared (fuel + 1) w (n + 1) = Except.error Fault.blocked ∧
    (∀ k w1, ThreadPool.makeShared fuel w k = Except.ok w1 → w1.pool.threadCount = 0) := by
  have hpos : ∀ (k : Nat) (w1 : World α ε),
      ThreadPool.makeShared fuel w (k + 1) ≠ Except.ok w1 := by
    intro k w1 h
    simp only [ThreadPool.makeShared, List.range_succ_eq_map, ThreadPool.makeShared_loop] at h
    split at h
    · cases h
    · rename_i tp1 htp
      exact executor_fresh_not_ok _ fuel 0 rfl rfl tp1 htp
  refine ⟨⟨_, rfl, rfl⟩, hpos n, ?_, ?_⟩
  · simp [ThreadPool.makeShared, List.range_succ_eq_map, ThreadPool.makeShared_loop,
      ThreadPool.executor, ThreadPool.executor_serve]
  · intro k w1 h
    cases k with
    | zero =>
      simp only [ThreadPool.makeShared, List.range_zero, ThreadPool.makeShared_loop] at h
      cases h
      rfl
    | succ k => exact absurd h (hpos k w1)

/-! ## Task: resume on a finished or null frame, destroy (C13, C14) -/

/-- C13 (the code as it is): on a task whose frame is finished, `resume()` returns `false` and
changes nothing, for every fuel; on a task without a frame (`coroutine_ == nullptr`) `resume()`
evaluates `coroutine_.done()` on the null handle, which is undefined behaviour. -/
theorem C13_resume_finished_or_null {α ε : Type} (w : World α ε) (fuel : Nat) :
    (∀ t : Task, w.done t.coroutine_ = some true → Task.resume fuel w t = Except.ok (w, false)) ∧
    Task.resume fuel w { coroutine_ := none } = Except.error Fault.undefined := by
  constructor
  · intro t h
    simp [Task.resume, h]
  · simp [Task.resume, World.done, World.frame?]

/-- C14: `destroy()` on a task that owns frame `i` marks the frame destroyed, empties the task
and returns `true`; the task is then ready; a further `destroy()` returns `false` and changes
neither the heap nor the task; on a default-constructed and on a moved-from task `destroy()`
returns `false` and changes nothing. -/
theorem C14_destroy_idempotent {α ε : Type} (w : World α ε) (i : Nat) (fr : Frame α ε)
    (hfr : w.frames[i]? = some fr) :
    (Task.destroy w { coroutine_ := some i }).2.2 = true ∧
    (Task.destroy w { coroutine_ := some i }).1.frames[i]? = some { fr with destroyed := true } ∧
    Task.is_ready (Task.destroy w { coroutine_ := some i }).1
      (Task.destroy w { coroutine_ := some i }).2.1 = some true ∧
    Task.destroy (Task.destroy w { coroutine_ := some i }).1
        (Task.destroy w { coroutine_ := some i }).2.1
      = ((Task.destroy w { coroutine_ := some i }).1,
         (Task.destroy w { coroutine_ := some i }).2.1, false) ∧
    Task.destroy w Task.default = (w, Task.default, false) ∧
    Task.destroy w (Task.move { coroutine_ := some i }).2
      = (w, (Task.move { coroutine_ := some i }).2, false) := by
  have hlt := lt_of_getElem?_eq_some hfr
  refine ⟨rfl, ?_, rfl, rfl, rfl, rfl⟩
  simp [Task.destroy, World.destroy, hfr, World.setFrame, hlt]

/-- C14 (witness): the task of `exampleWorld`. -/
theorem C14_destroy_idempotent_witness :
    exampleWorld.frames[0]? = some { promise := PromiseState.void {}, body := [Instr.co_return_void] } ∧
    (Task.destroy exampleWorld { coroutine_ := some 0 }).2.2 = true ∧
    (Task.destroy exampleWorld { coroutine_ := some 0 }).1.frames[0]?
      = some { promise := PromiseState.void {}, body := [Instr.co_return_void],
               destroyed := true } ∧
    Task.is_ready (Task.destroy exampleWorld { coroutine_ := some 0 }).1
      (Task.destroy exampleWorld { coroutine_ := some 0 }).2.1 = some true ∧
    Task.destroy (Task.destroy exampleWorld { coroutine_ := some 0 }).1
        (Task.destroy exampleWorld { coroutine_ := some 0 }).2.1
      = ((Task.destroy exampleWorld { coroutine_ := some 0 }).1,
         (Task.destroy exampleWorld { coroutine_ := some 0 }).2.1, false) ∧
    Task.destroy exampleWorld Task.default = (exampleWorld, Task.default, false) ∧
    Task.destroy exampleWorld (Task.move { coroutine_ := some 0 }).2
      = (exampleWorld, (Task.move { coroutine_ := some 0 }).2, false) :=
  ⟨rfl, C14_destroy_idempotent exampleWorld 0 _ rfl⟩

/-! ## Completion with a value (C11, C12) -/

/-- A task whose body is inert statements followed by `co_return value`, never awaited, reaches
its final suspend point with the value in its promise within `pre.length + 1` steps. -/
theorem exec_inert_co_return {α ε : Type} (f : Nat) (pre rest : List (Instr α ε)) (value : α)
    (w : World α ε) (fr : Frame α ε) (p : Promise α ε) (n : Nat)
    (hf : w.frames[f]? = some fr) (hd : fr.destroyed = false) (hdone : fr.done = false)
    (haw : fr.awaiting = none) (hbody : fr.body = pre ++ Instr.co_return value :: rest)
    (hin : ∀ i ∈ pre, i.inert = true) (hp : fr.promise = PromiseState.value p)
    (hk : p.continuation_ = none) (hn : pre.length + 1 ≤ n) :
    World.exec n w f = Except.ok
      { w.setFrame f (fr.returned rest value) with log := w.log ++ tagsOf pre } := by
  obtain ⟨m, rfl⟩ : ∃ m, n = pre.length + (m + 1) := ⟨n - pre.length - 1, by omega⟩
  have hlt := lt_of_getElem?_eq_some hf
  rw [exec_inert f (Instr.co_return value :: rest) pre w fr (m + 1) hf hd hdone haw hbody hin]
  simp [World.exec, World.step, World.frame?, World.setFrame, List.getElem?_set, hlt, hd, hdone,
    haw, World.instr, hp, World.final, FinalAwaitable.await_suspend, Promise.return_value, hk,
    Frame.returned, List.set_set]

theorem Task_resume_of_exec {α ε : Type} (fuel : Nat) (w w1 : World α ε) (f : Nat) (d : Bool)
    (h0 : w.done (some f) = some false) (hex : World.exec fuel w f = Except.ok w1)
    (h1 : w1.done (some f) = some d) :
    Task.resume fuel w { coroutine_ := some f } = Except.ok (w1, !d) := by
  simp [Task.resume, World.resume, h0, hex, h1]

theorem create_frame {α ε : Type} (w : World α ε) (isVoid : Bool) (body : List (Instr α ε)) :
    (Task.create w isVoid body).1.frames[w.frames.length]?
      = some { promise := if isVoid then PromiseState.void {} else PromiseState.value {},
               body := body } := by
  simp [Task.create]

/-- C11: a `Task<T&>` or `Task<const T&>` whose body returns a reference to the external object
`o` (after statements that do not suspend): one `resume()` completes it, and the result read
through `promise().result()`, in its mutable and in its const form, is a reference whose
address is the address of `o`; what is stored is the address, so a read through the result
sees the object as it is in memory at the time of the read. -/
theorem C11_reference_result {ε : Type} (w : World Nat ε) (pre : List (Instr Nat ε)) (o : Ref)
    (fuel : Nat) (hpre : ∀ i ∈ pre, i.inert = true) (hfuel : pre.length + 1 ≤ fuel) :
    ∃ w1 fr1 p1,
      Task.resume fuel (Task.create w false (pre ++ [Instr.co_return (addressof o)])).1
        (Task.create w false (pre ++ [Instr.co_return (addressof o)])).2 = Except.ok (w1, false) ∧
      Task.is_ready w1 (Task.create w false (pre ++ [Instr.co_return (addressof o)])).2
        = some true ∧
      w1.frame? (Task.create w false (pre ++ [Instr.co_return (addressof o)])).2.coroutine_
        = some fr1 ∧
      fr1.promise = PromiseState.value p1 ∧
      p1 = Promise.return_value_ref {} o ∧
      (∃ r, p1.result_ref = Except.ok r ∧ addressof r = addressof o ∧
        ∀ (β : Type) (mem : Nat → β), r.read mem = o.read mem) ∧
      (∃ r, p1.result_ref_const = Except.ok r ∧ addressof r = addressof o ∧
        ∀ (β : Type) (mem : Nat → β), r.read mem = o.read mem) := by
  have hget := create_frame w false (pre ++ [Instr.co_return (addressof o)])
  have hlt := lt_of_getElem?_eq_some hget
  obtain ⟨w1, hex, hfr1⟩ : ∃ w1,
      World.exec fuel (Task.create w false (pre ++ [Instr.co_return (addressof o)])).1
        w.frames.length = Except.ok w1 ∧
      w1.frames[w.frames.length]? = some
        { promise := PromiseState.value (Promise.return_value_ref {} o), body := [],
          done := true } :=
    ⟨_, exec_inert_co_return w.frames.length pre [] (addressof o) _ _ {} fuel hget rfl rfl
      rfl rfl hpre rfl rfl hfuel,
      by simp [World.setFrame, List.getElem?_set, hlt, Frame.returned, Promise.return_value,
        Promise.return_value_ref]⟩
  have hdone0 : (Task.create w false (pre ++ [Instr.co_return (addressof o)])).1.done
      (some w.frames.length) = some false := by
    simp [World.done, World.frame?, hget]
  have hfr : w1.frame? (some w.frames.length) = some
      { promise := PromiseState.value (Promise.return_value_ref {} o), body := [],
        done := true } := by
    simp [World.frame?, hfr1]
  have hdone1 : w1.done (some w.frames.length) = some true := by
    simp [World.done, hfr]
  refine ⟨w1, _, _, ?_, ?_, hfr, rfl, rfl, ?_, ?_⟩
  · exact Task_resume_of_exec fuel _ w1 w.frames.length true hdone0 hex hdone1
  · exact hdone1
  · exact ⟨o, rfl, rfl, fun _ _ => rfl⟩
  · exact ⟨o, rfl, rfl, fun _ _ => rfl⟩

/-- C11 (witness): the body `co_return o` for the object at address 42. -/
theorem C11_reference_result_witness :
    (∀ i ∈ ([] : List (Instr Nat Nat)), i.inert = true) ∧ ([] : List (Instr Nat Nat)).length + 1 ≤ 1 ∧
    ∃ w1 fr1 p1,
      Task.resume 1 (Task.create ({} : World Nat Nat) false
          ([] ++ [Instr.co_return (addressof { addr := 42 })])).1
        (Task.create ({} : World Nat Nat) false
          ([] ++ [Instr.co_return (addressof { addr := 42 })])).2 = Except.ok (w1, false) ∧
      Task.is_ready w1 (Task.create ({} : World Nat Nat) false
          ([] ++ [Instr.co_return (addressof { addr := 42 })])).2 = some true ∧
      w1.frame? (Task.create ({} : World Nat Nat) false
          ([] ++ [Instr.co_return (addressof { addr := 42 })])).2.coroutine_ = some fr1 ∧
      fr1.promise = PromiseState.value p1 ∧
      p1 = Promise.return_value_ref {} { addr := 42 } ∧
      (∃ r, p1.result_ref = Except.ok r ∧ addressof r = addressof { addr := 42 } ∧
        ∀ (β : Type) (mem : Nat → β), r.read mem = Ref.read mem { addr := 42 }) ∧
      (∃ r, p1.result_ref_const = Except.ok r ∧ addressof r = addressof { addr := 42 } ∧
        ∀ (β : Type) (mem : Nat → β), r.read mem = Ref.read mem { addr := 42 }) :=
  ⟨by simp, by decide,
    C11_reference_result ({} : World Nat Nat) [] { addr := 42 } 1 (by simp) (by decide)⟩

/-- C12: a computation with a move-constructible non-reference result that has completed with
the value `v`: the rvalue read `auto x = std::move(task).promise().result()` yields `v` and
leaves the moved-from value in the result cell, which still holds a value; a later lvalue read
returns that moved-from value and signals no error. -/
theorem C12_rvalue_read_moves_out {α ε : Type} (movedFrom : α → α) (w : World α ε)
    (pre : List (Instr α ε)) (v : α) (fuel : Nat)
    (hpre : ∀ i ∈ pre, i.inert = true) (hfuel : pre.length + 1 ≤ fuel) :
    ∃ w1 p1,
      Task.resume fuel (Task.create w false (pre ++ [Instr.co_return v])).1
        (Task.create w false (pre ++ [Instr.co_return v])).2 = Except.ok (w1, false) ∧
      w1.frame? (Task.create w false (pre ++ [Instr.co_return v])).2.coroutine_
        = some { promise := PromiseState.value p1, body := [], done := true } ∧
      (p1.result_rvalue movedFrom).1 = Except.ok v ∧
      (p1.result_rvalue movedFrom).2.storage_ = Storage.stored (movedFrom v) ∧
      (p1.result_rvalue movedFrom).2.result = Except.ok (movedFrom v) := by
  have hget := create_frame w false (pre ++ [Instr.co_return v])
  have hlt := lt_of_getElem?_eq_some hget
  obtain ⟨w1, hex, hfr1⟩ : ∃ w1,
      World.exec fuel (Task.create w false (pre ++ [Instr.co_return v])).1
        w.frames.length = Except.ok w1 ∧
      w1.frames[w.frames.length]? = some
        { promise := PromiseState.value (Promise.return_value {} v), body := [],
          done := true } :=
    ⟨_, exec_inert_co_return w.frames.length pre [] v _ _ {} fuel hget rfl rfl
      rfl rfl hpre rfl rfl hfuel,
      by simp [World.setFrame, List.getElem?_set, hlt, Frame.returned]⟩
  have hdone0 : (Task.create w false (pre ++ [Instr.co_return v])).1.done
      (some w.frames.length) = some false := by
    simp [World.done, World.frame?, hget]
  have hfr : w1.frame? (some w.frames.length) = some
      { promise := PromiseState.value (Promise.return_value {} v), body := [],
        done := true } := by
    simp [World.frame?, hfr1]
  have hdone1 : w1.done (some w.frames.length) = some true := by
    simp [World.done, hfr]
  exact ⟨w1, _, Task_resume_of_exec fuel _ w1 w.frames.length true hdone0 hex hdone1, hfr,
    rfl, rfl, rfl⟩

/-- C12 (witness): the body `co_return 7`, a type whose moved-from value is 0. -/
theorem C12_rvalue_read_moves_out_witness :
    (∀ i ∈ ([] : List (Instr Nat Nat)), i.inert = true) ∧
    ([] : List (Instr Nat Nat)).length + 1 ≤ 1 ∧
    ∃ w1 p1,
      Task.resume 1 (Task.create ({} : World Nat Nat) false ([] ++ [Instr.co_return 7])).1
        (Task.create ({} : World Nat Nat) false ([] ++ [Instr.co_return 7])).2
          = Except.ok (w1, false) ∧
      w1.frame? (Task.create ({} : World Nat Nat) false ([] ++ [Instr.co_return 7])).2.coroutine_
        = some { promise := PromiseState.value p1, body := [], done := true } ∧
      (p1.result_rvalue (fun _ => 0)).1 = Except.ok 7 ∧
      (p1.result_rvalue (fun _ => 0)).2.storage_ = Storage.stored ((fun _ => 0) 7) ∧
      (p1.result_rvalue (fun _ => 0)).2.result = Except.ok ((fun _ => 0) 7) :=
  ⟨by simp, by decide,
    C12_rvalue_read_moves_out (fun _ => 0) ({} : World Nat Nat) [] 7 1 (by simp) (by decide)⟩

/-! ## The continuation link (C18) -/

/-- C18 (counterexample): in `exampleAwaiters` the task at 1 awaits the unfinished task at 0,
which installs 1 as continuation and suspends; then the task at 2 awaits it as well: the
continuation of task 0 is now 2, its terminal suspend forwards to 2, which receives the value
and finishes, and the first awaiter 1 is never resumed. -/
theorem C18_second_await_replaces_continuation :
    ((World.resume 10 exampleAwaiters (some 1)).map World.links)
      = Except.ok [(some 1, false, []), (none, false, []), (none, false, [])] ∧
    ((World.resume 10 exampleAwaiters (some 1)).bind
        (fun w1 => (World.resume 10 w1 (some 2)).map World.links))
      = Except.ok [(some 2, true, []), (none, false, []), (none, true, [5])] := by
  decide

/-- C18 (as amended): `co_await` on a task that has not finished stores the awaiter in the
task's `continuation_` whatever was stored there before, and transfers control to the task; the
terminal suspend of a task forwards to the continuation stored last. -/
theorem C18_await_overwrites_continuation {α ε : Type} (w : World α ε) (f c : Nat)
    (fr fc : Frame α ε) (hne : f ≠ c)
    (hc : w.frames[c]? = some fc) (hd : fc.destroyed = false) (hdone : fc.done = false)
    (hkind : ∀ p, fc.promise ≠ PromiseState.selfDeleting p) :
    ∃ w1, w.await f fr (some c) = Except.ok (w1, Next.run c) ∧
      w1.frames[c]? = some (fc.setContinuation (some f)) ∧
      (fc.setContinuation (some f)).continuation_ = some f ∧
      (w1.final c (fc.setContinuation (some f))).2 = Next.run f := by
  have hlt := lt_of_getElem?_eq_some hc
  have hfc : w.frame? (some c) = some fc := by simp [World.frame?, hc, hd]
  have hc1 : (w.setFrame f { fr with awaiting := some c }).frames[c]? = some fc := by
    simp [World.setFrame, List.getElem?_set, hne, hc]
  cases hp : fc.promise with
  | selfDeleting p => exact absurd hp (hkind p)
  | value p =>
    refine ⟨(w.setFrame f { fr with awaiting := some c }).setFrame c
      (fc.setContinuation (some f)), ?_, ?_, ?_, ?_⟩
    · simp [World.await, hfc, hp, hdone, hc1]
    · simp [World.setFrame, List.getElem?_set, hlt]
    · simp [Frame.setContinuation, Frame.continuation_, hp, PromiseBase.continuation]
    · simp [World.final, Frame.setContinuation, hp, PromiseBase.continuation,
        FinalAwaitable.await_suspend]
  | void p =>
    refine ⟨(w.setFrame f { fr with awaiting := some c }).setFrame c
      (fc.setContinuation (some f)), ?_, ?_, ?_, ?_⟩
    · simp [World.await, hfc, hp, hdone, hc1]
    · simp [World.setFrame, List.getElem?_set, hlt]
    · simp [Frame.setContinuation, Frame.continuation_, hp, PromiseBase.continuation]
    · simp [World.final, Frame.setContinuation, hp, PromiseBase.continuation,
        FinalAwaitable.await_suspend]

/-- C18 (witness): in `exampleAwaiters`, the task at 2 awaits the task at 0. -/
theorem C18_await_overwrites_continuation_witness :
    (2 : Nat) ≠ 0 ∧
    exampleAwaiters.frames[0]? = some
      { promise := PromiseState.value {}, body := [Instr.suspend_always, Instr.co_return 5] } ∧
    ∃ w1, exampleAwaiters.await 2
        { promise := PromiseState.value {}, body := [Instr.co_return 2] } (some 0)
        = Except.ok (w1, Next.run 0) ∧
      w1.frames[0]? = some (Frame.setContinuation
        { promise := PromiseState.value {}, body := [Instr.suspend_always, Instr.co_return 5] }
        (some 2)) ∧
      (Frame.setContinuation
        ({ promise := PromiseState.value {}, body := [Instr.suspend_always, Instr.co_return 5] } :
          Frame Nat Nat) (some 2)).continuation_ = some 2 ∧
      (w1.final 0 (Frame.setContinuation
        { promise := PromiseState.value {}, body := [Instr.suspend_always, Instr.co_return 5] }
        (some 2))).2 = Next.run 2 :=
  ⟨by decide, rfl,
    C18_await_overwrites_continuation exampleAwaiters 2 0
      { promise := PromiseState.value {}, body := [Instr.co_return 2] }
      { promise := PromiseState.value {}, body := [Instr.suspend_always, Instr.co_return 5] }
      (by decide) rfl rfl rfl (by intro p h; cases h)⟩

/-! ## Suspending and resuming (C15) -/

/-- A body that reaches `co_await std::suspend_always {}` after inert statements suspends there
within `pre.length + 1` steps. -/
theorem exec_inert_suspend {α ε : Type} (f : Nat) (pre rest : List (Instr α ε))
    (w : World α ε) (fr : Frame α ε) (n : Nat)
    (hf : w.frames[f]? = some fr) (hd : fr.destroyed = false) (hdone : fr.done = false)
    (haw : fr.awaiting = none) (hbody : fr.body = pre ++ Instr.suspend_always :: rest)
    (hin : ∀ i ∈ pre, i.inert = true) (hn : pre.length + 1 ≤ n) :
    World.exec n w f = Except.ok
      { w.setFrame f { fr with body := rest } with log := w.log ++ tagsOf pre } := by
  obtain ⟨m, rfl⟩ : ∃ m, n = pre.length + (m + 1) := ⟨n - pre.length - 1, by omega⟩
  have hlt := lt_of_getElem?_eq_some hf
  rw [exec_inert f (Instr.suspend_always :: rest) pre w fr (m + 1) hf hd hdone haw hbody hin]
  simp [World.exec, World.step, World.frame?, World.setFrame, List.getElem?_set, hlt, hd, hdone,
    haw, World.instr, List.set_set]

/-- A void task whose body is inert statements followed by `co_return;`, never awaited, reaches
its final suspend point within `pre.length + 1` steps. -/
theorem exec_inert_co_return_void {α ε : Type} (f : Nat) (pre rest : List (Instr α ε))
    (w : World α ε) (fr : Frame α ε) (p : PromiseVoid ε) (n : Nat)
    (hf : w.frames[f]? = some fr) (hd : fr.destroyed = false) (hdone : fr.done = false)
    (haw : fr.awaiting = none) (hbody : fr.body = pre ++ Instr.co_return_void :: rest)
    (hin : ∀ i ∈ pre, i.inert = true) (hp : fr.promise = PromiseState.void p)
    (hk : p.continuation_ = none) (hn : pre.length + 1 ≤ n) :
    World.exec n w f = Except.ok
      { w.setFrame f { fr with body := rest, done := true } with
        log := w.log ++ tagsOf pre } := by
  obtain ⟨m, rfl⟩ : ∃ m, n = pre.length + (m + 1) := ⟨n - pre.length - 1, by omega⟩
  have hlt := lt_of_getElem?_eq_some hf
  rw [exec_inert f (Instr.co_return_void :: rest) pre w fr (m + 1) hf hd hdone haw hbody hin]
  simp [World.exec, World.step, World.frame?, World.setFrame, List.getElem?_set, hlt, hd, hdone,
    haw, World.instr, hp, World.final, FinalAwaitable.await_suspend, PromiseVoid.return_void, hk,
    List.set_set]

theorem split_first_suspend {α ε : Type} :
    ∀ (awaits : List (Instr α ε)) (n : Nat),
      (∀ i ∈ awaits, i.isSuspendAlways = true ∨ i.inert = true) →
      awaits.countP Instr.isSuspendAlways = n + 1 →
      ∃ pre rest, awaits = pre ++ Instr.suspend_always :: rest ∧ (∀ i ∈ pre, i.inert = true) ∧
        (∀ i ∈ rest, i.isSuspendAlways = true ∨ i.inert = true) ∧
        rest.countP Instr.isSuspendAlways = n := by
  intro awaits
  induction awaits with
  | nil => intro n _ h; simp at h
  | cons i t ih =>
    intro n hall hcount
    have ht : ∀ j ∈ t, j.isSuspendAlways = true ∨ j.inert = true :=
      fun j hj => hall j (List.mem_cons_of_mem _ hj)
    cases hi : i.isSuspendAlways with
    | true =>
      have : i = Instr.suspend_always := by
        cases i <;> simp [Instr.isSuspendAlways] at hi
        rfl
      subst this
      refine ⟨[], t, rfl, by simp, ht, ?_⟩
      simpa [List.countP_cons, Instr.isSuspendAlways] using hcount
    | false =>
      have hinert : i.inert = true := by
        rcases hall i (List.mem_cons_self _ _) with h | h
        · rw [hi] at h; cases h
        · exact h
      have hc : t.countP Instr.isSuspendAlways = n + 1 := by
        simpa [List.countP_cons, hi] using hcount
      obtain ⟨pre, rest, rfl, hpre, hrest, hn⟩ := ih n ht hc
      refine ⟨i :: pre, rest, rfl, ?_, hrest, hn⟩
      intro j hj
      rcases List.mem_cons.mp hj with rfl | hj
      · exact hinert
      · exact hpre j hj

theorem inert_of_count_zero {α ε : Type} (awaits : List (Instr α ε))
    (hall : ∀ i ∈ awaits, i.isSuspendAlways = true ∨ i.inert = true)
    (hcount : awaits.countP Instr.isSuspendAlways = 0) : ∀ i ∈ awaits, i.inert = true := by
  intro i hi
  rcases hall i hi with h | h
  · have := List.countP_pos_iff.mpr ⟨i, hi, h⟩
    omega
  · exact h

theorem frame?_of_getElem {α ε : Type} (w : World α ε) (f : Nat) (fr : Frame α ε)
    (hf : w.frames[f]? = some fr) (hd : fr.destroyed = false) : w.frame? (some f) = some fr := by
  simp [World.frame?, hf, hd]

theorem done_of_getElem {α ε : Type} (w : World α ε) (f : Nat) (fr : Frame α ε)
    (hf : w.frames[f]? = some fr) (hd : fr.destroyed = false) :
    w.done (some f) = some fr.done := by
  simp [World.done, frame?_of_getElem w f fr hf hd]

theorem returned_eq {α ε : Type} (fr : Frame α ε) (p : Promise α ε) (rest : List (Instr α ε))
    (v : α) (hp : fr.promise = PromiseState.value p) :
    fr.returned rest v =
      { fr with promise := PromiseState.value (p.return_value v), body := rest, done := true } := by
  simp [Frame.returned, hp]

/-- Resuming a task with a value result through its suspensions: with `n` always-suspending
awaits before `co_return v`, the first `n` calls return `true` and leave the task unfinished, and
call `n + 1` returns `false`, finishes it and makes `v` its result. -/
theorem resumes_value {α ε : Type} (f : Nat) (v : α) (fuel : Nat) :
    ∀ (n : Nat) (awaits : List (Instr α ε)) (w : World α ε) (fr : Frame α ε) (p : Promise α ε),
      w.frames[f]? = some fr → fr.destroyed = false → fr.done = false → fr.awaiting = none →
      fr.promise = PromiseState.value p → p.continuation_ = none →
      fr.body = awaits ++ [Instr.co_return v] →
      (∀ i ∈ awaits, i.isSuspendAlways = true ∨ i.inert = true) →
      awaits.countP Instr.isSuspendAlways = n → awaits.length + 1 ≤ fuel →
      (∃ wn, Task.resumes fuel n w { coroutine_ := some f }
          = Except.ok (wn, List.replicate n (true, some false))) ∧
      ∃ w1, Task.resumes fuel (n + 1) w { coroutine_ := some f }
          = Except.ok (w1, List.replicate n (true, some false) ++ [(false, some true)]) ∧
        Task.result w1 { coroutine_ := some f } = some (Except.ok (some v)) := by
  intro n
  induction n with
  | zero =>
    intro awaits w fr p hf hd hdone haw hp hk hbody hall hcount hfuel
    have hlt := lt_of_getElem?_eq_some hf
    have hin := inert_of_count_zero awaits hall hcount
    obtain ⟨w1, hex, hf1⟩ : ∃ w1, World.exec fuel w f = Except.ok w1 ∧
        w1.frames[f]? = some { fr with
          promise := PromiseState.value (p.return_value v), body := [], done := true } :=
      ⟨_, exec_inert_co_return f awaits [] v w fr p fuel hf hd hdone haw hbody hin hp hk hfuel,
        by simp [World.setFrame, List.getElem?_set, hlt, returned_eq fr p [] v hp]⟩
    have h0 : w.done (some f) = some false := hdone ▸ done_of_getElem w f fr hf hd
    have hfr1 := frame?_of_getElem _ f _ hf1 hd
    have h1 := done_of_getElem _ f _ hf1 hd
    have hres := Task_resume_of_exec fuel w w1 f true h0 hex h1
    refine ⟨⟨w, rfl⟩, w1, ?_, ?_⟩
    · simp only [Task.resumes, hres, Task.is_ready, h1]
      rfl
    · simp only [Task.result, hfr1]
      rfl
  | succ n ih =>
    intro awaits w fr p hf hd hdone haw hp hk hbody hall hcount hfuel
    have hlt := lt_of_getElem?_eq_some hf
    obtain ⟨pre, rest, rfl, hpre, hrest, hn⟩ := split_first_suspend awaits n hall hcount
    have hbody1 : fr.body = pre ++ Instr.suspend_always :: (rest ++ [Instr.co_return v]) := by
      simpa using hbody
    obtain ⟨w1, hex, hf1⟩ : ∃ w1, World.exec fuel w f = Except.ok w1 ∧
        w1.frames[f]? = some { fr with body := rest ++ [Instr.co_return v] } :=
      ⟨_, exec_inert_suspend f pre (rest ++ [Instr.co_return v]) w fr fuel hf hd hdone haw
        hbody1 hpre (by simp at hfuel; omega),
        by simp [World.setFrame, List.getElem?_set, hlt]⟩
    have h0 : w.done (some f) = some false := hdone ▸ done_of_getElem w f fr hf hd
    have h1 : w1.done (some f) = some false := by
      rw [done_of_getElem _ f _ hf1 hd]
      exact congrArg some hdone
    have hres := Task_resume_of_exec fuel w w1 f false h0 hex h1
    obtain ⟨⟨wn, hwn⟩, w2, hw2, hr2⟩ := ih rest w1 { fr with body := rest ++ [Instr.co_return v] }
      p hf1 hd hdone haw hp hk rfl hrest hn (by simp at hfuel ⊢; omega)
    refine ⟨⟨wn, ?_⟩, w2, ?_, hr2⟩
    · simp only [Task.resumes, hres, hwn, Task.is_ready, h1]
      rfl
    · rw [Task.resumes]
      simp only [hres, hw2, Task.is_ready, h1]
      rfl

/-- Resuming a void task through its suspensions: with `n` always-suspending
awaits before `co_return;`, the first `n` calls return `true` and leave the task unfinished, and
call `n + 1` returns `false` and finishes it without an exception. -/
theorem resumes_void {α ε : Type} (f : Nat) (fuel : Nat) :
    ∀ (n : Nat) (awaits : List (Instr α ε)) (w : World α ε) (fr : Frame α ε) (p : PromiseVoid ε),
      w.frames[f]? = some fr → fr.destroyed = false → fr.done = false → fr.awaiting = none →
      fr.promise = PromiseState.void p → p.continuation_ = none → p.exception_ = none →
      fr.body = awaits ++ [Instr.co_return_void] →
      (∀ i ∈ awaits, i.isSuspendAlways = true ∨ i.inert = true) →
      awaits.countP Instr.isSuspendAlways = n → awaits.length + 1 ≤ fuel →
      (∃ wn, Task.resumes fuel n w { coroutine_ := some f }
          = Except.ok (wn, List.replicate n (true, some false))) ∧
      ∃ w1, Task.resumes fuel (n + 1) w { coroutine_ := some f }
          = Except.ok (w1, List.replicate n (true, some false) ++ [(false, some true)]) ∧
        Task.result w1 { coroutine_ := some f } = some (Except.ok none) := by
  intro n
  induction n with
  | zero =>
    intro awaits w fr p hf hd hdone haw hp hk hex0 hbody hall hcount hfuel
    have hlt := lt_of_getElem?_eq_some hf
    have hin := inert_of_count_zero awaits hall hcount
    obtain ⟨w1, hex, hf1⟩ : ∃ w1, World.exec fuel w f = Except.ok w1 ∧
        w1.frames[f]? = some { fr with body := [], done := true } :=
      ⟨_, exec_inert_co_return_void f awaits [] w fr p fuel hf hd hdone haw hbody hin hp hk hfuel,
        by simp [World.setFrame, List.getElem?_set, hlt]⟩
    have h0 : w.done (some f) = some false := hdone ▸ done_of_getElem w f fr hf hd
    have hfr1 := frame?_of_getElem _ f _ hf1 hd
    have h1 := done_of_getElem _ f _ hf1 hd
    have hres := Task_resume_of_exec fuel w w1 f true h0 hex h1
    refine ⟨⟨w, rfl⟩, w1, ?_, ?_⟩
    · simp only [Task.resumes, hres, Task.is_ready, h1]
      rfl
    · simp only [Task.result, hfr1, hp]
      simp [PromiseVoid.result, hex0]
  | succ n ih =>
    intro awaits w fr p hf hd hdone haw hp hk hex0 hbody hall hcount hfuel
    have hlt := lt_of_getElem?_eq_some hf
    obtain ⟨pre, rest, rfl, hpre, hrest, hn⟩ := split_first_suspend awaits n hall hcount
    have hbody1 : fr.body = pre ++ Instr.suspend_always :: (rest ++ [Instr.co_return_void]) := by
      simpa using hbody
    obtain ⟨w1, hex, hf1⟩ : ∃ w1, World.exec fuel w f = Except.ok w1 ∧
        w1.frames[f]? = some { fr with body := rest ++ [Instr.co_return_void] } :=
      ⟨_, exec_inert_suspend f pre (rest ++ [Instr.co_return_void]) w fr fuel hf hd hdone haw
        hbody1 hpre (by simp at hfuel; omega),
        by simp [World.setFrame, List.getElem?_set, hlt]⟩
    have h0 : w.done (some f) = some false := hdone ▸ done_of_getElem w f fr hf hd
    have h1 : w1.done (some f) = some false := by
      rw [done_of_getElem _ f _ hf1 hd]
      exact congrArg some hdone
    have hres := Task_resume_of_exec fuel w w1 f false h0 hex h1
    obtain ⟨⟨wn, hwn⟩, w2, hw2, hr2⟩ := ih rest w1 { fr with body := rest ++ [Instr.co_return_void] }
      p hf1 hd hdone haw hp hk hex0 rfl hrest hn (by simp at hfuel ⊢; omega)
    refine ⟨⟨wn, ?_⟩, w2, ?_, hr2⟩
    · simp only [Task.resumes, hres, hwn, Task.is_ready, h1]
      rfl
    · rw [Task.resumes]
      simp only [hres, hw2, Task.is_ready, h1]
      rfl


/-- C15: a computation is created suspended (`is_ready()` is false and nothing has run), and
for a body of awaits that are `std::suspend_always` or do not suspend, followed by its return,
with `n` the number of always-suspending awaits: each of the first `n` calls of `resume()`
returns `true` and leaves `is_ready()` false, call `n + 1` returns `false` and leaves
`is_ready()` true, and the result then reads as the returned value `v` for a non-void body
(and as no exception for a void body). Holds for every fuel of at least the number of
statements. -/
theorem C15_resume_drives_to_completion {α ε : Type} (w : World α ε)
    (awaits : List (Instr α ε)) (v : α) (fuel : Nat)
    (hall : ∀ i ∈ awaits, i.isSuspendAlways = true ∨ i.inert = true)
    (hfuel : awaits.length + 1 ≤ fuel) :
    ((Task.create w false (awaits ++ [Instr.co_return v])).1.log = w.log ∧
     Task.is_ready (Task.create w false (awaits ++ [Instr.co_return v])).1
        (Task.create w false (awaits ++ [Instr.co_return v])).2 = some false ∧
     (∃ wn, Task.resumes fuel (awaits.countP Instr.isSuspendAlways)
        (Task.create w false (awaits ++ [Instr.co_return v])).1
        (Task.create w false (awaits ++ [Instr.co_return v])).2
        = Except.ok (wn, List.replicate (awaits.countP Instr.isSuspendAlways) (true, some false))) ∧
     ∃ w1, Task.resumes fuel (awaits.countP Instr.isSuspendAlways + 1)
        (Task.create w false (awaits ++ [Instr.co_return v])).1
        (Task.create w false (awaits ++ [Instr.co_return v])).2
        = Except.ok (w1, List.replicate (awaits.countP Instr.isSuspendAlways) (true, some false)
            ++ [(false, some true)]) ∧
       Task.result w1 (Task.create w false (awaits ++ [Instr.co_return v])).2
        = some (Except.ok (some v))) ∧
    ((Task.create w true (awaits ++ [Instr.co_return_void])).1.log = w.log ∧
     Task.is_ready (Task.create w true (awaits ++ [Instr.co_return_void])).1
        (Task.create w true (awaits ++ [Instr.co_return_void])).2 = some false ∧
     (∃ wn, Task.resumes fuel (awaits.countP Instr.isSuspendAlways)
        (Task.create w true (awaits ++ [Instr.co_return_void])).1
        (Task.create w true (awaits ++ [Instr.co_return_void])).2
        = Except.ok (wn, List.replicate (awaits.countP Instr.isSuspendAlways) (true, some false))) ∧
     ∃ w1, Task.resumes fuel (awaits.countP Instr.isSuspendAlways + 1)
        (Task.create w true (awaits ++ [Instr.co_return_void])).1
        (Task.create w true (awaits ++ [Instr.co_return_void])).2
        = Except.ok (w1, List.replicate (awaits.countP Instr.isSuspendAlways) (true, some false)
            ++ [(false, some true)]) ∧
       Task.result w1 (Task.create w true (awaits ++ [Instr.co_return_void])).2
        = some (Except.ok none)) := by
  constructor
  · have hget := create_frame w false (awaits ++ [Instr.co_return v])
    have hr := resumes_value w.frames.length v fuel (awaits.countP Instr.isSuspendAlways) awaits
      _ _ {} hget rfl rfl rfl rfl rfl rfl hall rfl hfuel
    exact ⟨rfl, done_of_getElem _ _ _ hget rfl, hr.1, hr.2⟩
  · have hget := create_frame w true (awaits ++ [Instr.co_return_void])
    have hr := resumes_void w.frames.length fuel (awaits.countP Instr.isSuspendAlways) awaits
      _ _ {} hget rfl rfl rfl rfl rfl rfl rfl hall rfl hfuel
    exact ⟨rfl, done_of_getElem _ _ _ hget rfl, hr.1, hr.2⟩

/-- C15 (witness): three suspending awaits and one that does not suspend, as in the test
`MultipleSuspendsReturnVoid`, returning 11 in the non-void form. -/
theorem C15_resume_drives_to_completion_witness :
    (∀ i ∈ ([Instr.suspend_always, Instr.suspend_never, Instr.suspend_always,
        Instr.suspend_always] : List (Instr Nat Nat)),
      i.isSuspendAlways = true ∨ i.inert = true) ∧
    ∃ w1, Task.resumes 5 (([Instr.suspend_always, Instr.suspend_never, Instr.suspend_always,
          Instr.suspend_always] : List (Instr Nat Nat)).countP Instr.isSuspendAlways + 1)
        (Task.create ({} : World Nat Nat) false ([Instr.suspend_always, Instr.suspend_never,
          Instr.suspend_always, Instr.suspend_always] ++ [Instr.co_return 11])).1
        (Task.create ({} : World Nat Nat) false ([Instr.suspend_always, Instr.suspend_never,
          Instr.suspend_always, Instr.suspend_always] ++ [Instr.co_return 11])).2
        = Except.ok (w1, List.replicate (([Instr.suspend_always, Instr.suspend_never,
            Instr.suspend_always, Instr.suspend_always] :
              List (Instr Nat Nat)).countP Instr.isSuspendAlways) (true, some false)
            ++ [(false, some true)]) ∧
       Task.result w1 (Task.create ({} : World Nat Nat) false ([Instr.suspend_always,
          Instr.suspend_never, Instr.suspend_always, Instr.suspend_always]
            ++ [Instr.co_return 11])).2
        = some (Except.ok (some 11)) :=
  ⟨by decide,
    (C15_resume_drives_to_completion ({} : World Nat Nat) [Instr.suspend_always,
      Instr.suspend_never, Instr.suspend_always, Instr.suspend_always] 11 5
      (by decide) (by decide)).1.2.2.2⟩

/-! ## Running a self-deleting wrapper (C19) -/

theorem exec_of_step_run {α ε : Type} (n : Nat) (w w1 : World α ε) (f g : Nat)
    (h : w.step f = Except.ok (w1, Next.run g)) : World.exec (n + 1) w f = World.exec n w1 g := by
  simp [World.exec, h]

theorem exec_of_step_ret {α ε : Type} (n : Nat) (w w1 : World α ε) (f : Nat)
    (h : w.step f = Except.ok (w1, Next.ret)) : World.exec (n + 1) w f = Except.ok w1 := by
  simp [World.exec, h]

/-- A void task that completes inline and was awaited by frame `k`: run from its current
statement it finishes within `body.length + 1` steps and hands control to `k`; its frame alone
changed, and its tags were logged. -/
theorem exec_inline_void {α ε : Type} (f k : Nat) :
    ∀ (body : List (Instr α ε)) (w : World α ε) (fr : Frame α ε) (p : PromiseVoid ε) (n : Nat),
      w.frames[f]? = some fr → fr.destroyed = false → fr.done = false → fr.awaiting = none →
      fr.promise = PromiseState.void p → p.continuation_ = some k →
      fr.body = body → completesInline body = true → body.length + 1 ≤ n →
      ∃ (w1 : World α ε) (fr1 : Frame α ε) (m : Nat),
        World.exec n w f = World.exec m w1 k ∧ n ≤ m + (body.length + 1) ∧
        w1.frames = w.frames.set f fr1 ∧ w1.pool = w.pool ∧ w1.executing = w.executing ∧
        w1.log = w.log ++ inlineTags body ∧
        fr1.destroyed = false ∧ fr1.done = true ∧ fr1.owns = fr.owns ∧
        ∃ p1 : PromiseVoid ε, fr1.promise = PromiseState.void p1 ∧
          (p.exception_ = none → (p1.exception_ = none ∨ ∃ e, p1.exception_ = some (Exn.user e))) := by
  intro body
  induction body with
  | nil =>
    intro w fr p n hf hd hdone haw hp hk hbody _ hn
    obtain ⟨m, rfl⟩ : ∃ m, n = m + 1 := ⟨n - 1, by simp at hn; omega⟩
    refine ⟨w.setFrame f { fr with done := true }, { fr with done := true }, m, ?_, ?_,
      rfl, rfl, rfl, ?_, hd, rfl, rfl, p, hp, fun h => Or.inl h⟩
    · apply exec_of_step_run
      simp [World.step, World.frame?, hf, hd, hdone, haw, hbody, hp, World.final,
        FinalAwaitable.await_suspend, hk]
    · simp
    · simp [inlineTags, World.setFrame]
  | cons i rest ih =>
    intro w fr p n hf hd hdone haw hp hk hbody hc hn
    obtain ⟨m, rfl⟩ : ∃ m, n = m + 1 := ⟨n - 1, by simp at hn; omega⟩
    have hlt := lt_of_getElem?_eq_some hf
    cases i with
    | co_return_void =>
      refine ⟨w.setFrame f { fr with body := rest, done := true },
        { fr with body := rest, done := true }, m, ?_, ?_, rfl, rfl, rfl, ?_, hd, rfl, rfl,
        p, hp, fun h => Or.inl h⟩
      · apply exec_of_step_run
        simp [World.step, World.frame?, hf, hd, hdone, haw, hbody, hp, World.final, World.instr,
          FinalAwaitable.await_suspend, hk, PromiseVoid.return_void]
      · simp
      · simp [inlineTags, World.setFrame]
    | throw e =>
      refine ⟨w.setFrame f { fr with promise := PromiseState.void (p.unhandled_exception (Exn.user e)), body := rest, done := true },
        { fr with promise := PromiseState.void (p.unhandled_exception (Exn.user e)), body := rest, done := true },
        m, ?_, ?_, rfl, rfl, rfl, ?_, hd, rfl, rfl, _, rfl, fun _ => Or.inr ⟨e, rfl⟩⟩
      · apply exec_of_step_run
        simp [World.step, World.frame?, hf, hd, hdone, haw, hbody, hp, World.final, World.instr,
          World.raise, FinalAwaitable.await_suspend, hk, PromiseVoid.unhandled_exception]
      · simp
      · simp [inlineTags, World.setFrame]
    | suspend_never =>
      have hstep := step_inert w f fr Instr.suspend_never rest hf hd hdone haw hbody rfl
      have hf1 : (World.frames { w.setFrame f { fr with body := rest } with
          log := w.log ++ tagsOf [(Instr.suspend_never : Instr α ε)] })[f]?
          = some { fr with body := rest } := by
        simp [World.setFrame, List.getElem?_set, hlt]
      obtain ⟨w1, fr1, m1, hex, hm, hfr, hpool, hexe, hlog, h1, h2, h3, h4⟩ :=
        ih _ { fr with body := rest } p m hf1 hd hdone haw hp hk rfl
          (by simpa [completesInline] using hc) (by simp at hn; omega)
      refine ⟨w1, fr1, m1, ?_, ?_, ?_, hpool, hexe, ?_, h1, h2, h3, h4⟩
      · rw [exec_of_step_run m _ _ f f hstep]
        exact hex
      · simp
        omega
      · rw [hfr]
        simp [World.setFrame, List.set_set]
      · rw [hlog]
        simp [tagsOf, inlineTags]
    | record tag =>
      have hstep := step_inert w f fr (Instr.record tag) rest hf hd hdone haw hbody rfl
      have hf1 : (World.frames { w.setFrame f { fr with body := rest } with
          log := w.log ++ tagsOf [(Instr.record tag : Instr α ε)] })[f]?
          = some { fr with body := rest } := by
        simp [World.setFrame, List.getElem?_set, hlt]
      obtain ⟨w1, fr1, m1, hex, hm, hfr, hpool, hexe, hlog, h1, h2, h3, h4⟩ :=
        ih _ { fr with body := rest } p m hf1 hd hdone haw hp hk rfl
          (by simpa [completesInline] using hc) (by simp at hn; omega)
      refine ⟨w1, fr1, m1, ?_, ?_, ?_, hpool, hexe, ?_, h1, h2, h3, h4⟩
      · rw [exec_of_step_run m _ _ f f hstep]
        exact hex
      · simp
        omega
      · rw [hfr]
        simp [World.setFrame, List.set_set]
      · rw [hlog]
        simp [tagsOf, inlineTags]
    | suspend_always => simp [completesInline] at hc
    | await h => simp [completesInline] at hc
    | schedule => simp [completesInline] at hc
    | resume h => simp [completesInline] at hc
    | resumeBatch hs => simp [completesInline] at hc
    | spawn h => simp [completesInline] at hc
    | co_return v => simp [completesInline] at hc

theorem getElem?_set_set_ne {β : Type} (l : List β) (i j : Nat) (a b : β) (h : i ≠ j)
    (hi : i < l.length) : ((l.set i a).set j b)[i]? = some a := by
  simp [List.getElem?_set, h, Ne.symm h, hi]

/-- The final suspend of a self-deleting frame, spelled out. -/
theorem final_selfDeleting {α ε : Type} (w : World α ε) (f : Nat) (fr : Frame α ε)
    (p : PromiseSelfDeleting) (hp : fr.promise = PromiseState.selfDeleting p) :
    w.final f fr =
      (World.destroy (World.setFrame
          { w with pool := { w.pool with size_ := p.final_suspend w.pool.size_ } } f
          { fr with destroyed := true }) fr.owns, Next.ret) := by
  simp [World.final, hp]

/-- Destroying a frame that exists marks it destroyed. -/
theorem destroy_of_getElem {α ε : Type} (w : World α ε) (i : Nat) (fr : Frame α ε)
    (h : w.frames[i]? = some fr) :
    w.destroy (some i) = w.setFrame i { fr with destroyed := true } := by
  simp [World.destroy, h]

/-- The last statement `co_return;` of a self-deleting frame goes to its final suspend. -/
theorem step_co_return_void_selfDeleting {α ε : Type} (w : World α ε) (f : Nat)
    (fr : Frame α ε) (p : PromiseSelfDeleting) (h : w.frames[f]? = some fr)
    (hd : fr.destroyed = false) (hdone : fr.done = false) (ha : fr.awaiting = none)
    (hb : fr.body = [Instr.co_return_void]) (hp : fr.promise = PromiseState.selfDeleting p) :
    w.step f = Except.ok (w.final f { fr with body := [] }) := by
  simp [World.step, World.frame?, h, hd, hdone, ha, hb, World.instr, hp]

/-- What the final suspend of a self-deleting frame `wi` that owns the task `ui` leaves. -/
theorem final_wrapper_facts {α ε : Type} (w : World α ε) (wi ui : Nat) (fr UB : Frame α ε)
    (p : PromiseSelfDeleting) (hne : wi ≠ ui) (hwi : wi < w.frames.length)
    (hU : w.frames[ui]? = some UB) (hp : fr.promise = PromiseState.selfDeleting p)
    (howns : fr.owns = some ui) :
    (w.final wi fr).2 = Next.ret ∧
    (w.final wi fr).1.pool = { w.pool with size_ := p.final_suspend w.pool.size_ } ∧
    (w.final wi fr).1.executing = w.executing ∧ (w.final wi fr).1.log = w.log ∧
    (w.final wi fr).1.frames.length = w.frames.length ∧
    (∀ j, j ≠ wi → j ≠ ui → (w.final wi fr).1.frames[j]? = w.frames[j]?) ∧
    (∃ fr1, (w.final wi fr).1.frames[wi]? = some fr1 ∧ fr1.destroyed = true ∧
      fr1.promise = fr.promise) ∧
    (∃ fr1, (w.final wi fr).1.frames[ui]? = some fr1 ∧ fr1.destroyed = true) := by
  have hul := lt_of_getElem?_eq_some hU
  rw [final_selfDeleting w wi fr p hp, howns, destroy_of_getElem _ ui UB
    (by simp [World.setFrame, List.getElem?_set, hne, hU])]
  refine ⟨rfl, rfl, rfl, rfl, by simp [World.setFrame], ?_, ?_, ?_⟩
  · intro j h1 h2
    simp [World.setFrame, List.getElem?_set, Ne.symm h1, Ne.symm h2]
  · exact ⟨{ fr with destroyed := true }, by
      simp [World.setFrame, List.getElem?_set, hne, Ne.symm hne, hwi, howns], rfl, rfl⟩
  · exact ⟨{ UB with destroyed := true }, by
      simp [World.setFrame, List.getElem?_set, hul], rfl⟩

/-- Resuming the wrapper that `spawn` made for a void task which completes inline: the run
returns normally, the counter was passed through `final_suspend` once, the tags of the task
were logged, and only the wrapper's and the task's frames changed: both are destroyed. -/
theorem exec_wrapper {α ε : Type} (w : World α ε) (wi ui : Nat) (bound : Bool) (U : Frame α ε)
    (pu : PromiseVoid ε) (n : Nat) (hne : wi ≠ ui)
    (hW : w.frames[wi]? = some (wrapperFrame (some ui) bound))
    (hU : w.frames[ui]? = some U) (hUd : U.destroyed = false) (hUdone : U.done = false)
    (hUaw : U.awaiting = none) (hUp : U.promise = PromiseState.void pu)
    (hUi : completesInline U.body = true) (hn : U.body.length + 4 ≤ n) :
    ∃ w1 : World α ε, World.exec n w wi = Except.ok w1 ∧
      w1.pool = { w.pool with
        size_ := PromiseSelfDeleting.final_suspend { executorSize_ := bound } w.pool.size_ } ∧
      w1.executing = w.executing ∧ w1.log = w.log ++ inlineTags U.body ∧
      w1.frames.length = w.frames.length ∧
      (∀ j, j ≠ wi → j ≠ ui → w1.frames[j]? = w.frames[j]?) ∧
      (∃ fr, w1.frames[wi]? = some fr ∧ fr.destroyed = true ∧
        fr.promise = PromiseState.selfDeleting { executorSize_ := bound }) ∧
      (∃ fr, w1.frames[ui]? = some fr ∧ fr.destroyed = true) := by
  have hwl := lt_of_getElem?_eq_some hW
  have hul := lt_of_getElem?_eq_some hU
  obtain ⟨n1, rfl⟩ : ∃ n1, n = n1 + 1 := ⟨n - 1, by omega⟩
  -- the wrapper awaits the task
  have hstepA : w.step wi = Except.ok
      ((w.setFrame wi { wrapperFrame (some ui) bound with
          body := [Instr.co_return_void], awaiting := some ui }).setFrame ui
        (U.setContinuation (some wi)), Next.run ui) := by
    have hUfr : w.frame? (some ui) = some U := frame?_of_getElem w ui U hU hUd
    simp [World.step, World.frame?, hW, wrapperFrame, World.instr, World.await, hU, hUd, hUp,
      hUdone, World.setFrame, List.getElem?_set, hne, hwl]
  rw [exec_of_step_run n1 _ _ wi ui hstepA]
  -- the task runs to its end
  have hUA : (World.frames ((w.setFrame wi { wrapperFrame (some ui) bound with
          body := [Instr.co_return_void], awaiting := some ui }).setFrame ui
        (U.setContinuation (some wi))))[ui]? = some (U.setContinuation (some wi)) := by
    simp [World.setFrame, List.getElem?_set, hul]
  obtain ⟨wB, UB, m, hexB, hm, hfrB, hpoolB, hexeB, hlogB, hBd, hBdone, hBowns, pB, hBp, _⟩ :=
    exec_inline_void ui wi U.body _ (U.setContinuation (some wi))
      { pu with toPromiseBase := pu.toPromiseBase.continuation (some wi) } n1 hUA
      (by simp [Frame.setContinuation, hUp, hUd]) (by simp [Frame.setContinuation, hUp, hUdone])
      (by simp [Frame.setContinuation, hUp, hUaw]) (by simp [Frame.setContinuation, hUp])
      (by simp [PromiseBase.continuation]) (by simp [Frame.setContinuation, hUp]) hUi (by omega)
  rw [hexB]
  have hWB : wB.frames[wi]? = some { wrapperFrame (some ui) bound with
      body := [Instr.co_return_void], awaiting := some ui } := by
    rw [hfrB]
    simp [World.setFrame, List.getElem?_set, hne, Ne.symm hne, hwl]
  have hUB : wB.frames[ui]? = some UB := by
    rw [hfrB]
    simp [World.setFrame, List.getElem?_set, hul]
  have hlenB : wB.frames.length = w.frames.length := by
    rw [hfrB]
    simp [World.setFrame]
  have hoffB : ∀ j, j ≠ wi → j ≠ ui → wB.frames[j]? = w.frames[j]? := by
    intro j h1 h2
    rw [hfrB]
    simp [World.setFrame, List.getElem?_set, Ne.symm h1, Ne.symm h2]
  obtain ⟨m1, rfl⟩ : ∃ m1, m = m1 + 2 := ⟨m - 2, by omega⟩
  -- the wrapper resumes: await_resume, then its end
  have hUBfr : wB.frame? (some ui) = some UB := frame?_of_getElem wB ui UB hUB hBd
  cases hexc : pB.exception_ with
  | none =>
    have hstepC : wB.step wi = Except.ok
        (wB.setFrame wi { wrapperFrame (some ui) bound with body := [Instr.co_return_void] },
          Next.run wi) := by
      simp [World.step, World.frame?, hWB, wrapperFrame, World.await_resume, hUB, hBd, hBp,
        PromiseVoid.result, hexc]
    rw [exec_of_step_run (m1 + 1) _ _ wi wi hstepC]
    have hWC : (wB.setFrame wi { wrapperFrame (some ui) bound with
        body := [Instr.co_return_void] }).frames[wi]? = some { wrapperFrame (some ui) bound with
        body := [Instr.co_return_void] } := by
      simp [World.setFrame, List.getElem?_set, hlenB, hwl]
    have hUC : (wB.setFrame wi { wrapperFrame (some ui) bound with
        body := [Instr.co_return_void] }).frames[ui]? = some UB := by
      simp [World.setFrame, List.getElem?_set, hne, hUB]
    have hstepD : (wB.setFrame wi { wrapperFrame (some ui) bound with
        body := [Instr.co_return_void] }).step wi = Except.ok
        ((wB.setFrame wi { wrapperFrame (some ui) bound with
          body := [Instr.co_return_void] }).final wi
            { wrapperFrame (some ui) bound with body := [] }) :=
      step_co_return_void_selfDeleting _ wi
        { wrapperFrame (some ui) bound with body := [Instr.co_return_void] }
        { executorSize_ := bound } hWC rfl rfl rfl rfl rfl
    obtain ⟨hret, hpool, hexe, hlog, hlen, hoff, hwd, hud⟩ := final_wrapper_facts
      (wB.setFrame wi { wrapperFrame (some ui) bound with body := [Instr.co_return_void] })
      wi ui { wrapperFrame (some ui) bound with body := [] } UB { executorSize_ := bound } hne
      (by simp [World.setFrame, hlenB, hwl]) hUC rfl rfl
    refine ⟨_, ?_, ?_, ?_, ?_, ?_, ?_, hwd, hud⟩
    · rw [World.exec, hstepD]
      generalize (wB.setFrame wi { wrapperFrame (some ui) bound with
          body := [Instr.co_return_void] }).final wi
            { wrapperFrame (some ui) bound with body := [] } = r at hret ⊢
      obtain ⟨r1, r2⟩ := r
      simp only at hret
      subst hret
      rfl
    · rw [hpool]
      simp [World.setFrame, hpoolB]
    · rw [hexe]
      simp [World.setFrame, hexeB]
    · rw [hlog]
      simp [World.setFrame, hlogB]
    · rw [hlen]
      simp [World.setFrame, hlenB]
    · intro j h1 h2
      rw [hoff j h1 h2]
      simp [World.setFrame, List.getElem?_set, Ne.symm h1, hoffB j h1 h2]
  | some e =>
    have hstepC : wB.step wi = Except.ok
        (wB.final wi { wrapperFrame (some ui) bound with body := [Instr.co_return_void] }) := by
      simp [World.step, World.frame?, hWB, wrapperFrame, World.await_resume, hUB, hBd, hBp,
        PromiseVoid.result, hexc, World.raise, PromiseSelfDeleting.unhandled_exception]
    obtain ⟨hret, hpool, hexe, hlog, hlen, hoff, hwd, hud⟩ := final_wrapper_facts wB
      wi ui { wrapperFrame (some ui) bound with body := [Instr.co_return_void] } UB
      { executorSize_ := bound } hne (by rw [hlenB]; exact hwl) hUB rfl rfl
    refine ⟨_, ?_, ?_, ?_, ?_, ?_, ?_, hwd, hud⟩
    · rw [World.exec, hstepC]
      generalize wB.final wi
        { wrapperFrame (some ui) bound with body := [Instr.co_return_void] } = r at hret ⊢
      obtain ⟨r1, r2⟩ := r
      simp only at hret
      subst hret
      rfl
    · rw [hpool, hpoolB]
      simp [World.setFrame]
    · rw [hexe, hexeB]
      simp [World.setFrame]
    · rw [hlog, hlogB]
      simp [World.setFrame]
    · rw [hlen, hlenB]
    · intro j h1 h2
      rw [hoff j h1 h2, hoffB j h1 h2]

/-! ## C19: the self-deleting wrapper -/

/-- C19: resuming the wrapper coroutine of `make_task_self_deleting` over a not yet started
`Task<void>` whose body runs to its end, to `co_return;` or to a `throw` without suspending
returns normally to the resumer in either case; afterwards the counter is `fetch_sub(1)` of its
old value when the wrapper was bound by `executor_size` and unchanged when it was not, the ready
queue is unchanged, both frames are destroyed and the wrapper's promise holds no exception. -/
theorem C19_wrapper_decrements_once {α ε : Type} (w : World α ε) (wi ui : Nat) (bound : Bool)
    (U : Frame α ε) (pu : PromiseVoid ε) (n : Nat) (hne : wi ≠ ui)
    (hW : w.frames[wi]? = some (wrapperFrame (some ui) bound))
    (hU : w.frames[ui]? = some U) (hUd : U.destroyed = false) (hUdone : U.done = false)
    (hUaw : U.awaiting = none) (hUp : U.promise = PromiseState.void pu)
    (hUi : completesInline U.body = true) (hn : U.body.length + 4 ≤ n) :
    ∃ w1 : World α ε, World.resume n w (some wi) = Except.ok w1 ∧
      w1.pool.size = (if bound then fetch_sub w.pool.size 1 else w.pool.size) ∧
      w1.pool.queue_ = w.pool.queue_ ∧ w1.log = w.log ++ inlineTags U.body ∧
      (∃ fr, w1.frames[wi]? = some fr ∧ fr.destroyed = true ∧
        fr.promise = PromiseState.selfDeleting { executorSize_ := bound }) ∧
      (∃ fr, w1.frames[ui]? = some fr ∧ fr.destroyed = true) := by
  obtain ⟨w1, hex, hpool, -, hlog, -, -, hwd, hud⟩ :=
    exec_wrapper w wi ui bound U pu n hne hW hU hUd hUdone hUaw hUp hUi hn
  refine ⟨w1, hex, ?_, ?_, hlog, hwd, hud⟩
  · rw [hpool]
    rfl
  · rw [hpool]

/-- C19 (witness): the bound wrapper of `exampleSpawned`, whose task records 7 and throws. -/
theorem C19_wrapper_decrements_once_witness :
    ∃ w1 : World Nat Nat, World.resume 6 exampleSpawned (some 1) = Except.ok w1 ∧
      w1.pool.size = (if true then fetch_sub exampleSpawned.pool.size 1
        else exampleSpawned.pool.size) ∧
      w1.pool.queue_ = exampleSpawned.pool.queue_ ∧
      w1.log = exampleSpawned.log ++
        inlineTags ([Instr.record 7, Instr.throw 3] : List (Instr Nat Nat)) ∧
      (∃ fr, w1.frames[1]? = some fr ∧ fr.destroyed = true ∧
        fr.promise = PromiseState.selfDeleting { executorSize_ := true }) ∧
      (∃ fr, w1.frames[0]? = some fr ∧ fr.destroyed = true) :=
  C19_wrapper_decrements_once exampleSpawned 1 0 true
    { promise := PromiseState.void {}, body := [Instr.record 7, Instr.throw 3] } {} 6
    (by decide) rfl rfl rfl rfl rfl rfl rfl (by decide)

/-! ## A worker that runs spawned tasks -/

theorem inlineVoid_spec {α ε : Type} (w : World α ε) (i : Nat) (h : w.inlineVoid i = true) :
    ∃ (U : Frame α ε) (pu : PromiseVoid ε), w.frames[i]? = some U ∧ U.destroyed = false ∧
      U.done = false ∧ U.awaiting = none ∧ U.promise = PromiseState.void pu ∧
      completesInline U.body = true := by
  unfold World.inlineVoid at h
  cases hfr : w.frames[i]? with
  | none => simp [hfr] at h
  | some U =>
    rw [hfr] at h
    cases hp : U.promise with
    | value p => simp [hp] at h
    | selfDeleting p => simp [hp] at h
    | void pu =>
      simp [hp] at h
      obtain ⟨⟨⟨h1, h2⟩, h3⟩, h4⟩ := h
      exact ⟨U, pu, rfl, h1, h2, h3, hp, h4⟩

/-- One turn of a worker on the wrapper `wi` of the task `ui` at the head of the queue. -/
theorem executor_turn_wrapper {α ε : Type} (w : World α ε) (wi ui : Nat) (rest : List Handle)
    (n : Nat) (hne : wi ≠ ui) (hW : w.frames[wi]? = some (wrapperFrame (some ui) true))
    (hin : w.inlineVoid ui = true) (hn : w.bodyLength ui + 4 ≤ n) :
    ∃ w1 : World α ε, ThreadPool.executor_turn n w (some wi) rest = Except.ok w1 ∧
      w1.pool.size_ = fetch_sub (fetch_sub w.pool.size_ 1) 1 ∧
      w1.pool.queue_ = rest ∧
      w1.pool.shutdownRequested_ = w.pool.shutdownRequested_ ∧
      w1.pool.threads_ = w.pool.threads_ ∧
      w1.executing = w.executing ∧ w1.log = w.log ++ w.tagsAt ui ∧
      w1.frames.length = w.frames.length ∧
      (∀ j, j ≠ wi → j ≠ ui → w1.frames[j]? = w.frames[j]?) ∧
      (∃ fr, w1.frames[wi]? = some fr ∧ fr.destroyed = true) ∧
      (∃ fr, w1.frames[ui]? = some fr ∧ fr.destroyed = true) := by
  obtain ⟨U, pu, hU, hUd, hUdone, hUaw, hUp, hUi⟩ := inlineVoid_spec w ui hin
  have hlen : U.body.length + 4 ≤ n := by
    simpa [World.bodyLength, hU] using hn
  obtain ⟨w1, hex, hpool, hexe, hlog, hfl, hoff, hwd, hud⟩ :=
    exec_wrapper (ThreadPool.executor_pop w (some wi) rest) wi ui true U pu n hne hW hU hUd
      hUdone hUaw hUp hUi hlen
  obtain ⟨fw, hfw, hfwd, -⟩ := hwd
  refine ⟨ThreadPool.executor_account w1 (some wi), ?_, ?_, ?_, ?_, ?_, ?_, ?_, hfl, hoff,
    ⟨fw, hfw, hfwd⟩, hud⟩
  · simp [ThreadPool.executor_turn, World.resume, hex]
  · simp [ThreadPool.executor_account, hpool, ThreadPool.executor_pop,
      PromiseSelfDeleting.final_suspend]
  · simp [ThreadPool.executor_account, hpool, ThreadPool.executor_pop]
  · simp [ThreadPool.executor_account, hpool, ThreadPool.executor_pop]
  · simp [ThreadPool.executor_account, hpool, ThreadPool.executor_pop]
  · simp [ThreadPool.executor_account, hexe, ThreadPool.executor_pop]
  · simp [ThreadPool.executor_account, hlog, ThreadPool.executor_pop, World.tagsAt, hU]

theorem nodup_pairs_cons (a b : Nat) (ps : List (Nat × Nat))
    (h : (((a, b) :: ps).map Prod.fst ++ ((a, b) :: ps).map Prod.snd).Nodup) :
    a ≠ b ∧ (∀ p ∈ ps, p.1 ≠ a ∧ p.1 ≠ b ∧ p.2 ≠ a ∧ p.2 ≠ b) ∧
      (ps.map Prod.fst ++ ps.map Prod.snd).Nodup := by
  simp only [List.map_cons, List.cons_append, List.nodup_cons, List.mem_append, List.mem_cons,
    List.mem_map, List.nodup_append, not_or, Prod.exists, exists_and_right, exists_eq_right,
    List.Disjoint] at h
  obtain ⟨⟨ha1, hab, ha2⟩, hn1, hn2, hd⟩ := h
  obtain ⟨hb, hn3⟩ := hn2
  refine ⟨hab, ?_, List.nodup_append.2 ⟨hn1, hn3, ?_⟩⟩
  · intro p hp
    refine ⟨?_, ?_, ?_, ?_⟩
    · intro e
      exact ha1 ⟨p.2, by rw [← e]; exact hp⟩
    · intro e
      exact hd ⟨p.2, hp⟩ (Or.inl e)
    · intro e
      exact ha2 ⟨p.1, by rw [← e]; exact hp⟩
    · intro e
      exact hb ⟨p.1, by rw [← e]; exact hp⟩
  · intro x hx hx2
    obtain ⟨p, hp, rfl⟩ := List.mem_map.1 hx
    obtain ⟨q, hq, hqe⟩ := List.mem_map.1 hx2
    exact hd ⟨p.2, hp⟩ (Or.inr ⟨q.1, by rw [← hqe]; exact hq⟩)

theorem inlineVoid_congr {α ε : Type} {w w1 : World α ε} {i : Nat}
    (h : w1.frames[i]? = w.frames[i]?) : w1.inlineVoid i = w.inlineVoid i := by
  simp only [World.inlineVoid, h]

theorem tagsAt_congr {α ε : Type} {w w1 : World α ε} {i : Nat}
    (h : w1.frames[i]? = w.frames[i]?) : w1.tagsAt i = w.tagsAt i := by
  simp only [World.tagsAt, h]

theorem bodyLength_congr {α ε : Type} {w w1 : World α ε} {i : Nat}
    (h : w1.frames[i]? = w.frames[i]?) : w1.bodyLength i = w.bodyLength i := by
  simp only [World.bodyLength, h]

theorem tagsOfTasks_congr {α ε : Type} {w w1 : World α ε} (ts : List Nat)
    (h : ∀ t ∈ ts, w1.frames[t]? = w.frames[t]?) : w1.tagsOfTasks ts = w.tagsOfTasks ts := by
  induction ts with
  | nil => rfl
  | cons t ts ih =>
    simp only [World.tagsOfTasks]
    rw [tagsAt_congr (h t (List.mem_cons_self t ts)),
      ih (fun u hu => h u (List.mem_cons_of_mem t hu))]

/-- The second loop of a worker on a queue of spawned wrappers: every wrapper is run in the
order of the queue, and the loop ends with the counter at zero and the queue empty. -/
theorem drain_wrappers {α ε : Type} (m : Nat) (ps : List (Nat × Nat)) :
    ∀ (w : World α ε) (fuel : Nat), w.queued ps → w.pool.size_ = 2 * ps.length →
      2 * ps.length < 2 ^ 64 → (∀ p ∈ ps, w.bodyLength p.2 + 4 ≤ m) →
      ps.length + 1 + m ≤ fuel →
      ∃ w1 : World α ε, ThreadPool.executor_drain fuel w = Except.ok w1 ∧
        w1.pool.size_ = 0 ∧ w1.pool.queue_ = [] ∧
        w1.pool.shutdownRequested_ = w.pool.shutdownRequested_ ∧
        w1.pool.threads_ = w.pool.threads_ ∧
        w1.executing = w.executing ∧
        w1.log = w.log ++ w.tagsOfTasks (ps.map Prod.snd) ∧
        w1.frames.length = w.frames.length ∧
        (∀ p ∈ ps, (∃ fr, w1.frames[p.1]? = some fr ∧ fr.destroyed = true) ∧
          (∃ fr, w1.frames[p.2]? = some fr ∧ fr.destroyed = true)) ∧
        (∀ j, j ∉ ps.map Prod.fst → j ∉ ps.map Prod.snd → w1.frames[j]? = w.frames[j]?) := by
  induction ps with
  | nil =>
    intro w fuel hq hs _ _ hf
    obtain ⟨n, rfl⟩ : ∃ n, fuel = n + 1 := ⟨fuel - 1, by simp at hf; omega⟩
    refine ⟨w, ?_, by simpa using hs, by simpa using hq.1, rfl, rfl, rfl, ?_, rfl, ?_, ?_⟩
    · simp [ThreadPool.executor_drain, hs]
    · simp [World.tagsOfTasks]
    · intro p hp
      cases hp
    · intro j _ _
      rfl
  | cons p ps ih =>
    obtain ⟨wi, ui⟩ := p
    intro w fuel hq hs hlt hb hf
    obtain ⟨hqueue, hnd, hgood⟩ := hq
    obtain ⟨hne, hoth, hnd1⟩ := nodup_pairs_cons wi ui ps hnd
    obtain ⟨hW, hin⟩ := hgood (wi, ui) (List.mem_cons_self _ _)
    simp only [List.length_cons] at hs hlt hf
    obtain ⟨n, rfl⟩ : ∃ n, fuel = n + 1 := ⟨fuel - 1, by omega⟩
    have hbu : w.bodyLength ui + 4 ≤ n := by
      have := hb (wi, ui) (List.mem_cons_self _ _)
      simp only at this
      omega
    obtain ⟨w1, hturn, hsize1, hq1, hsh1, hth1, hexe1, hlog1, hlen1, hoff1, hwd1, hud1⟩ :=
      executor_turn_wrapper w wi ui (ps.map (fun p => some p.1)) n hne hW hin hbu
    have hframes : ∀ q ∈ ps, w1.frames[q.1]? = w.frames[q.1]? ∧
        w1.frames[q.2]? = w.frames[q.2]? := by
      intro q hqm
      obtain ⟨h1, h2, h3, h4⟩ := hoth q hqm
      exact ⟨hoff1 _ h1 h2, hoff1 _ h3 h4⟩
    have hqd1 : w1.queued ps := by
      refine ⟨hq1, hnd1, ?_⟩
      intro q hqm
      obtain ⟨hg1, hg2⟩ := hgood q (List.mem_cons_of_mem _ hqm)
      obtain ⟨hf1, hf2⟩ := hframes q hqm
      exact ⟨hf1.trans hg1, (inlineVoid_congr hf2).trans hg2⟩
    have hs1 : w1.pool.size_ = 2 * ps.length := by
      rw [hsize1, hs]
      unfold fetch_sub
      omega
    have hb1 : ∀ q ∈ ps, w1.bodyLength q.2 + 4 ≤ m := by
      intro q hqm
      rw [bodyLength_congr (hframes q hqm).2]
      exact hb q (List.mem_cons_of_mem _ hqm)
    obtain ⟨w2, hdr, hsize2, hq2, hsh2, hth2, hexe2, hlog2, hlen2, hdes2, hoff2⟩ :=
      ih w1 n hqd1 hs1 (by omega) hb1 (by omega)
    refine ⟨w2, ?_, hsize2, hq2, hsh2.trans hsh1, hth2.trans hth1, hexe2.trans hexe1, ?_,
      hlen2.trans hlen1, ?_, ?_⟩
    · have hs0 : ¬ w.pool.size_ = 0 := by omega
      have hqc : w.pool.queue_ = some wi :: ps.map (fun p => some p.1) := by
        simpa using hqueue
      simp only [ThreadPool.executor_drain, if_neg hs0, hqc, hturn]
      exact hdr
    · rw [hlog2, hlog1, List.append_assoc]
      simp only [List.map_cons, World.tagsOfTasks]
      rw [tagsOfTasks_congr (ps.map Prod.snd) (fun t ht => by
        obtain ⟨q, hqm, rfl⟩ := List.mem_map.1 ht
        exact (hframes q hqm).2)]
    · intro q hqm
      rcases List.mem_cons.1 hqm with rfl | hqm
      · have hwi : wi ∉ ps.map Prod.fst := by
          intro h
          obtain ⟨q, hq, e⟩ := List.mem_map.1 h
          exact (hoth q hq).1 e
        have hwi2 : wi ∉ ps.map Prod.snd := by
          intro h
          obtain ⟨q, hq, e⟩ := List.mem_map.1 h
          exact (hoth q hq).2.2.1 e
        have hui : ui ∉ ps.map Prod.fst := by
          intro h
          obtain ⟨q, hq, e⟩ := List.mem_map.1 h
          exact (hoth q hq).2.1 e
        have hui2 : ui ∉ ps.map Prod.snd := by
          intro h
          obtain ⟨q, hq, e⟩ := List.mem_map.1 h
          exact (hoth q hq).2.2.2 e
        refine ⟨?_, ?_⟩
        · rw [hoff2 wi hwi hwi2]
          exact hwd1
        · rw [hoff2 ui hui hui2]
          exact hud1
      · exact hdes2 q hqm
    · intro j hj1 hj2
      simp only [List.map_cons, List.mem_cons, not_or] at hj1 hj2
      rw [hoff2 j hj1.2 hj2.2]
      exact hoff1 j hj1.1 (fun e => hj2.1 e)

theorem nodup_pairs_snoc (a b : Nat) (ps : List (Nat × Nat))
    (h : (ps.map Prod.fst ++ ps.map Prod.snd).Nodup) (hab : a ≠ b)
    (ha1 : a ∉ ps.map Prod.fst) (ha2 : a ∉ ps.map Prod.snd)
    (hb1 : b ∉ ps.map Prod.fst) (hb2 : b ∉ ps.map Prod.snd) :
    ((ps ++ [(a, b)]).map Prod.fst ++ (ps ++ [(a, b)]).map Prod.snd).Nodup := by
  have hperm : List.Perm ((ps ++ [(a, b)]).map Prod.fst ++ (ps ++ [(a, b)]).map Prod.snd)
      (a :: b :: (ps.map Prod.fst ++ ps.map Prod.snd)) := by
    rw [List.perm_iff_count]
    intro x
    simp only [List.map_append, List.map_cons, List.map_nil, List.count_append,
      List.count_cons, List.count_nil]
    omega
  rw [hperm.nodup_iff]
  refine List.nodup_cons.2 ⟨?_, List.nodup_cons.2 ⟨?_, h⟩⟩
  · simp only [List.mem_cons, List.mem_append, not_or]
    exact ⟨hab, ha1, ha2⟩
  · simp only [List.mem_append, not_or]
    exact ⟨hb1, hb2⟩

theorem inlineVoid_lt {α ε : Type} (w : World α ε) (i : Nat) (h : w.inlineVoid i = true) :
    i < w.frames.length := by
  obtain ⟨U, pu, hU, -⟩ := inlineVoid_spec w i h
  exact lt_of_getElem?_eq_some hU

theorem queued_lt {α ε : Type} (w : World α ε) (ps : List (Nat × Nat)) (h : w.queued ps) :
    (∀ j ∈ ps.map Prod.fst, j < w.frames.length) ∧
      (∀ j ∈ ps.map Prod.snd, j < w.frames.length) := by
  constructor
  · intro j hj
    obtain ⟨p, hp, rfl⟩ := List.mem_map.1 hj
    exact lt_of_getElem?_eq_some (h.2.2 p hp).1
  · intro j hj
    obtain ⟨p, hp, rfl⟩ := List.mem_map.1 hj
    exact inlineVoid_lt w _ (h.2.2 p hp).2

/-- Spawning tasks one after the other appends their wrappers to the ready queue in this order
and adds two to the counter for each. -/
theorem spawn_all_queued {α ε : Type} (tasks : List Nat) :
    ∀ (w : World α ε) (ps : List (Nat × Nat)), w.queued ps →
      w.pool.shutdownRequested_ = false → w.pool.size_ = 2 * ps.length →
      2 * (ps.length + tasks.length) < 2 ^ 64 → tasks.Nodup →
      (∀ t ∈ tasks, w.inlineVoid t = true ∧ t ∉ ps.map Prod.fst ∧ t ∉ ps.map Prod.snd) →
      ∃ (w1 : World α ε) (ps1 : List (Nat × Nat)),
        ThreadPool.spawn_all w (tasks.map some) =
          Except.ok (w1, List.replicate tasks.length true) ∧
        w1.queued ps1 ∧ ps1.map Prod.snd = ps.map Prod.snd ++ tasks ∧
        ps1.length = ps.length + tasks.length ∧
        w1.pool.size_ = 2 * ps1.length ∧
        w1.pool.shutdownRequested_ = false ∧ w1.pool.threads_ = w.pool.threads_ ∧
        w1.executing = w.executing ∧ w1.log = w.log ∧
        (∀ j, j < w.frames.length → w1.frames[j]? = w.frames[j]?) := by
  induction tasks with
  | nil =>
    intro w ps hq hflag hs _ _ _
    exact ⟨w, ps, rfl, hq, by simp, by simp, hs, hflag, rfl, rfl, rfl, fun _ _ => rfl⟩
  | cons t ts ih =>
    intro w ps hq hflag hs hlt hnd hin
    obtain ⟨hfst, hsnd⟩ := queued_lt w ps hq
    obtain ⟨hqueue, hndp, hgood⟩ := hq
    obtain ⟨htin, ht1, ht2⟩ := hin t (List.mem_cons_self _ _)
    have htl := inlineVoid_lt w t htin
    obtain ⟨htts, hndts⟩ := List.nodup_cons.1 hnd
    simp only [List.length_cons] at hlt
    obtain ⟨w0, hw0⟩ : ∃ w0 : World α ε, w0 =
        { w with frames := w.frames ++ [wrapperFrame (some t) true],
                 pool := { w.pool with
                   size_ := fetch_add (fetch_add w.pool.size_ 1) 1,
                   queue_ := w.pool.queue_ ++ [some w.frames.length] } } := ⟨_, rfl⟩
    have hspawn : ThreadPool.spawn w (some t) = Except.ok (w0, true) := by
      rw [hw0]
      exact spawn_accepted w (some t) hflag
    have hold : ∀ j, j < w.frames.length → w0.frames[j]? = w.frames[j]? := by
      intro j hj
      rw [hw0]
      exact List.getElem?_append_left hj
    have hnew : w0.frames[w.frames.length]? = some (wrapperFrame (some t) true) := by
      rw [hw0]
      simp
    have hq0 : w0.queued (ps ++ [(w.frames.length, t)]) := by
      refine ⟨?_, ?_, ?_⟩
      · rw [hw0]
        simp [hqueue]
      · refine nodup_pairs_snoc _ _ ps hndp (Nat.ne_of_gt htl) ?_ ?_ ht1 ht2
        · intro h
          exact Nat.lt_irrefl _ (hfst _ h)
        · intro h
          exact Nat.lt_irrefl _ (hsnd _ h)
      · intro p hp
        rcases List.mem_append.1 hp with hp | hp
        · obtain ⟨h1, h2⟩ := hgood p hp
          have hl1 := hfst p.1 (List.mem_map.2 ⟨p, hp, rfl⟩)
          have hl2 := hsnd p.2 (List.mem_map.2 ⟨p, hp, rfl⟩)
          exact ⟨(hold _ hl1).trans h1, (inlineVoid_congr (hold _ hl2)).trans h2⟩
        · rw [List.mem_singleton] at hp
          subst hp
          exact ⟨hnew, (inlineVoid_congr (hold _ htl)).trans htin⟩
    have hflag0 : w0.pool.shutdownRequested_ = false := by
      rw [hw0]
      exact hflag
    have hs0 : w0.pool.size_ = 2 * (ps ++ [(w.frames.length, t)]).length := by
      rw [hw0]
      simp only [List.length_append, List.length_singleton, hs]
      unfold fetch_add
      omega
    have hin0 : ∀ u ∈ ts, w0.inlineVoid u = true ∧
        u ∉ (ps ++ [(w.frames.length, t)]).map Prod.fst ∧
        u ∉ (ps ++ [(w.frames.length, t)]).map Prod.snd := by
      intro u hu
      obtain ⟨hu0, hu1, hu2⟩ := hin u (List.mem_cons_of_mem _ hu)
      have hul := inlineVoid_lt w u hu0
      refine ⟨(inlineVoid_congr (hold _ hul)).trans hu0, ?_, ?_⟩
      · simp only [List.map_append, List.map_cons, List.map_nil, List.mem_append,
          List.mem_singleton, not_or]
        exact ⟨hu1, Nat.ne_of_lt hul⟩
      · simp only [List.map_append, List.map_cons, List.map_nil, List.mem_append,
          List.mem_singleton, not_or]
        refine ⟨hu2, ?_⟩
        intro e
        exact htts (e ▸ hu)
    obtain ⟨w1, ps1, hall, hq1, hsnd1, hlen1, hs1, hflag1, hth1, hexe1, hlog1, hold1⟩ :=
      ih w0 (ps ++ [(w.frames.length, t)]) hq0 hflag0 hs0
        (by simp only [List.length_append, List.length_singleton]; omega) hndts hin0
    have hlen0 : w0.frames.length = w.frames.length + 1 := by
      rw [hw0]
      simp
    refine ⟨w1, ps1, ?_, hq1, ?_, ?_, hs1, hflag1, ?_, ?_, ?_, ?_⟩
    · simp only [List.map_cons, ThreadPool.spawn_all, hspawn, hall, List.length_cons,
        List.replicate_succ]
    · rw [hsnd1]
      simp
    · rw [hlen1]
      simp only [List.length_append, List.length_singleton, List.length_cons, List.length_nil]
      omega
    · rw [hth1, hw0]
    · rw [hexe1, hw0]
    · rw [hlog1, hw0]
    · intro j hj
      rw [hold1 j (by omega), hold j hj]

/-- On a pool with one worker thread whose queue holds spawned wrappers, `shutdown()` returns
after the worker has drained the queue. -/
theorem shutdown_one_worker {α ε : Type} (w : World α ε) (ps : List (Nat × Nat))
    (idx fuel m : Nat) (hq : w.queued ps) (hflag : w.pool.shutdownRequested_ = false)
    (hth : w.pool.threads_ = [idx]) (hs : w.pool.size_ = 2 * ps.length)
    (hlt : 2 * ps.length < 2 ^ 64) (hb : ∀ p ∈ ps, w.bodyLength p.2 + 4 ≤ m)
    (hf : ps.length + 1 + m ≤ fuel) :
    ∃ w1 : World α ε, ThreadPool.shutdown fuel w = Except.ok w1 ∧
      w1.pool.size_ = 0 ∧ w1.pool.queue_ = [] ∧ w1.pool.shutdownRequested_ = true ∧
      w1.executing = w.executing ∧
      w1.log = w.log ++ w.tagsOfTasks (ps.map Prod.snd) ∧
      w1.frames.length = w.frames.length ∧
      (∀ p ∈ ps, (∃ fr, w1.frames[p.1]? = some fr ∧ fr.destroyed = true) ∧
        (∃ fr, w1.frames[p.2]? = some fr ∧ fr.destroyed = true)) ∧
      (∀ j, j ∉ ps.map Prod.fst → j ∉ ps.map Prod.snd → w1.frames[j]? = w.frames[j]?) := by
  obtain ⟨w0, hw0⟩ : ∃ w0 : World α ε, w0 =
      { w with pool := { w.pool with shutdownRequested_ := true } } := ⟨_, rfl⟩
  have hq0 : w0.queued ps := by
    rw [hw0]
    exact hq
  obtain ⟨w1, hdr, hsize, hqueue, hsh, -, hexe, hlog, hlen, hdes, hoff⟩ :=
    drain_wrappers m ps w0 fuel hq0 (by rw [hw0]; exact hs) hlt
      (by rw [hw0]; exact hb) hf
  obtain ⟨n, hn⟩ : ∃ n, fuel = n + 1 := ⟨fuel - 1, by omega⟩
  have hserve : ThreadPool.executor_serve fuel w0 = Except.ok w0 := by
    rw [hn, hw0]
    simp [ThreadPool.executor_serve]
  have hfr0 : w0.frames = w.frames := by rw [hw0]
  have hth0 : w0.pool.threads_ = [idx] := by
    rw [hw0]
    exact hth
  have hsd : ThreadPool.shutdown fuel w = ThreadPool.join fuel w0.pool.threads_ w0 := by
    rw [hw0]
    simp only [ThreadPool.shutdown, hflag, beq_self_eq_true, if_true]
  refine ⟨w1, ?_, hsize, hqueue, ?_, ?_, ?_, ?_, ?_, ?_⟩
  · rw [hsd, hth0]
    simp only [ThreadPool.join, ThreadPool.executor, hserve, hdr]
  · rw [hsh, hw0]
  · rw [hexe, hw0]
  · have hlog0 : w0.log = w.log := by rw [hw0]
    have htags : w0.tagsOfTasks (ps.map Prod.snd) = w.tagsOfTasks (ps.map Prod.snd) :=
      tagsOfTasks_congr (ps.map Prod.snd) (fun t _ => by rw [hfr0])
    rw [hlog, htags, hlog0]
  · rw [hlen, hw0]
  · exact hdes
  · intro j h1 h2
    rw [hoff j h1 h2, hw0]

/-- Tasks spawned one after the other on an idle pool with one worker thread, then `shutdown()`:
the worker runs every task, in the order of the calls. -/
theorem spawn_all_shutdown {α ε : Type} (w : World α ε) (tasks : List Nat) (idx fuel m : Nat)
    (hq : w.pool.queue_ = []) (hs : w.pool.size_ = 0)
    (hflag : w.pool.shutdownRequested_ = false) (hth : w.pool.threads_ = [idx])
    (hnd : tasks.Nodup) (hin : ∀ t ∈ tasks, w.inlineVoid t = true)
    (hlt : 2 * tasks.length < 2 ^ 64) (hm : ∀ t ∈ tasks, w.bodyLength t + 4 ≤ m)
    (hf : tasks.length + 1 + m ≤ fuel) :
    ∃ w1 w2 : World α ε,
      ThreadPool.spawn_all w (tasks.map some) =
        Except.ok (w1, List.replicate tasks.length true) ∧
      w1.pool.size_ = 2 * tasks.length ∧ w1.pool.queue_.length = tasks.length ∧
      ThreadPool.shutdown fuel w1 = Except.ok w2 ∧
      w2.pool.size_ = 0 ∧ w2.pool.queue_ = [] ∧
      w2.log = w.log ++ w.tagsOfTasks tasks ∧
      (∀ t ∈ tasks, ∃ fr, w2.frames[t]? = some fr ∧ fr.destroyed = true) ∧
      w2.executing = w.executing := by
  have hq0 : w.queued [] := ⟨by simpa using hq, by simp, by simp⟩
  obtain ⟨w1, ps1, hall, hq1, hsnd1, hlen1, hs1, hflag1, hth1, hexe1, hlog1, hold1⟩ :=
    spawn_all_queued tasks w [] hq0 hflag (by simpa using hs) (by simpa using hlt) hnd
      (fun t ht => ⟨hin t ht, by simp, by simp⟩)
  simp only [List.map_nil, List.nil_append, List.length_nil, Nat.zero_add] at hsnd1 hlen1
  have hmem : ∀ p ∈ ps1, p.2 ∈ tasks := by
    intro p hp
    rw [← hsnd1]
    exact List.mem_map.2 ⟨p, hp, rfl⟩
  have hfr : ∀ t ∈ tasks, w1.frames[t]? = w.frames[t]? :=
    fun t ht => hold1 t (inlineVoid_lt w t (hin t ht))
  obtain ⟨w2, hsd, hsize2, hq2, -, hexe2, hlog2, -, hdes2, -⟩ :=
    shutdown_one_worker w1 ps1 idx fuel m hq1 hflag1 (hth1.trans hth) hs1
      (by rw [hlen1]; exact hlt)
      (fun p hp => by
        rw [bodyLength_congr (hfr _ (hmem p hp))]
        exact hm _ (hmem p hp))
      (by rw [hlen1]; exact hf)
  refine ⟨w1, w2, hall, by rw [hs1, hlen1], ?_, hsd, hsize2, hq2, ?_, ?_, hexe2.trans hexe1⟩
  · rw [hq1.1, List.length_map, hlen1]
  · rw [hlog2, hlog1, hsnd1, tagsOfTasks_congr tasks hfr]
  · intro t ht
    rw [← hsnd1] at ht
    obtain ⟨p, hp, rfl⟩ := List.mem_map.1 ht
    exact (hdes2 p hp).2

/-! ## C7: shutdown and the outstanding counter -/

theorem schedule_impl_queue {α ε : Type} (v : World α ε) (h : Handle) (v1 : World α ε)
    (hv : ThreadPool.schedule_impl v h = Except.ok v1) :
    v1.pool.queue_ = v.pool.queue_ ∨ v1.pool.queue_ = v.pool.queue_ ++ [h] := by
  cases h with
  | none =>
    simp only [ThreadPool.schedule_impl, Except.ok.injEq] at hv
    exact Or.inl (by rw [← hv])
  | some i =>
    simp only [ThreadPool.schedule_impl] at hv
    cases hd : v.done (some i) with
    | none => simp [hd] at hv
    | some d =>
      cases d with
      | true =>
        simp only [hd, Except.ok.injEq] at hv
        exact Or.inl (by rw [← hv])
      | false =>
        simp only [hd, Except.ok.injEq] at hv
        exact Or.inr (by rw [← hv])

theorem resume_true_queue {α ε : Type} (v : World α ε) (h : Handle) (v1 : World α ε)
    (hv : ThreadPool.resume v h = Except.ok (v1, true)) :
    v1.pool.queue_ = v.pool.queue_ ++ [h] := by
  cases h with
  | none => simp [ThreadPool.resume] at hv
  | some i =>
    cases hd : v.done (some i) with
    | none => simp [ThreadPool.resume, hd] at hv
    | some d =>
      cases d with
      | true => simp [ThreadPool.resume, hd] at hv
      | false =>
        cases hreq : v.pool.shutdownRequested_ with
        | true =>
          rw [resume_rejected v i hd hreq] at hv
          simp at hv
        | false =>
          rw [resume_accepted v i hd hreq] at hv
          simp only [Except.ok.injEq, Prod.mk.injEq, and_true] at hv
          rw [← hv]

theorem spawn_true_queue {α ε : Type} (v : World α ε) (task : Handle) (v1 : World α ε)
    (hv : ThreadPool.spawn v task = Except.ok (v1, true)) :
    v1.pool.queue_ = v.pool.queue_ ++ [some v.frames.length] := by
  cases hreq : v.pool.shutdownRequested_ with
  | true =>
    rw [spawn_rejected v task hreq] at hv
    simp at hv
  | false =>
    rw [spawn_accepted v task hreq] at hv
    simp only [Except.ok.injEq, Prod.mk.injEq, and_true] at hv
    rw [← hv]

/-- C6: both loops of a worker take the handle at the head of the ready queue and leave the
rest; `schedule_impl`, an accepted `resume(handle)` and an accepted `spawn` append their handle
at the tail; `resume(batch)` appends the non-null handles of the batch at the tail, as one block
in their order; and when three distinct not yet started `Task<void>` that complete without
suspending are spawned in the order a, b, c on an idle pool with one worker thread, the worker
run by `shutdown()` runs them in the order a, b, c. -/
theorem C6_queue_is_fifo {α ε : Type} (w : World α ε) (a b c idx fuel m : Nat)
    (hq : w.pool.queue_ = []) (hs : w.pool.size = 0)
    (hflag : w.pool.shutdownRequested_ = false) (hth : w.pool.threads_ = [idx])
    (hnd : [a, b, c].Nodup) (hin : ∀ t ∈ [a, b, c], w.inlineVoid t = true)
    (hm : ∀ t ∈ [a, b, c], w.bodyLength t + 4 ≤ m) (hf : 4 + m ≤ fuel) :
    (∀ (v : World α ε) (handle : Handle) (rest : List Handle) (n : Nat),
      v.pool.queue_ = handle :: rest →
        (v.pool.shutdownRequested_ = false →
          ThreadPool.executor_serve (n + 1) v =
            match ThreadPool.executor_turn n v handle rest with
            | Except.error e => Except.error e
            | Except.ok v1 => ThreadPool.executor_serve n v1) ∧
        (v.pool.size_ ≠ 0 →
          ThreadPool.executor_drain (n + 1) v =
            match ThreadPool.executor_turn n v handle rest with
            | Except.error e => Except.error e
            | Except.ok v1 => ThreadPool.executor_drain n v1) ∧
        (ThreadPool.executor_pop v handle rest).pool.queue_ = rest ∧
        (ThreadPool.executor_pop v handle rest).executing = handle :: v.executing) ∧
    (∀ (v : World α ε) (h : Handle) (v1 : World α ε),
      ThreadPool.schedule_impl v h = Except.ok v1 →
        v1.pool.queue_ = v.pool.queue_ ∨ v1.pool.queue_ = v.pool.queue_ ++ [h]) ∧
    (∀ (v : World α ε) (h : Handle) (v1 : World α ε),
      ThreadPool.resume v h = Except.ok (v1, true) →
        v1.pool.queue_ = v.pool.queue_ ++ [h]) ∧
    (∀ (v : World α ε) (task : Handle) (v1 : World α ε),
      ThreadPool.spawn v task = Except.ok (v1, true) →
        v1.pool.queue_ = v.pool.queue_ ++ [some v.frames.length]) ∧
    (∀ (p : ThreadPool) (handles : List Handle),
      (p.resume_handles handles).1.queue_ =
        p.queue_ ++ handles.filter (fun h => h != none)) ∧
    ∃ w1 w2 : World α ε,
      ThreadPool.spawn_all w [some a, some b, some c] = Except.ok (w1, [true, true, true]) ∧
      ThreadPool.shutdown fuel w1 = Except.ok w2 ∧
      w2.log = w.log ++ (w.tagsAt a ++ (w.tagsAt b ++ w.tagsAt c)) := by
  refine ⟨?_, schedule_impl_queue, resume_true_queue, spawn_true_queue, ?_, ?_⟩
  · intro v handle rest n hv
    refine ⟨?_, ?_, rfl, rfl⟩
    · intro hr
      simp only [ThreadPool.executor_serve, hr, hv]
      rfl
    · intro hz
      simp only [ThreadPool.executor_drain, if_neg hz, hv]
  · intro p handles
    simp only [ThreadPool.resume_handles, resume_loop_eq]
    split <;> rfl
  · obtain ⟨w1, w2, h1, -, -, h4, -, -, h7, -, -⟩ :=
      spawn_all_shutdown w [a, b, c] idx fuel m hq hs hflag hth hnd hin (by norm_num) hm
        (by simpa [Nat.add_comm] using hf)
    refine ⟨w1, w2, h1, h4, ?_⟩
    rw [h7]
    simp [World.tagsOfTasks]

/-- C6 (witness): the three tasks of `exampleOneWorker`, spawned in the order 0, 1, 2, record
1, 2, 3 in this order. -/
theorem C6_queue_is_fifo_witness :
    (∃ w1 w2 : World Nat Nat,
      ThreadPool.spawn_all exampleOneWorker [some 0, some 1, some 2] =
        Except.ok (w1, [true, true, true]) ∧
      ThreadPool.shutdown 20 w1 = Except.ok w2 ∧
      w2.log = exampleOneWorker.log ++
        (exampleOneWorker.tagsAt 0 ++ (exampleOneWorker.tagsAt 1 ++ exampleOneWorker.tagsAt 2))) ∧
    exampleOneWorker.log ++
        (exampleOneWorker.tagsAt 0 ++ (exampleOneWorker.tagsAt 1 ++ exampleOneWorker.tagsAt 2))
      = [1, 2, 3] :=
  ⟨(C6_queue_is_fifo exampleOneWorker 0 1 2 0 20 6 rfl rfl rfl rfl (by decide) (by decide)
      (by decide) (by decide)).2.2.2.2.2, by decide⟩

/-! ## Nested awaiting (C16) -/

/-- Inert statements, then `co_await` of a task that is not finished: the awaiter suspends,
stores itself as the continuation of the task and transfers control to it. -/
theorem exec_inert_await {α ε : Type} (f g : Nat) (pre rest : List (Instr α ε))
    (w : World α ε) (fr fg : Frame α ε) (pg : Promise α ε) (n : Nat) (hne : f ≠ g)
    (hf : w.frames[f]? = some fr) (hd : fr.destroyed = false) (hdone : fr.done = false)
    (haw : fr.awaiting = none) (hbody : fr.body = pre ++ Instr.await (some g) :: rest)
    (hin : ∀ i ∈ pre, i.inert = true)
    (hg : w.frames[g]? = some fg) (hgd : fg.destroyed = false) (hgdone : fg.done = false)
    (hgp : fg.promise = PromiseState.value pg) :
    ∃ w1 : World α ε, World.exec (pre.length + (n + 1)) w f = World.exec n w1 g ∧
      w1.frames[f]? = some { fr with body := rest, awaiting := some g } ∧
      w1.frames[g]? = some (fg.setContinuation (some f)) ∧
      (∀ j, j ≠ f → j ≠ g → w1.frames[j]? = w.frames[j]?) ∧
      w1.log = w.log ++ tagsOf pre ∧ w1.pool = w.pool ∧ w1.executing = w.executing := by
  have hfl := lt_of_getElem?_eq_some hf
  have hgl := lt_of_getElem?_eq_some hg
  rw [exec_inert f (Instr.await (some g) :: rest) pre w fr (n + 1) hf hd hdone haw hbody hin]
  obtain ⟨w0, hw0⟩ : ∃ w0 : World α ε, w0 =
      { w.setFrame f { fr with body := Instr.await (some g) :: rest } with
        log := w.log ++ tagsOf pre } := ⟨_, rfl⟩
  rw [← hw0]
  have h0f : w0.frames[f]? = some { fr with body := Instr.await (some g) :: rest } := by
    rw [hw0]
    simp [World.setFrame, List.getElem?_set, hfl]
  have h0g : w0.frames[g]? = some fg := by
    rw [hw0]
    simp [World.setFrame, List.getElem?_set, hne, hg]
  have hstep : w0.step f = Except.ok
      ((w0.setFrame f { fr with body := rest, awaiting := some g }).setFrame g
        (fg.setContinuation (some f)), Next.run g) := by
    simp [World.step, World.frame?, h0f, hd, hdone, haw, World.instr, World.await, h0g, hgd,
      hgdone, hgp, getElem?_setFrame, hne]
  rw [exec_of_step_run n _ _ f g hstep]
  refine ⟨_, rfl, ?_, ?_, ?_, ?_, ?_, ?_⟩
  · rw [hw0]
    simp [World.setFrame, List.getElem?_set, hne, Ne.symm hne, hfl]
  · rw [hw0]
    simp [World.setFrame, List.getElem?_set, hgl]
  · intro j h1 h2
    rw [hw0]
    simp [World.setFrame, List.getElem?_set, Ne.symm h1, Ne.symm h2]
  · rw [hw0]
    rfl
  · rw [hw0]
    rfl
  · rw [hw0]
    rfl

/-- Inert statements, then `co_return value` in a task that was awaited by frame `k`: the task
reaches its final suspend point with the value stored and control goes to `k`. -/
theorem exec_inert_co_return_to {α ε : Type} (f k : Nat) (pre rest : List (Instr α ε))
    (value : α) (w : World α ε) (fr : Frame α ε) (p : Promise α ε) (n : Nat)
    (hf : w.frames[f]? = some fr) (hd : fr.destroyed = false) (hdone : fr.done = false)
    (haw : fr.awaiting = none) (hbody : fr.body = pre ++ Instr.co_return value :: rest)
    (hin : ∀ i ∈ pre, i.inert = true) (hp : fr.promise = PromiseState.value p)
    (hk : p.continuation_ = some k) :
    ∃ w1 : World α ε, World.exec (pre.length + (n + 1)) w f = World.exec n w1 k ∧
      w1.frames[f]? = some (fr.returned rest value) ∧
      (∀ j, j ≠ f → w1.frames[j]? = w.frames[j]?) ∧
      w1.log = w.log ++ tagsOf pre ∧ w1.pool = w.pool ∧ w1.executing = w.executing := by
  have hfl := lt_of_getElem?_eq_some hf
  rw [exec_inert f (Instr.co_return value :: rest) pre w fr (n + 1) hf hd hdone haw hbody hin]
  obtain ⟨w0, hw0⟩ : ∃ w0 : World α ε, w0 =
      { w.setFrame f { fr with body := Instr.co_return value :: rest } with
        log := w.log ++ tagsOf pre } := ⟨_, rfl⟩
  rw [← hw0]
  have h0f : w0.frames[f]? = some { fr with body := Instr.co_return value :: rest } := by
    rw [hw0]
    simp [World.setFrame, List.getElem?_set, hfl]
  have hstep : w0.step f = Except.ok (w0.setFrame f (fr.returned rest value), Next.run k) := by
    simp [World.step, World.frame?, h0f, hd, hdone, haw, World.instr, hp, World.final,
      FinalAwaitable.await_suspend, Promise.return_value, hk, Frame.returned]
  rw [exec_of_step_run n _ _ f k hstep]
  refine ⟨_, rfl, ?_, ?_, ?_, ?_, ?_⟩
  · rw [hw0]
    simp [World.setFrame, List.getElem?_set, hfl]
  · intro j h1
    rw [hw0]
    simp [World.setFrame, List.getElem?_set, Ne.symm h1]
  · rw [hw0]
    rfl
  · rw [hw0]
    rfl
  · rw [hw0]
    rfl

/-- The step `await_resume` of a frame suspended on a task that holds a value: the awaiter
receives the value and goes on. -/
theorem exec_await_resume {α ε : Type} (f g : Nat) (w : World α ε) (fr fg : Frame α ε)
    (pg : Promise α ε) (v : α) (n : Nat)
    (hf : w.frames[f]? = some fr) (hd : fr.destroyed = false) (hdone : fr.done = false)
    (haw : fr.awaiting = some g)
    (hg : w.frames[g]? = some fg) (hgd : fg.destroyed = false)
    (hgp : fg.promise = PromiseState.value pg) (hres : pg.result = Except.ok v) :
    ∃ w1 : World α ε, World.exec (n + 1) w f = World.exec n w1 f ∧
      w1.frames[f]? = some { fr with awaiting := none, received := fr.received ++ [v] } ∧
      (∀ j, j ≠ f → w1.frames[j]? = w.frames[j]?) ∧
      w1.log = w.log ∧ w1.pool = w.pool ∧ w1.executing = w.executing := by
  have hfl := lt_of_getElem?_eq_some hf
  have hstep : w.step f = Except.ok
      (w.setFrame f { fr with awaiting := none, received := fr.received ++ [v] },
        Next.run f) := by
    simp [World.step, World.frame?, hf, hd, hdone, haw, World.await_resume, hg, hgd, hgp, hres]
  rw [exec_of_step_run n _ _ f f hstep]
  refine ⟨_, rfl, ?_, ?_, rfl, rfl, rfl⟩
  · simp [World.setFrame, List.getElem?_set, hfl]
  · intro j h1
    simp [World.setFrame, List.getElem?_set, Ne.symm h1]

/-- C16: an outer task awaits a middle task that awaits an inner task, all three created and
not yet started, with statements that do not suspend around the awaits. One `resume()` of the
outer task returns `false` with all three tasks finished; the middle task received exactly the
value the inner one returned and the outer task exactly the value the middle one returned; the
statements after each await ran after all statements of the awaited task; and `is_ready()` of
the outer task is true afterwards. -/
theorem C16_nested_await {α ε : Type} (w : World α ε) (a b c : Nat)
    (preA postA restA preB postB restB preC restC : List (Instr α ε)) (va vb vc : α)
    (fuel : Nat) (hab : a ≠ b) (hac : a ≠ c) (hbc : b ≠ c)
    (hA : w.frames[a]? = some { promise := PromiseState.value {}, body := preA ++ Instr.await (some b) :: (postA ++ Instr.co_return va :: restA) })
    (hB : w.frames[b]? = some { promise := PromiseState.value {}, body := preB ++ Instr.await (some c) :: (postB ++ Instr.co_return vb :: restB) })
    (hC : w.frames[c]? = some { promise := PromiseState.value {}, body := preC ++ Instr.co_return vc :: restC })
    (hpreA : ∀ i ∈ preA, i.inert = true) (hpostA : ∀ i ∈ postA, i.inert = true)
    (hpreB : ∀ i ∈ preB, i.inert = true) (hpostB : ∀ i ∈ postB, i.inert = true)
    (hpreC : ∀ i ∈ preC, i.inert = true)
    (hfuel : preA.length + postA.length + preB.length + postB.length + preC.length + 7
      ≤ fuel) :
    ∃ w1 : World α ε,
      Task.resume fuel w { coroutine_ := some a } = Except.ok (w1, false) ∧
      Task.is_ready w1 { coroutine_ := some a } = some true ∧
      Task.is_ready w1 { coroutine_ := some b } = some true ∧
      Task.is_ready w1 { coroutine_ := some c } = some true ∧
      Task.result w1 { coroutine_ := some a } = some (Except.ok (some va)) ∧
      Task.result w1 { coroutine_ := some b } = some (Except.ok (some vb)) ∧
      Task.result w1 { coroutine_ := some c } = some (Except.ok (some vc)) ∧
      (∃ fa, w1.frames[a]? = some fa ∧ fa.received = [vb]) ∧
      (∃ fb, w1.frames[b]? = some fb ∧ fb.received = [vc]) ∧
      w1.log = w.log ++ (tagsOf preA ++ (tagsOf preB ++ (tagsOf preC ++
        (tagsOf postB ++ tagsOf postA)))) := by
  obtain ⟨x, hx, rfl⟩ : ∃ x, postA.length + 1 ≤ x ∧ fuel = preA.length +
      ((preB.length + ((preC.length + (((postB.length + ((x + 1) + 1)) + 1) + 1)) + 1)) + 1) :=
    ⟨fuel - (preA.length + preB.length + preC.length + postB.length + 6), by omega, by omega⟩
  -- the outer task runs to its await and transfers to the middle task
  obtain ⟨w1, hex1, h1a, h1b, h1o, h1log, -, -⟩ :=
    exec_inert_await a b preA (postA ++ Instr.co_return va :: restA) w _ _ {}
      (preB.length + ((preC.length + (((postB.length + ((x + 1) + 1)) + 1) + 1)) + 1))
      hab hA rfl rfl rfl rfl hpreA hB rfl rfl rfl
  have h1c := (h1o c (Ne.symm hac) (Ne.symm hbc)).trans hC
  -- the middle task runs to its await and transfers to the inner task
  obtain ⟨w2, hex2, h2b, h2c, h2o, h2log, -, -⟩ :=
    exec_inert_await b c preB (postB ++ Instr.co_return vb :: restB) w1 _ _ {}
      (preC.length + (((postB.length + ((x + 1) + 1)) + 1) + 1))
      hbc h1b rfl rfl rfl rfl hpreB h1c rfl rfl rfl
  have h2a := (h2o a hab hac).trans h1a
  -- the inner task returns and control goes back to the middle task
  obtain ⟨w3, hex3, h3c, h3o, h3log, -, -⟩ :=
    exec_inert_co_return_to c b preC restC vc w2 _ { continuation_ := some b }
      ((postB.length + ((x + 1) + 1)) + 1) h2c rfl rfl rfl rfl hpreC rfl rfl
  have h3a := (h3o a hac).trans h2a
  have h3b := (h3o b hbc).trans h2b
  -- the middle task receives the value
  obtain ⟨w4, hex4, h4b, h4o, h4log, -, -⟩ :=
    exec_await_resume b c w3 _ _ (Promise.return_value { continuation_ := some b } vc) vc
      (postB.length + ((x + 1) + 1)) h3b rfl rfl rfl h3c rfl rfl rfl
  have h4a := (h4o a hab).trans h3a
  have h4c := (h4o c (Ne.symm hbc)).trans h3c
  -- the middle task returns and control goes back to the outer task
  obtain ⟨w5, hex5, h5b, h5o, h5log, -, -⟩ :=
    exec_inert_co_return_to b a postB restB vb w4 _ { continuation_ := some a }
      (x + 1) h4b rfl rfl rfl rfl hpostB rfl rfl
  have h5a := (h5o a hab).trans h4a
  have h5c := (h5o c (Ne.symm hbc)).trans h4c
  -- the outer task receives the value
  obtain ⟨w6, hex6, h6a, h6o, h6log, -, -⟩ :=
    exec_await_resume a b w5 _ _ (Promise.return_value { continuation_ := some a } vb) vb
      x h5a rfl rfl rfl h5b rfl rfl rfl
  have h6b := (h6o b (Ne.symm hab)).trans h5b
  have h6c := (h6o c (Ne.symm hac)).trans h5c
  -- the outer task returns to the caller of resume()
  have hex7 := exec_inert_co_return a postA restA va w6 _ {} x h6a rfl rfl rfl rfl hpostA
    rfl rfl hx
  have hal := lt_of_getElem?_eq_some h6a
  obtain ⟨w7, hw7⟩ : ∃ w7 : World α ε, w7 = { w6.setFrame a (Frame.returned { promise := PromiseState.value {}, body := postA ++ Instr.co_return va :: restA, received := [] ++ [vb] } restA va) with log := w6.log ++ tagsOf postA } := ⟨_, rfl⟩
  have h7a : w7.frames[a]? = some (Frame.returned { promise := PromiseState.value {}, body := postA ++ Instr.co_return va :: restA, received := [] ++ [vb] } restA va) := by
    rw [hw7]
    simp [World.setFrame, List.getElem?_set, hal]
  have e7b : w7.frames[b]? = w6.frames[b]? := by
    rw [hw7]
    simp only [World.setFrame, List.getElem?_set, if_neg hab]
  have e7c : w7.frames[c]? = w6.frames[c]? := by
    rw [hw7]
    simp only [World.setFrame, List.getElem?_set, if_neg hac]
  have h7b := e7b.trans h6b
  have h7c := e7c.trans h6c
  have hex : World.exec (preA.length +
      ((preB.length + ((preC.length + (((postB.length + ((x + 1) + 1)) + 1) + 1)) + 1)) + 1))
      w a = Except.ok w7 := by
    rw [hex1, hex2, hex3, hex4, hex5, hex6, hw7]
    exact hex7
  refine ⟨w7, ?_, ?_, ?_, ?_, ?_, ?_, ?_, ?_, ?_, ?_⟩
  · exact Task_resume_of_exec _ w w7 a true (done_of_getElem w a _ hA rfl) hex
      (done_of_getElem w7 a _ h7a rfl)
  · exact done_of_getElem w7 a _ h7a rfl
  · exact done_of_getElem w7 b _ h7b rfl
  · exact done_of_getElem w7 c _ h7c rfl
  · simp only [Task.result, frame?_of_getElem w7 a _ h7a rfl]
    rfl
  · simp only [Task.result, frame?_of_getElem w7 b _ h7b rfl]
    rfl
  · simp only [Task.result, frame?_of_getElem w7 c _ h7c rfl]
    rfl
  · exact ⟨_, h7a, rfl⟩
  · exact ⟨_, h7b, rfl⟩
  · rw [hw7]
    simp only [h6log, h5log, h4log, h3log, h2log, h1log, List.append_assoc]

/-- C16 (witness): the three tasks of `exampleNested`; the log afterwards is 1, 2, 3, 4, 5. -/
theorem C16_nested_await_witness :
    (∃ w1 : World Nat Nat,
      Task.resume 20 exampleNested { coroutine_ := some 0 } = Except.ok (w1, false) ∧
      Task.is_ready w1 { coroutine_ := some 0 } = some true ∧
      Task.is_ready w1 { coroutine_ := some 1 } = some true ∧
      Task.is_ready w1 { coroutine_ := some 2 } = some true ∧
      Task.result w1 { coroutine_ := some 0 } = some (Except.ok (some 30)) ∧
      Task.result w1 { coroutine_ := some 1 } = some (Except.ok (some 20)) ∧
      Task.result w1 { coroutine_ := some 2 } = some (Except.ok (some 10)) ∧
      (∃ fa, w1.frames[0]? = some fa ∧ fa.received = [20]) ∧
      (∃ fb, w1.frames[1]? = some fb ∧ fb.received = [10]) ∧
      w1.log = exampleNested.log ++ (tagsOf ([Instr.record 1] : List (Instr Nat Nat)) ++
        (tagsOf ([Instr.record 2] : List (Instr Nat Nat)) ++
        (tagsOf ([Instr.record 3] : List (Instr Nat Nat)) ++
        (tagsOf ([Instr.record 4] : List (Instr Nat Nat)) ++
          tagsOf ([Instr.record 5] : List (Instr Nat Nat))))))) ∧
    exampleNested.log ++ (tagsOf ([Instr.record 1] : List (Instr Nat Nat)) ++
        (tagsOf ([Instr.record 2] : List (Instr Nat Nat)) ++
        (tagsOf ([Instr.record 3] : List (Instr Nat Nat)) ++
        (tagsOf ([Instr.record 4] : List (Instr Nat Nat)) ++
          tagsOf ([Instr.record 5] : List (Instr Nat Nat)))))) = [1, 2, 3, 4, 5] :=
  ⟨C16_nested_await exampleNested 0 1 2 [Instr.record 1] [Instr.record 5] []
      [Instr.record 2] [Instr.record 4] [] [Instr.record 3] [] 30 20 10 20
      (by decide) (by decide) (by decide) rfl rfl rfl (by decide) (by decide) (by decide)
      (by decide) (by decide) (by decide), by decide⟩

/-! ## The counter is an invariant (C20, C8) -/

theorem isVoidTask_congr {α ε : Type} {w w1 : World α ε}
    (h : w1.frames.map Frame.isVoid = w.frames.map Frame.isVoid) (t : Handle) :
    w1.isVoidTask t = w.isVoidTask t := by
  cases t with
  | none => rfl
  | some i =>
    have := congrArg (fun l => l[i]?) h
    simp only [List.getElem?_map] at this
    simp only [World.isVoidTask]
    cases h1 : w1.frames[i]? <;> cases h0 : w.frames[i]? <;> simp_all

theorem map_set_same {α β : Type} (g : α → β) (l : List α) (i : Nat) (old new : α)
    (h : l[i]? = some old) (hg : g new = g old) : (l.set i new).map g = l.map g := by
  apply List.ext_getElem?
  intro j
  simp only [List.getElem?_map, List.getElem?_set]
  by_cases hij : i = j
  · subst hij
    simp [lt_of_getElem?_eq_some h, h, hg]
  · simp [hij]

theorem isVoidTask_append {α ε : Type} (w : World α ε) (l : List (Frame α ε)) (t : Handle)
    (h : w.isVoidTask t = true) :
    World.isVoidTask { w with frames := w.frames ++ l } t = true := by
  cases t with
  | none => rfl
  | some i =>
    simp only [World.isVoidTask] at h ⊢
    cases h0 : w.frames[i]? with
    | none => simp [h0] at h
    | some fr =>
      rw [List.getElem?_append_left (lt_of_getElem?_eq_some h0), h0]
      simpa [h0] using h

theorem liveBound_setFrame {α ε : Type} (w : World α ε) (f : Nat) (old new : Frame α ε)
    (h : w.frames[f]? = some old) :
    (w.setFrame f new).liveBound + (if old.liveBound = true then 1 else 0) =
      w.liveBound + (if new.liveBound = true then 1 else 0) := by
  have hlt := lt_of_getElem?_eq_some h
  have hget : w.frames[f] = old := by
    rw [List.getElem?_eq_getElem hlt] at h
    exact Option.some.inj h
  simp only [World.liveBound, World.setFrame, List.countP_set Frame.liveBound w.frames f new hlt,
    hget]
  have hpos : old.liveBound = true → 0 < w.frames.countP Frame.liveBound := by
    intro ho
    exact List.countP_pos_iff.2 ⟨old, hget ▸ List.getElem_mem hlt, ho⟩
  by_cases ho : old.liveBound = true
  · have := hpos ho
    simp only [ho, if_true]
    omega
  · simp only [ho]
    simp

/-- Overwriting a frame by one of the same promise type keeps the heap well typed. -/
theorem wellTyped_setFrame {α ε : Type} (w : World α ε) (f : Nat) (old new : Frame α ε)
    (hw : w.wellTyped) (h : w.frames[f]? = some old) (hv : new.isVoid = old.isVoid)
    (ho : new.isWrapper = true → w.isVoidTask new.owns = true)
    (hb : ∀ t, Instr.spawn t ∈ new.body → w.isVoidTask t = true) :
    (w.setFrame f new).wellTyped := by
  have hmap : (w.setFrame f new).frames.map Frame.isVoid = w.frames.map Frame.isVoid :=
    map_set_same Frame.isVoid w.frames f old new h hv
  intro i fr hi
  rw [getElem?_setFrame] at hi
  by_cases hfi : f = i
  · rw [if_pos hfi, if_pos (lt_of_getElem?_eq_some h)] at hi
    have hfr : new = fr := Option.some.inj hi
    subst hfr
    refine ⟨fun hwr => ?_, fun t ht => ?_⟩
    · rw [isVoidTask_congr hmap]
      exact ho hwr
    · rw [isVoidTask_congr hmap]
      exact hb t ht
  · rw [if_neg hfi] at hi
    obtain ⟨h1, h2⟩ := hw i fr hi
    refine ⟨fun hwr => ?_, fun t ht => ?_⟩
    · rw [isVoidTask_congr hmap]
      exact h1 hwr
    · rw [isVoidTask_congr hmap]
      exact h2 t ht

theorem derived_refl {α ε : Type} (fr : Frame α ε) : fr.derived fr :=
  ⟨rfl, rfl, rfl, rfl, rfl, fun _ h => h⟩

theorem derived_trans {α ε : Type} {a b c : Frame α ε} (h1 : a.derived b) (h2 : b.derived c) :
    a.derived c :=
  ⟨h1.1.trans h2.1, h1.2.1.trans h2.2.1, h1.2.2.1.trans h2.2.2.1, h1.2.2.2.1.trans h2.2.2.2.1,
    h1.2.2.2.2.1.trans h2.2.2.2.2.1, fun i hi => h2.2.2.2.2.2 i (h1.2.2.2.2.2 i hi)⟩

theorem frame?_some {α ε : Type} {w : World α ε} {f : Nat} {fr : Frame α ε}
    (h : w.frame? (some f) = some fr) : w.frames[f]? = some fr ∧ fr.destroyed = false := by
  simp only [World.frame?] at h
  cases h0 : w.frames[f]? with
  | none => simp [h0] at h
  | some fr0 =>
    rw [h0] at h
    by_cases hd : fr0.destroyed = true
    · simp [hd] at h
    · simp only [hd] at h
      simp only [Bool.false_eq_true, if_false, Option.some.injEq] at h
      subst h
      exact ⟨rfl, by simpa using hd⟩

theorem liveBound_congr {α ε : Type} {w w1 : World α ε} (h : w1.frames = w.frames) :
    w1.liveBound = w.liveBound := by
  simp only [World.liveBound, h]

theorem wellTyped_congr {α ε : Type} {w w1 : World α ε} (h : w1.frames = w.frames)
    (hw : w.wellTyped) : w1.wellTyped := by
  intro i fr hi
  rw [h] at hi
  obtain ⟨h1, h2⟩ := hw i fr hi
  have hmap : w1.frames.map Frame.isVoid = w.frames.map Frame.isVoid := by rw [h]
  exact ⟨fun hwr => (isVoidTask_congr hmap _).trans (h1 hwr),
    fun t ht => (isVoidTask_congr hmap _).trans (h2 t ht)⟩

/-- A change of the pool, of the handles held by workers or of the log that keeps the count. -/
theorem counted_pool {α ε : Type} {d d1 : Nat} {w w1 : World α ε} (hc : w.counted d)
    (hfr : w1.frames = w.frames)
    (hs : w1.pool.size_ =
      (w1.pool.queue_.length + w1.executing.length + w.liveBound + d1) % 2 ^ 64) :
    w1.counted d1 := by
  refine ⟨?_, wellTyped_congr hfr hc.2⟩
  rw [liveBound_congr hfr]
  exact hs

/-- A coroutine step that overwrites its frame by a later state keeps the count. -/
theorem counted_setFrame {α ε : Type} {d : Nat} {w : World α ε} (f : Nat)
    (old new : Frame α ε) (hc : w.counted d) (h : w.frames[f]? = some old)
    (hn : new.derived old) : (w.setFrame f new).counted d := by
  obtain ⟨hv, hwr, hlb, hown, -, hbody⟩ := hn
  obtain ⟨h1, h2⟩ := hc.2 f old h
  refine ⟨?_, wellTyped_setFrame w f old new hc.2 h hv ?_ ?_⟩
  · have := liveBound_setFrame w f old new h
    rw [hlb] at this
    have hl : (w.setFrame f new).liveBound = w.liveBound := by omega
    rw [hl]
    exact hc.1
  · intro hw
    rw [hown]
    exact h1 (hwr ▸ hw)
  · intro t ht
    exact h2 t (hbody _ ht)

theorem counted_log {α ε : Type} {d : Nat} {w : World α ε} (l : List Nat) (hc : w.counted d) :
    World.counted d { w with log := l } :=
  counted_pool hc rfl hc.1

theorem size_lt {α ε : Type} {d : Nat} {w : World α ε} (hc : w.counted d) :
    w.pool.size_ < 2 ^ 64 := by
  rw [hc.1]
  exact Nat.mod_lt _ (by norm_num)

/-- The function `resume(handle)` keeps the count. -/
theorem counted_resume {α ε : Type} {d : Nat} {w : World α ε} (h : Handle)
    (r : World α ε × Bool) (hc : w.counted d) (hr : ThreadPool.resume w h = Except.ok r) :
    r.1.counted d := by
  have hlt := size_lt hc
  have hs := hc.1
  cases h with
  | none =>
    simp only [ThreadPool.resume, Except.ok.injEq] at hr
    rw [← hr]
    exact hc
  | some i =>
    cases hd : w.done (some i) with
    | none => simp [ThreadPool.resume, hd] at hr
    | some b =>
      cases b with
      | true =>
        simp only [ThreadPool.resume, hd, Except.ok.injEq] at hr
        rw [← hr]
        exact hc
      | false =>
        cases hreq : w.pool.shutdownRequested_ with
        | true =>
          rw [resume_rejected w i hd hreq, Except.ok.injEq] at hr
          rw [← hr]
          refine counted_pool hc rfl ?_
          show fetch_sub (fetch_add w.pool.size_ 1) 1 = _
          rw [fetch_sub_fetch_add _ hlt]
          exact hs
        | false =>
          rw [resume_accepted w i hd hreq, Except.ok.injEq] at hr
          rw [← hr]
          refine counted_pool hc rfl ?_
          show fetch_add w.pool.size_ 1 =
            ((w.pool.queue_ ++ [some i]).length + w.executing.length + w.liveBound + d) % 2 ^ 64
          rw [hs, List.length_append, List.length_singleton]
          unfold fetch_add
          omega

/-- A new frame at the end of the heap. -/
theorem counted_append {α ε : Type} {d d1 : Nat} {w w1 : World α ε} (new : Frame α ε)
    (hc : w.counted d) (hfr : w1.frames = w.frames ++ [new])
    (ho : new.isWrapper = true → w.isVoidTask new.owns = true)
    (hb : ∀ t, Instr.spawn t ∈ new.body → w.isVoidTask t = true)
    (hs : w1.pool.size_ = (w1.pool.queue_.length + w1.executing.length +
      (w.liveBound + if new.liveBound = true then 1 else 0) + d1) % 2 ^ 64) :
    w1.counted d1 := by
  have happ : ∀ t, w.isVoidTask t = true → w1.isVoidTask t = true := by
    intro t ht
    have h1 := isVoidTask_append w [new] t ht
    have hmap : w1.frames.map Frame.isVoid =
        (World.frames { w with frames := w.frames ++ [new] }).map Frame.isVoid := by rw [hfr]
    rw [isVoidTask_congr hmap]
    exact h1
  refine ⟨?_, ?_⟩
  · have hl : w1.liveBound = w.liveBound + if new.liveBound = true then 1 else 0 := by
      simp only [World.liveBound, hfr, List.countP_append, List.countP_cons, List.countP_nil,
        Nat.zero_add]
    rw [hl]
    exact hs
  · intro i fr hi
    rw [hfr] at hi
    by_cases hlt : i < w.frames.length
    · rw [List.getElem?_append_left hlt] at hi
      obtain ⟨h1, h2⟩ := hc.2 i fr hi
      exact ⟨fun hw => happ _ (h1 hw), fun t ht => happ _ (h2 t ht)⟩
    · rw [List.getElem?_append_right (Nat.le_of_not_lt hlt)] at hi
      have hfr1 : new = fr := by
        cases hk : i - w.frames.length with
        | zero =>
          rw [hk] at hi
          simpa using hi
        | succ k =>
          rw [hk] at hi
          simp at hi
      subst hfr1
      exact ⟨fun hw => happ _ (ho hw), fun t ht => happ _ (hb t ht)⟩

/-- The function `spawn` keeps the count: the wrapper it creates is counted. -/
theorem counted_spawn {α ε : Type} {d : Nat} {w : World α ε} (task : Handle)
    (r : World α ε × Bool) (hc : w.counted d) (ht : w.isVoidTask task = true)
    (hr : ThreadPool.spawn w task = Except.ok r) : r.1.counted d := by
  have hs := hc.1
  have hwl : (wrapperFrame task true : Frame α ε).liveBound = true := rfl
  cases hreq : w.pool.shutdownRequested_ with
  | true =>
    rw [spawn_rejected w task hreq, Except.ok.injEq] at hr
    rw [← hr]
    refine counted_append (wrapperFrame task true) hc rfl (fun _ => ht) ?_ ?_
    · intro t htm
      simp [wrapperFrame] at htm
    · show fetch_sub (fetch_add (fetch_add w.pool.size_ 1) 1) 1 = _
      rw [hs, hwl]
      simp only [if_true]
      unfold fetch_sub fetch_add
      omega
  | false =>
    rw [spawn_accepted w task hreq, Except.ok.injEq] at hr
    rw [← hr]
    refine counted_append (wrapperFrame task true) hc rfl (fun _ => ht) ?_ ?_
    · intro t htm
      simp [wrapperFrame] at htm
    · show fetch_add (fetch_add w.pool.size_ 1) 1 =
        ((w.pool.queue_ ++ [some w.frames.length]).length + w.executing.length +
          (w.liveBound + if (wrapperFrame task true : Frame α ε).liveBound = true then 1 else 0)
          + d) % 2 ^ 64
      rw [hs, hwl, List.length_append, List.length_singleton]
      simp only [if_true]
      unfold fetch_add
      omega

/-- The function `resume(handles)` keeps the count. -/
theorem counted_resume_handles {α ε : Type} {d : Nat} {w : World α ε} (handles : List Handle)
    (hc : w.counted d) :
    World.counted d { w with pool := (w.pool.resume_handles handles).1 } := by
  have hs := hc.1
  have hsum := countP_null_add_nonnull handles
  refine counted_pool hc rfl ?_
  simp only [ThreadPool.resume_handles, resume_loop_eq, Nat.zero_add]
  have hlen : (w.pool.queue_ ++ handles.filter (fun h => h != none)).length =
      w.pool.queue_.length + handles.countP (fun h => h != none) := by
    rw [List.length_append, List.countP_eq_length_filter]
  split
  · show fetch_sub (fetch_add w.pool.size_ handles.length)
        (handles.countP (fun h => h == none)) =
      ((w.pool.queue_ ++ handles.filter (fun h => h != none)).length + w.executing.length +
        w.liveBound + d) % 2 ^ 64
    rw [hlen, hs]
    unfold fetch_sub fetch_add
    omega
  · rename_i hz
    show fetch_add w.pool.size_ handles.length =
      ((w.pool.queue_ ++ handles.filter (fun h => h != none)).length + w.executing.length +
        w.liveBound + d) % 2 ^ 64
    rw [hlen, hs]
    unfold fetch_add
    omega

/-- The function `schedule()` whose result is never awaited: one more unit when it returns. -/
theorem counted_schedule {α ε : Type} {d : Nat} {w : World α ε} (hc : w.counted d) :
    World.counted (if w.pool.shutdownRequested_ then d else d + 1)
      { w with pool := (@ThreadPool.schedule ε w.pool).2 } := by
  have hs := hc.1
  have hlt := size_lt hc
  refine counted_pool hc rfl ?_
  cases hreq : w.pool.shutdownRequested_ with
  | true =>
    simp only [ThreadPool.schedule, hreq, Bool.not_true, Bool.false_eq_true, if_false, if_true]
    show fetch_sub (fetch_add w.pool.size_ 1) 1 = _
    rw [fetch_sub_fetch_add _ hlt]
    exact hs
  | false =>
    simp only [ThreadPool.schedule, hreq, Bool.not_false, if_true, Bool.false_eq_true, if_false]
    show fetch_add w.pool.size_ 1 = _
    rw [hs]
    unfold fetch_add
    omega

theorem counted_pop {α ε : Type} {d : Nat} {w : World α ε} (handle : Handle)
    (rest : List Handle) (hc : w.counted d) (hq : w.pool.queue_ = handle :: rest) :
    (ThreadPool.executor_pop w handle rest).counted d := by
  refine counted_pool hc rfl ?_
  show w.pool.size_ = (rest.length + (handle :: w.executing).length + w.liveBound + d) % 2 ^ 64
  rw [hc.1, hq]
  simp only [List.length_cons]
  omega

theorem counted_account {α ε : Type} {d : Nat} {w : World α ε} (handle : Handle)
    (hc : w.counted d) (hm : handle ∈ w.executing) :
    (ThreadPool.executor_account w handle).counted d := by
  have hpos : 0 < w.executing.length := List.length_pos_of_mem hm
  refine counted_pool hc rfl ?_
  show fetch_sub w.pool.size_ 1 =
    (w.pool.queue_.length + (w.executing.erase handle).length + w.liveBound + d) % 2 ^ 64
  rw [hc.1, List.length_erase_of_mem hm]
  unfold fetch_sub
  omega

theorem isVoid_not_wrapper {α ε : Type} (fr : Frame α ε) (h : fr.isVoid = true) :
    fr.isWrapper = false ∧ fr.liveBound = false := by
  cases hp : fr.promise <;> simp [Frame.isVoid, Frame.isWrapper, Frame.liveBound, hp] at h ⊢

/-- The call `handle.destroy()` on a `Task<void>` keeps the count. -/
theorem counted_destroy {α ε : Type} {d : Nat} {w : World α ε} (h : Handle)
    (hc : w.counted d) (ht : w.isVoidTask h = true) : (w.destroy h).counted d := by
  cases h with
  | none => exact hc
  | some u =>
    simp only [World.destroy]
    cases hu : w.frames[u]? with
    | none => exact hc
    | some fu =>
      have hv : fu.isVoid = true := by
        simpa [World.isVoidTask, hu] using ht
      obtain ⟨hnw, hnl⟩ := isVoid_not_wrapper fu hv
      have hv1 : ({ fu with destroyed := true } : Frame α ε).isVoid = fu.isVoid := rfl
      have hw1 : ({ fu with destroyed := true } : Frame α ε).isWrapper = fu.isWrapper := rfl
      have hl1 : ({ fu with destroyed := true } : Frame α ε).liveBound = false := by
        cases hp : fu.promise <;> simp [Frame.isVoid, Frame.liveBound, hp] at hv ⊢
      refine ⟨?_, wellTyped_setFrame w u fu _ hc.2 hu hv1 ?_ ?_⟩
      · have := liveBound_setFrame w u fu { fu with destroyed := true } hu
        rw [hl1, hnl] at this
        have hl : (w.setFrame u { fu with destroyed := true }).liveBound = w.liveBound := by
          simpa using this
        rw [hl]
        exact hc.1
      · intro hw
        rw [hw1, hnw] at hw
        cases hw
      · intro t htm
        exact (hc.2 u fu hu).2 t htm

/-- The final suspend point keeps the count: a bound wrapper takes one off the counter and is
no longer live. -/
theorem counted_final {α ε : Type} {d : Nat} {w : World α ε} (f : Nat) (old fr : Frame α ε)
    (hc : w.counted d) (h : w.frames[f]? = some old) (hod : old.destroyed = false)
    (hn : fr.derived old) : (w.final f fr).1.counted d := by
  cases hp : fr.promise with
  | value p =>
    have : (w.final f fr).1 = w.setFrame f { fr with done := true } := by
      simp [World.final, hp]
    rw [this]
    exact counted_setFrame f old _ hc h (derived_trans ⟨rfl, rfl, rfl, rfl, rfl, fun _ h => h⟩ hn)
  | void p =>
    have : (w.final f fr).1 = w.setFrame f { fr with done := true } := by
      simp [World.final, hp]
    rw [this]
    exact counted_setFrame f old _ hc h (derived_trans ⟨rfl, rfl, rfl, rfl, rfl, fun _ h => h⟩ hn)
  | selfDeleting p =>
    obtain ⟨hv, hwr, hlb, hown, hdes, hbody⟩ := hn
    have hfd : fr.destroyed = false := hdes.trans hod
    have holb : old.liveBound = p.executorSize_ := by
      rw [← hlb]
      simp [Frame.liveBound, hp, hfd]
    have howr : old.isWrapper = true := by
      rw [← hwr]
      simp [Frame.isWrapper, hp]
    have hty : w.isVoidTask fr.owns = true := by
      rw [hown]
      exact (hc.2 f old h).1 howr
    rw [final_selfDeleting w f fr p hp]
    simp only []
    obtain ⟨w1, hw1⟩ : ∃ w1 : World α ε, w1 =
        { w with pool := { w.pool with size_ := p.final_suspend w.pool.size_ } } := ⟨_, rfl⟩
    rw [← hw1]
    have hfr1 : w1.frames = w.frames := by rw [hw1]
    have h1 : w1.frames[f]? = some old := by rw [hfr1]; exact h
    have hwt1 : w1.wellTyped := wellTyped_congr hfr1 hc.2
    have hnl : ({ fr with destroyed := true } : Frame α ε).liveBound = false := by
      simp [Frame.liveBound, hp]
    have hc2 : (w1.setFrame f { fr with destroyed := true }).counted d := by
      refine ⟨?_, wellTyped_setFrame w1 f old _ hwt1 h1 hv ?_ ?_⟩
      · have hl := liveBound_setFrame w1 f old { fr with destroyed := true } h1
        rw [hnl, holb, liveBound_congr hfr1] at hl
        have hs := hc.1
        show w1.pool.size_ = (w1.pool.queue_.length + w1.executing.length +
          (w1.setFrame f { fr with destroyed := true }).liveBound + d) % 2 ^ 64
        generalize (w1.setFrame f { fr with destroyed := true }).liveBound = L2 at hl ⊢
        have hsz : w1.pool.size_ = p.final_suspend w.pool.size_ := by rw [hw1]
        have hq : w1.pool.queue_ = w.pool.queue_ := by rw [hw1]
        have he : w1.executing = w.executing := by rw [hw1]
        rw [hsz, hq, he]
        cases hb : p.executorSize_ with
        | true =>
          rw [hb] at hl
          simp only [if_true, Bool.false_eq_true, if_false] at hl
          simp only [PromiseSelfDeleting.final_suspend, hb, if_true, hs]
          unfold fetch_sub
          omega
        | false =>
          rw [hb] at hl
          simp only [Bool.false_eq_true, if_false] at hl
          simp only [PromiseSelfDeleting.final_suspend, hb, Bool.false_eq_true, if_false, hs]
          omega
      · intro _
        rw [isVoidTask_congr (show w1.frames.map Frame.isVoid = w.frames.map Frame.isVoid by
          rw [hfr1])]
        exact hty
      · intro t htm
        rw [isVoidTask_congr (show w1.frames.map Frame.isVoid = w.frames.map Frame.isVoid by
          rw [hfr1])]
        exact (hc.2 f old h).2 t (hbody _ htm)
    refine counted_destroy fr.owns hc2 ?_
    have hmap : (w1.setFrame f { fr with destroyed := true }).frames.map Frame.isVoid =
        w.frames.map Frame.isVoid := by
      rw [← hfr1]
      exact map_set_same Frame.isVoid w1.frames f old _ h1 hv
    rw [isVoidTask_congr hmap]
    exact hty

/-- An exception that leaves a body keeps the count. -/
theorem counted_raise {α ε : Type} {d : Nat} {w : World α ε} (f : Nat) (old fr : Frame α ε)
    (e : Exn ε) (hc : w.counted d) (h : w.frames[f]? = some old) (hod : old.destroyed = false)
    (hn : fr.derived old) : (w.raise f fr e).1.counted d := by
  cases hp : fr.promise with
  | value p =>
    simp only [World.raise, hp]
    refine counted_final f old _ hc h hod (derived_trans ?_ hn)
    simp [Frame.derived, Frame.isVoid, Frame.isWrapper, Frame.liveBound, hp]
  | void p =>
    simp only [World.raise, hp]
    refine counted_final f old _ hc h hod (derived_trans ?_ hn)
    simp [Frame.derived, Frame.isVoid, Frame.isWrapper, Frame.liveBound, hp]
  | selfDeleting p =>
    simp only [World.raise, hp]
    refine counted_final f old _ hc h hod (derived_trans ?_ hn)
    simp [Frame.derived, Frame.isVoid, Frame.isWrapper, Frame.liveBound, hp,
      PromiseSelfDeleting.unhandled_exception]

theorem derived_setContinuation {α ε : Type} (fr : Frame α ε) (h : Handle) :
    (fr.setContinuation h).derived fr := by
  cases hp : fr.promise <;>
    simp [Frame.setContinuation, Frame.derived, Frame.isVoid, Frame.isWrapper, Frame.liveBound,
      hp]

/-- The statement `co_await task` keeps the count. -/
theorem counted_await {α ε : Type} {d : Nat} {w : World α ε} (f : Nat) (old fr : Frame α ε)
    (h : Handle) (r : World α ε × Next) (hc : w.counted d) (h0 : w.frames[f]? = some old)
    (hn : fr.derived old) (hr : w.await f fr h = Except.ok r) : r.1.counted d := by
  cases h with
  | none => simp [World.await] at hr
  | some c =>
    have hc1 : (w.setFrame f { fr with awaiting := some c }).counted d :=
      counted_setFrame f old _ hc h0 (derived_trans ⟨rfl, rfl, rfl, rfl, rfl, fun _ h => h⟩ hn)
    have key : ∀ fc : Frame α ε, w.frame? (some c) = some fc →
        (if fc.done = true then
          Except.ok (w.setFrame f { fr with awaiting := some c }, Next.run f)
        else
          match (w.setFrame f { fr with awaiting := some c }).frames[c]? with
          | some fc1 => Except.ok ((w.setFrame f { fr with awaiting := some c }).setFrame c
              (fc1.setContinuation (some f)), Next.run c)
          | none => Except.error Fault.undefined) = Except.ok r → r.1.counted d := by
      intro fc _ hr
      by_cases hdone : fc.done = true
      · rw [if_pos hdone, Except.ok.injEq] at hr
        rw [← hr]
        exact hc1
      · rw [if_neg hdone] at hr
        cases hc1f : (w.setFrame f { fr with awaiting := some c }).frames[c]? with
        | none => simp [hc1f] at hr
        | some fc1 =>
          simp only [hc1f, Except.ok.injEq] at hr
          rw [← hr]
          exact counted_setFrame c fc1 _ hc1 hc1f (derived_setContinuation fc1 (some f))
    simp only [World.await] at hr
    cases hfc : w.frame? (some c) with
    | none => simp [hfc] at hr
    | some fc =>
      simp only [hfc] at hr
      cases hp : fc.promise with
      | selfDeleting p => simp [hp] at hr
      | value p =>
        simp only [hp] at hr
        exact key fc hfc hr
      | void p =>
        simp only [hp] at hr
        exact key fc hfc hr

/-- The step `await_resume` keeps the count. -/
theorem counted_await_resume {α ε : Type} {d : Nat} {w : World α ε} (f : Nat)
    (old fr : Frame α ε) (c : Nat) (r : World α ε × Next) (hc : w.counted d)
    (h0 : w.frames[f]? = some old) (hod : old.destroyed = false) (hn : fr.derived old)
    (hr : w.await_resume f fr c = Except.ok r) : r.1.counted d := by
  simp only [World.await_resume] at hr
  cases hfc : w.frame? (some c) with
  | none => simp [hfc] at hr
  | some fc =>
    simp only [hfc] at hr
    cases hp : fc.promise with
    | selfDeleting p => simp [hp] at hr
    | value p =>
      simp only [hp] at hr
      cases hres : p.result with
      | ok v =>
        simp only [hres, Except.ok.injEq] at hr
        rw [← hr]
        exact counted_setFrame f old _ hc h0
          (derived_trans ⟨rfl, rfl, rfl, rfl, rfl, fun _ h => h⟩ hn)
      | error e =>
        simp only [hres, Except.ok.injEq] at hr
        rw [← hr]
        exact counted_raise f old _ e hc h0 hod
          (derived_trans ⟨rfl, rfl, rfl, rfl, rfl, fun _ h => h⟩ hn)
    | void p =>
      simp only [hp] at hr
      cases hres : p.result with
      | ok v =>
        simp only [hres, Except.ok.injEq] at hr
        rw [← hr]
        exact counted_setFrame f old _ hc h0
          (derived_trans ⟨rfl, rfl, rfl, rfl, rfl, fun _ h => h⟩ hn)
      | error e =>
        simp only [hres, Except.ok.injEq] at hr
        rw [← hr]
        exact counted_raise f old _ e hc h0 hod
          (derived_trans ⟨rfl, rfl, rfl, rfl, rfl, fun _ h => h⟩ hn)

/-- One statement of a coroutine keeps the count. -/
theorem counted_instr {α ε : Type} {d : Nat} {w : World α ε} (f : Nat) (old fr : Frame α ε)
    (i : Instr α ε) (r : World α ε × Next) (hc : w.counted d) (h0 : w.frames[f]? = some old)
    (hod : old.destroyed = false) (hfdone : fr.done = false) (hn : fr.derived old)
    (hty : ∀ t, i = Instr.spawn t → w.isVoidTask t = true)
    (hr : w.instr f fr i = Except.ok r) : r.1.counted d := by
  have hfl := lt_of_getElem?_eq_some h0
  have hfd : fr.destroyed = false := hn.2.2.2.2.1.trans hod
  have hc1 : (w.setFrame f fr).counted d := counted_setFrame f old fr hc h0 hn
  have h1 : (w.setFrame f fr).frames[f]? = some fr := by
    simp [World.setFrame, List.getElem?_set, hfl]
  have hmap : (w.setFrame f fr).frames.map Frame.isVoid = w.frames.map Frame.isVoid :=
    map_set_same Frame.isVoid w.frames f old fr h0 hn.1
  cases i with
  | suspend_always =>
    simp only [World.instr, Except.ok.injEq] at hr
    rw [← hr]
    exact hc1
  | suspend_never =>
    simp only [World.instr, Except.ok.injEq] at hr
    rw [← hr]
    exact hc1
  | record tag =>
    simp only [World.instr, Except.ok.injEq] at hr
    rw [← hr]
    exact counted_log _ hc1
  | await h => exact counted_await f old fr h r hc h0 hn hr
  | schedule =>
    have hs1 := hc1.1
    have hlt := size_lt hc1
    cases hreq : (w.setFrame f fr).pool.shutdownRequested_ with
    | true =>
      have hc2 : World.counted d { w.setFrame f fr with
          pool := (@ThreadPool.schedule ε (w.setFrame f fr).pool).2 } := by
        have := counted_schedule (ε := ε) hc1
        rw [hreq] at this
        exact this
      have hsched : (@ThreadPool.schedule ε (w.setFrame f fr).pool).1 =
          Except.error Exn.shutting_down := by
        simp [ThreadPool.schedule, hreq]
      simp only [World.instr, hsched, Except.ok.injEq] at hr
      rw [← hr]
      exact counted_raise f fr fr _ hc2 h1 hfd (derived_refl fr)
    | false =>
      have hsched : (@ThreadPool.schedule ε (w.setFrame f fr).pool) = (Except.ok (),
          { (w.setFrame f fr).pool with size_ := fetch_add (w.setFrame f fr).pool.size_ 1 }) := by
        simp [ThreadPool.schedule, hreq]
      have hdone : World.done { w.setFrame f fr with pool :=
          { (w.setFrame f fr).pool with size_ := fetch_add (w.setFrame f fr).pool.size_ 1 } }
          (some f) = some false :=
        (done_of_getElem { w.setFrame f fr with pool :=
          { (w.setFrame f fr).pool with size_ := fetch_add (w.setFrame f fr).pool.size_ 1 } }
          f fr h1 hfd).trans (congrArg some hfdone)
      simp only [World.instr, hsched, ScheduleOperation.await_suspend,
        ThreadPool.schedule_impl, hdone, Except.ok.injEq] at hr
      rw [← hr]
      refine counted_pool hc1 rfl ?_
      show fetch_add (w.setFrame f fr).pool.size_ 1 =
        (((w.setFrame f fr).pool.queue_ ++ [some f]).length + (w.setFrame f fr).executing.length
          + (w.setFrame f fr).liveBound + d) % 2 ^ 64
      rw [hs1, List.length_append, List.length_singleton]
      unfold fetch_add
      omega
  | resume h =>
    simp only [World.instr] at hr
    cases hres : ThreadPool.resume (w.setFrame f fr) h with
    | error e => simp [hres] at hr
    | ok r0 =>
      simp only [hres, Except.ok.injEq] at hr
      rw [← hr]
      exact counted_resume h r0 hc1 hres
  | resumeBatch handles =>
    simp only [World.instr, Except.ok.injEq] at hr
    rw [← hr]
    exact counted_resume_handles handles hc1
  | spawn h =>
    simp only [World.instr] at hr
    cases hres : ThreadPool.spawn (w.setFrame f fr) h with
    | error e => simp [hres] at hr
    | ok r0 =>
      simp only [hres, Except.ok.injEq] at hr
      rw [← hr]
      refine counted_spawn h r0 hc1 ?_ hres
      rw [isVoidTask_congr hmap]
      exact hty h rfl
  | co_return value =>
    simp only [World.instr] at hr
    cases hp : fr.promise with
    | value p =>
      simp only [hp, Except.ok.injEq] at hr
      rw [← hr]
      refine counted_final f old _ hc h0 hod (derived_trans ?_ hn)
      simp [Frame.derived, Frame.isVoid, Frame.isWrapper, Frame.liveBound, hp]
    | void p => simp [hp] at hr
    | selfDeleting p => simp [hp] at hr
  | co_return_void =>
    simp only [World.instr] at hr
    cases hp : fr.promise with
    | value p => simp [hp] at hr
    | void p =>
      simp only [hp, Except.ok.injEq] at hr
      rw [← hr]
      refine counted_final f old _ hc h0 hod (derived_trans ?_ hn)
      simp [Frame.derived, Frame.isVoid, Frame.isWrapper, Frame.liveBound, hp]
    | selfDeleting p =>
      simp only [hp, Except.ok.injEq] at hr
      rw [← hr]
      exact counted_final f old _ hc h0 hod hn
  | throw e =>
    simp only [World.instr, Except.ok.injEq] at hr
    rw [← hr]
    exact counted_raise f old fr _ hc h0 hod hn

/-- One step of a coroutine keeps the count. -/
theorem counted_step {α ε : Type} {d : Nat} {w : World α ε} (f : Nat) (r : World α ε × Next)
    (hc : w.counted d) (hr : w.step f = Except.ok r) : r.1.counted d := by
  simp only [World.step] at hr
  cases hfr : w.frame? (some f) with
  | none => simp [hfr] at hr
  | some fr =>
    obtain ⟨h0, hod⟩ := frame?_some hfr
    simp only [hfr] at hr
    by_cases hdone : fr.done = true
    · simp [hdone] at hr
    · have hdf : fr.done = false := by simpa using hdone
      simp only [hdf, Bool.false_eq_true, if_false] at hr
      cases haw : fr.awaiting with
      | some c =>
        simp only [haw] at hr
        exact counted_await_resume f fr fr c r hc h0 hod (derived_refl fr) hr
      | none =>
        simp only [haw] at hr
        cases hbody : fr.body with
        | nil =>
          simp only [hbody] at hr
          cases hp : fr.promise with
          | value p => simp [hp] at hr
          | void p =>
            simp only [hp, Except.ok.injEq] at hr
            rw [← hr]
            exact counted_final f fr fr hc h0 hod (derived_refl fr)
          | selfDeleting p =>
            simp only [hp, Except.ok.injEq] at hr
            rw [← hr]
            exact counted_final f fr fr hc h0 hod (derived_refl fr)
        | cons i rest =>
          simp only [hbody] at hr
          refine counted_instr f fr { fr with body := rest, awaiting := none, done := false }
            i r hc h0 hod rfl ?_ ?_ hr
          · refine ⟨rfl, rfl, rfl, rfl, rfl, ?_⟩
            intro j hj
            rw [hbody]
            exact List.mem_cons_of_mem _ hj
          · intro t ht
            refine (hc.2 f fr h0).2 t ?_
            rw [hbody, ← ht]
            exact List.mem_cons_self _ _

/-- In every reachable state the counter counts the queued handles, the handles held by
workers, the live bound wrappers and the abandoned schedule operations. -/
theorem reachable_counted {α ε : Type} {d : Nat} {w : World α ε} (h : Reachable d w) :
    w.counted d := by
  induction h with
  | init threadCount threads =>
    refine ⟨rfl, ?_⟩
    intro i fr hi
    simp at hi
  | @create d0 w0 isVoid body _ hb ih =>
    obtain ⟨p, hp⟩ : ∃ p : PromiseState α ε, p =
        if isVoid then PromiseState.void {} else PromiseState.value {} := ⟨_, rfl⟩
    have hfr : (Task.create w0 isVoid body).1.frames =
        w0.frames ++ [{ promise := p, body := body }] := by
      rw [hp]
      rfl
    refine counted_append { promise := p, body := body } ih hfr ?_ hb ?_
    · intro hw
      rw [hp] at hw
      cases isVoid <;> simp [Frame.isWrapper] at hw
    · have hl : ({ promise := p, body := body } : Frame α ε).liveBound = false := by
        rw [hp]
        cases isVoid <;> simp [Frame.liveBound]
      rw [hl]
      exact ih.1
  | spawn task r _ ht hr ih => exact counted_spawn task r ih ht hr
  | resume handle r _ hr ih => exact counted_resume handle r ih hr
  | resume_handles handles _ ih => exact counted_resume_handles handles ih
  | schedule _ ih => exact counted_schedule ih
  | request_shutdown _ ih => exact counted_pool ih rfl ih.1
  | worker_pop handle rest _ hq ih => exact counted_pop handle rest ih hq
  | worker_account handle _ hm ih => exact counted_account handle ih hm
  | step f r _ hr ih => exact counted_step f r ih hr

theorem exampleSpawned_reachable : Reachable 0 exampleSpawned :=
  Reachable.spawn (some 0) (exampleSpawned, true)
    (Reachable.create true [Instr.record 7, Instr.throw 3] (Reachable.init 0 [])
      (by intro h hm; simp at hm))
    rfl rfl

/-! ## C20: the counter never underflows -/

/-- C20: in every reachable state in which the units the counter counts are fewer than
`2 ^ 64`, `size()` is at least the number of handles in the ready queue plus the number of
handles held by workers; the `fetch_sub(1)` of a worker that holds a handle and the
`fetch_sub(1)` of the final suspend of a live bound wrapper each find a counter of at least 1
and take exactly one off; the `fetch_sub(1)` that `schedule()` and `resume(handle)` do when
shutdown was requested, and the `fetch_sub(null_handles)` of `resume(handles)`, follow the
function's own `fetch_add` and find a counter at least as large as what they take off. -/
theorem C20_counter_never_underflows {α ε : Type} (d : Nat) (w : World α ε)
    (h : Reachable d w)
    (hno : w.pool.queue_size + w.executing.length + w.liveBound + d < 2 ^ 64) :
    w.pool.queue_size + w.executing.length ≤ w.pool.size ∧
    (∀ handle ∈ w.executing, 1 ≤ w.pool.size ∧
      (ThreadPool.executor_account w handle).pool.size + 1 = w.pool.size) ∧
    (∀ (i : Nat) (fr : Frame α ε) (p : PromiseSelfDeleting), w.frames[i]? = some fr →
      fr.destroyed = false → fr.promise = PromiseState.selfDeleting p →
      p.executorSize_ = true →
        1 ≤ w.pool.size ∧ p.final_suspend w.pool.size + 1 = w.pool.size) ∧
    (w.pool.size + 1 < 2 ^ 64 → 1 ≤ fetch_add w.pool.size 1) ∧
    (∀ handles : List Handle, w.pool.size + handles.length < 2 ^ 64 →
      handles.countP (fun h => h == none) ≤ fetch_add w.pool.size handles.length) := by
  have hs : w.pool.size_ = w.pool.queue_.length + w.executing.length + w.liveBound + d := by
    rw [(reachable_counted h).1]
    exact Nat.mod_eq_of_lt hno
  refine ⟨?_, ?_, ?_, ?_, ?_⟩
  · show w.pool.queue_.length + w.executing.length ≤ w.pool.size_
    omega
  · intro handle hm
    have hpos : 0 < w.executing.length := List.length_pos_of_mem hm
    have hno1 : w.pool.size_ < 2 ^ 64 := by
      rw [hs]
      exact hno
    refine ⟨?_, ?_⟩
    · show 1 ≤ w.pool.size_
      omega
    · show fetch_sub w.pool.size_ 1 + 1 = w.pool.size_
      unfold fetch_sub
      omega
  · intro i fr p hi hd hp hb
    have hlt := lt_of_getElem?_eq_some hi
    have hget : w.frames[i] = fr := by
      rw [List.getElem?_eq_getElem hlt] at hi
      exact Option.some.inj hi
    have hlb : fr.liveBound = true := by
      simp [Frame.liveBound, hp, hd, hb]
    have hpos : 0 < w.liveBound :=
      List.countP_pos_iff.2 ⟨fr, hget ▸ List.getElem_mem hlt, hlb⟩
    have hno1 : w.pool.size_ < 2 ^ 64 := by
      rw [hs]
      exact hno
    refine ⟨?_, ?_⟩
    · show 1 ≤ w.pool.size_
      omega
    · show p.final_suspend w.pool.size_ + 1 = w.pool.size_
      simp only [PromiseSelfDeleting.final_suspend, hb, if_true]
      unfold fetch_sub
      omega
  · intro h1
    show 1 ≤ fetch_add w.pool.size_ 1
    have h2 : w.pool.size_ + 1 < 2 ^ 64 := h1
    unfold fetch_add
    omega
  · intro handles h1
    have h2 : w.pool.size_ + handles.length < 2 ^ 64 := h1
    have hsum := countP_null_add_nonnull handles
    show handles.countP (fun h => h == none) ≤ fetch_add w.pool.size_ handles.length
    unfold fetch_add
    omega

/-- C20 (witness): the state `exampleSpawned`, with one handle queued and one live wrapper. -/
theorem C20_counter_never_underflows_witness :
    exampleSpawned.pool.queue_size + exampleSpawned.executing.length ≤
      exampleSpawned.pool.size ∧
    (∀ handle ∈ exampleSpawned.executing, 1 ≤ exampleSpawned.pool.size ∧
      (ThreadPool.executor_account exampleSpawned handle).pool.size + 1 =
        exampleSpawned.pool.size) ∧
    (∀ (i : Nat) (fr : Frame Nat Nat) (p : PromiseSelfDeleting),
      exampleSpawned.frames[i]? = some fr →
      fr.destroyed = false → fr.promise = PromiseState.selfDeleting p →
      p.executorSize_ = true →
        1 ≤ exampleSpawned.pool.size ∧
          p.final_suspend exampleSpawned.pool.size + 1 = exampleSpawned.pool.size) ∧
    (exampleSpawned.pool.size + 1 < 2 ^ 64 → 1 ≤ fetch_add exampleSpawned.pool.size 1) ∧
    (∀ handles : List Handle, exampleSpawned.pool.size + handles.length < 2 ^ 64 →
      handles.countP (fun h => h == none) ≤
        fetch_add exampleSpawned.pool.size handles.length) :=
  C20_counter_never_underflows 0 exampleSpawned exampleSpawned_reachable
    (by show 1 + 0 + 1 + 0 < 2 ^ 64; norm_num)

/-! ## Shutdown (C7) -/

/-- The call `handle.destroy()` on the frame of a `Task` keeps the count. -/
theorem counted_destroy_task {α ε : Type} {d : Nat} {w : World α ε} (h : Handle)
    (hc : w.counted d) (ht : w.isTask h = true) : (w.destroy h).counted d := by
  cases h with
  | none => exact hc
  | some u =>
    simp only [World.destroy]
    cases hu : w.frames[u]? with
    | none => exact hc
    | some fu =>
      have hnw : fu.isWrapper = false := by
        simpa [World.isTask, hu] using ht
      have hnl : fu.liveBound = false := by
        cases hp : fu.promise <;> simp [Frame.isWrapper, Frame.liveBound, hp] at hnw ⊢
      have hv1 : ({ fu with destroyed := true } : Frame α ε).isVoid = fu.isVoid := rfl
      have hw1 : ({ fu with destroyed := true } : Frame α ε).isWrapper = fu.isWrapper := rfl
      have hl1 : ({ fu with destroyed := true } : Frame α ε).liveBound = false := by
        cases hp : fu.promise <;> simp [Frame.isWrapper, Frame.liveBound, hp] at hnw ⊢
      refine ⟨?_, wellTyped_setFrame w u fu _ hc.2 hu hv1 ?_ ?_⟩
      · have := liveBound_setFrame w u fu { fu with destroyed := true } hu
        rw [hl1, hnl] at this
        have hl : (w.setFrame u { fu with destroyed := true }).liveBound = w.liveBound := by
          simpa using this
        rw [hl]
        exact hc.1
      · intro hw
        rw [hw1, hnw] at hw
        cases hw
      · intro t htm
        exact (hc.2 u fu hu).2 t htm

/-- Awaiting a `ScheduleOperation` puts the awaiting coroutine in the ready queue and leaves
the counter alone: the count is kept with `2 ^ 64 - 1` further units, that is one unit less
modulo `2 ^ 64`. -/
theorem counted_await_suspend {α ε : Type} {d : Nat} {w w1 : World α ε} (h : Handle)
    (hc : w.counted d) (hd : w.done h = some false)
    (hr : ScheduleOperation.await_suspend w h = Except.ok w1) :
    w1.counted (d + (2 ^ 64 - 1)) := by
  cases h with
  | none => simp [World.done, World.frame?] at hd
  | some i =>
    simp only [ScheduleOperation.await_suspend, ThreadPool.schedule_impl, hd,
      Except.ok.injEq] at hr
    rw [← hr]
    refine counted_pool hc rfl ?_
    show w.pool.size_ = ((w.pool.queue_ ++ [some i]).length + w.executing.length +
      w.liveBound + (d + (2 ^ 64 - 1))) % 2 ^ 64
    rw [hc.1, List.length_append, List.length_singleton]
    omega

/-- In every state of `Reached` the counter counts the queued handles, the handles held by
workers, the live bound wrappers and the operations created, less the awaits, modulo
`2 ^ 64`. -/
theorem reached_counted {α ε : Type} {c a : Nat} {w : World α ε} (h : Reached c a w) :
    w.counted (c + a * (2 ^ 64 - 1)) := by
  induction h with
  | init threadCount =>
    refine ⟨?_, ?_⟩
    · show (0 : Nat) = (0 + 0 + 0 + (0 + 0 * (2 ^ 64 - 1))) % 2 ^ 64
      norm_num
    · intro i fr hi
      simp at hi
  | @create c0 a0 w0 isVoid body _ hb ih =>
    obtain ⟨p, hp⟩ : ∃ p : PromiseState α ε, p =
        if isVoid then PromiseState.void {} else PromiseState.value {} := ⟨_, rfl⟩
    have hfr : (Task.create w0 isVoid body).1.frames =
        w0.frames ++ [{ promise := p, body := body }] := by
      rw [hp]
      rfl
    refine counted_append { promise := p, body := body } ih hfr ?_ hb ?_
    · intro hw
      rw [hp] at hw
      cases isVoid <;> simp [Frame.isWrapper] at hw
    · have hl : ({ promise := p, body := body } : Frame α ε).liveBound = false := by
        rw [hp]
        cases isVoid <;> simp [Frame.liveBound]
      rw [hl]
      exact ih.1
  | @destroy c0 a0 w0 t _ ht ih =>
    cases hco : t.coroutine_ with
    | none =>
      simp only [Task.destroy, hco]
      exact ih
    | some i =>
      simp only [Task.destroy, hco]
      rw [hco] at ht
      exact counted_destroy_task (some i) ih ht
  | spawn task w1 _ ht hr ih => exact counted_spawn task (w1, true) ih ht hr
  | resume handle r _ hr ih => exact counted_resume handle r ih hr
  | resume_handles handles _ ih => exact counted_resume_handles handles ih
  | @schedule c0 a0 w0 _ ih =>
    have h1 := counted_schedule (ε := ε) ih
    cases hreq : w0.pool.shutdownRequested_ with
    | true =>
      rw [hreq] at h1
      exact h1
    | false =>
      rw [hreq] at h1
      simp only [Bool.false_eq_true, if_false] at h1 ⊢
      rw [Nat.add_right_comm]
      exact h1
  | @await_suspend c0 a0 w0 handle w1 _ _ hd hr ih =>
    have h1 := counted_await_suspend handle ih hd hr
    have he : c0 + (a0 + 1) * (2 ^ 64 - 1) = c0 + a0 * (2 ^ 64 - 1) + (2 ^ 64 - 1) := by
      rw [Nat.add_mul, Nat.one_mul, Nat.add_assoc]
    rw [he]
    exact h1
  | request_shutdown _ ih => exact counted_pool ih rfl ih.1
  | worker_pop handle rest _ hq ih => exact counted_pop handle rest ih hq
  | worker_account handle _ hm ih => exact counted_account handle ih hm
  | step f r _ _ hr ih => exact counted_step f r ih hr

/-- The state `exampleSpawned` is reached without a rejected spawn. -/
theorem exampleSpawned_reached : Reached 0 0 exampleSpawned :=
  Reached.spawn (some 0) exampleSpawned
    (Reached.create true [Instr.record 7, Instr.throw 3] (Reached.init 0)
      (by intro h hm; simp at hm))
    rfl rfl

/-- The state `exampleReawaited` is reached: one operation created, two awaits. -/
theorem exampleReawaited_reached : Reached 1 2 exampleReawaited :=
  Reached.await_suspend (some 0) exampleReawaited
    (Reached.await_suspend (some 0) _
      (Reached.schedule
        (Reached.create true [Instr.record 7, Instr.throw 3] (Reached.init 0)
          (by intro h hm; simp at hm)))
      (by decide) rfl rfl)
    (by decide) rfl rfl

/-! ## C8: what the outstanding counter counts -/

/-- C8 (counterexample): from the new pool and the one not yet started task of
`exampleThrowing`, where `size()` is 0, one `spawn` returns `true` and reaches the state
`exampleSpawned`, in which `size()` is 2 while one handle waits in the ready queue and no worker
holds a handle: the accepted spawn raised `size()` by two. -/
theorem C8_spawn_adds_two :
    Reached 0 0 exampleSpawned ∧ exampleThrowing.pool.size = 0 ∧
    ThreadPool.spawn exampleThrowing (some 0) = Except.ok (exampleSpawned, true) ∧
    exampleSpawned.pool.size = 2 ∧
    exampleSpawned.pool.queue_size + exampleSpawned.executing.length = 1 :=
  ⟨exampleSpawned_reached, rfl, rfl, rfl, rfl⟩

/-- C8 (amended): in every state reached without a rejected `spawn`, with `created` schedule
operations returned by `schedule()` outside a statement `co_await tp.schedule()` and `awaited`
awaits of such operations, `size()` plus `awaited` equals, modulo `2 ^ 64`, the number of
handles in the ready queue plus the number of handles held by workers plus the number of live
wrappers bound to the counter plus `created`; so when no operation was awaited more often than
operations were created, `size()` is the queue plus the handles held by workers plus the live
bound wrappers plus the operations not yet awaited, modulo `2 ^ 64`. And an accepted `spawn`
raises `size()` by two, the queue by one handle and the live bound wrappers by one. -/
theorem C8_size_counts_wrappers {α ε : Type} (created awaited : Nat) (w : World α ε)
    (h : Reached created awaited w) :
    (w.pool.size + awaited) % 2 ^ 64 =
      (w.pool.queue_size + w.executing.length + w.liveBound + created) % 2 ^ 64 ∧
    (awaited ≤ created →
      w.pool.size = (w.pool.queue_size + w.executing.length + w.liveBound +
        (created - awaited)) % 2 ^ 64) ∧
    ∀ (task : Handle) (w1 : World α ε), ThreadPool.spawn w task = Except.ok (w1, true) →
      w1.pool.size = (w.pool.size + 2) % 2 ^ 64 ∧
      w1.pool.queue_size = w.pool.queue_size + 1 ∧ w1.executing = w.executing ∧
      w1.liveBound = w.liveBound + 1 := by
  have hc := (reached_counted h).1
  refine ⟨?_, ?_, ?_⟩
  · show (w.pool.size_ + awaited) % 2 ^ 64 =
      (w.pool.queue_.length + w.executing.length + w.liveBound + created) % 2 ^ 64
    rw [hc]
    omega
  · intro hle
    show w.pool.size_ = (w.pool.queue_.length + w.executing.length + w.liveBound +
      (created - awaited)) % 2 ^ 64
    rw [hc]
    omega
  · intro task w1 hsp
    cases hreq : w.pool.shutdownRequested_ with
    | true =>
      rw [spawn_rejected w task hreq] at hsp
      simp at hsp
    | false =>
      rw [spawn_accepted w task hreq] at hsp
      simp only [Except.ok.injEq, Prod.mk.injEq, and_true] at hsp
      rw [← hsp]
      refine ⟨?_, ?_, rfl, ?_⟩
      · show fetch_add (fetch_add w.pool.size_ 1) 1 = (w.pool.size_ + 2) % 2 ^ 64
        unfold fetch_add
        omega
      · show (w.pool.queue_ ++ [some w.frames.length]).length = w.pool.queue_.length + 1
        simp
      · show (w.frames ++ [wrapperFrame task true]).countP Frame.liveBound =
          w.frames.countP Frame.liveBound + 1
        rw [List.countP_append]
        rfl

/-- C8 (witness): the state `exampleReawaited`, in which `size()` is 1 and the task waits
twice in the ready queue. -/
theorem C8_size_counts_wrappers_witness :
    ((exampleReawaited.pool.size + 2) % 2 ^ 64 =
      (exampleReawaited.pool.queue_size + exampleReawaited.executing.length +
        exampleReawaited.liveBound + 1) % 2 ^ 64 ∧
    (2 ≤ 1 →
      exampleReawaited.pool.size = (exampleReawaited.pool.queue_size +
        exampleReawaited.executing.length + exampleReawaited.liveBound + (1 - 2)) % 2 ^ 64) ∧
    ∀ (task : Handle) (w1 : World Nat Nat),
      ThreadPool.spawn exampleReawaited task = Except.ok (w1, true) →
      w1.pool.size = (exampleReawaited.pool.size + 2) % 2 ^ 64 ∧
      w1.pool.queue_size = exampleReawaited.pool.queue_size + 1 ∧
      w1.executing = exampleReawaited.executing ∧
      w1.liveBound = exampleReawaited.liveBound + 1) ∧
    exampleReawaited.pool.size = 1 ∧ exampleReawaited.pool.queue_ = [some 0, some 0] :=
  ⟨C8_size_counts_wrappers 1 2 exampleReawaited
    (Reached.await_suspend (some 0) exampleReawaited
      (Reached.await_suspend (some 0) _
        (Reached.schedule
          (Reached.create true [Instr.record 7, Instr.throw 3] (Reached.init 0)
            (by intro h hm; simp at hm)))
        (by decide) rfl rfl)
      (by decide) rfl rfl), rfl, rfl⟩

end coro
